import Mathlib

/-!
# Raster-pipeline builder and SkSL program compiler

A shallow embedding of `src/sksl/codegen/SkSLRasterPipelineBuilder.h` (the instruction
recorder `SkSL::RP::Builder`), together with models of the stage engine exercised by
`tests/SkRasterPipelineTest.cpp`, and embeddings of the sample-size, color-type and pixel
entry points of `src/codec/SkAndroidCodec.cpp`, of the promise-texture and texture-image
factories of `src/gpu/graphite/Image_Graphite.cpp` and of `include/gpu/GpuTypes.h`.

Conventions
* C++ `int` values are `Int`; an increment that would overflow a 32-bit `int`
  (undefined behaviour in C++) makes the embedded method return `none`.
* A failing `SkASSERT` makes the embedded method return `none`.
* `SkTArray<Instruction>` is a `List Instruction`, `push_back` appends at the end.
-/

namespace SkSL.RP

/-! ## Data model (SkSLRasterPipelineBuilder.h, lines 28-83) -/

/-- A single scalar in our program consumes one slot (`using Slot = int`). -/
abbrev Slot := Int

/-- The constant `NA = -1`, the value of an unused slot operand. -/
def NA : Slot := -1

/-- Largest value of a C++ 32-bit `int`. -/
def INT_MAX : Int := 2147483647

/-- Scalars, vectors, and matrices are represented as a range of slot indices. -/
structure SlotRange where
  index : Slot := 0
  count : Int := 0
  deriving DecidableEq, Repr

/-- Ops that the builder records. The native raster-pipeline stages come from the
stage-list expansion `SK_RASTER_PIPELINE_STAGES_ALL`, whose text is not part of this header;
the native stages that the inline `Builder` methods name are listed individually and every
other native stage is `native k`, with `k` its position in the stage table. The
builder-specific ops follow in the order of the header. -/
inductive BuilderOp where
  | native (stage : Nat)
  | init_lane_masks
  | store_src_rg
  | store_src
  | store_dst
  | load_src
  | load_dst
  | jump
  | branch_if_any_active_lanes
  | branch_if_no_active_lanes
  | immediate_f
  | load_unmasked
  | store_unmasked
  | store_masked
  | copy_slot_masked
  | copy_slot_unmasked
  | zero_slot_unmasked
  | merge_condition_mask
  | mask_off_loop_mask
  | reenable_loop_mask
  | merge_loop_mask
  | mask_off_return_mask
  | push_literal_f
  | push_slots
  | push_uniform
  | push_zeros
  | push_clone
  | copy_stack_to_slots
  | copy_stack_to_slots_unmasked
  | discard_stack
  | select
  | push_condition_mask
  | pop_condition_mask
  | push_loop_mask
  | pop_loop_mask
  | push_return_mask
  | pop_return_mask
  | set_current_stack
  | label
  | unsupported
  deriving DecidableEq, Repr

/-- Represents a single raster-pipeline SkSL instruction. -/
structure Instruction where
  fOp : BuilderOp
  fSlotA : Slot := NA
  fSlotB : Slot := NA
  fSlotC : Slot := NA
  fImmA : Int := 0
  fImmB : Int := 0
  deriving DecidableEq, Repr

/-- The constructor `Instruction(op, slots, a, b)`: the first three entries of the
initializer list fill `fSlotA`, `fSlotB`, `fSlotC`; the missing ones stay `NA`. (The
constructor asserts that the list has at most three entries; the builder passes at most
two.) -/
def Instruction.make (op : BuilderOp) (slots : List Slot) (a : Int) (b : Int) : Instruction :=
  { fOp := op
    fSlotA := slots.getD 0 NA
    fSlotB := slots.getD 1 NA
    fSlotC := slots.getD 2 NA
    fImmA := a
    fImmB := b }

/-- Reinterpretation of a 32-bit pattern as `int32_t` (`sk_bit_cast<int32_t>`); the pattern
is given as the unsigned number it spells. -/
def sk_bit_cast_int32 (bits : Nat) : Int :=
  if bits % 4294967296 < 2147483648 then (bits % 4294967296 : Nat)
  else ((bits % 4294967296 : Nat) : Int) - 4294967296

/-- Reinterpretation of an `int32_t` as the 32-bit pattern it is stored in. -/
def sk_bit_cast_uint32 (v : Int) : Nat :=
  (v % 4294967296).toNat

/-! ## The Builder (SkSLRasterPipelineBuilder.h, lines 168-431) -/

/-- The private state of `SkSL::RP::Builder`. -/
structure Builder where
  fInstructions : List Instruction := []
  fNumLabels : Int := 0
  fNumBranches : Int := 0
  deriving DecidableEq, Repr

namespace Builder

/-- A freshly constructed Builder. -/
def fresh : Builder := {}

/-- The call `fInstructions.push_back(inst)`. -/
def push_back (b : Builder) (inst : Instruction) : Builder :=
  { b with fInstructions := b.fInstructions ++ [inst] }

/-- The statement `++fNumBranches`; signed overflow is undefined, hence `none`. -/
def incNumBranches (b : Builder) : Option Builder :=
  if b.fNumBranches < INT_MAX then some { b with fNumBranches := b.fNumBranches + 1 } else none

/-- The assertion `labelID >= 0 && labelID < fNumLabels` shared by `label`, `jump`,
`branch_if_any_active_lanes` and `branch_if_no_active_lanes`. -/
def labelAssertion (b : Builder) (labelID : Int) : Bool :=
  decide (labelID ≥ 0) && decide (labelID < b.fNumLabels)

/-- The method `nextLabelID`: `return fNumLabels++;`. -/
def nextLabelID (b : Builder) : Option (Int × Builder) :=
  if b.fNumLabels < INT_MAX then
    some (b.fNumLabels, { b with fNumLabels := b.fNumLabels + 1 })
  else none

def init_lane_masks (b : Builder) : Option Builder :=
  some (b.push_back (Instruction.make .init_lane_masks [] 0 0))

def store_src_rg (b : Builder) (slots : SlotRange) : Option Builder :=
  if slots.count = 2 then
    some (b.push_back (Instruction.make .store_src_rg [slots.index] 0 0))
  else none

def store_src (b : Builder) (slots : SlotRange) : Option Builder :=
  if slots.count = 4 then
    some (b.push_back (Instruction.make .store_src [slots.index] 0 0))
  else none

def store_dst (b : Builder) (slots : SlotRange) : Option Builder :=
  if slots.count = 4 then
    some (b.push_back (Instruction.make .store_dst [slots.index] 0 0))
  else none

def load_src (b : Builder) (slots : SlotRange) : Option Builder :=
  if slots.count = 4 then
    some (b.push_back (Instruction.make .load_src [slots.index] 0 0))
  else none

def load_dst (b : Builder) (slots : SlotRange) : Option Builder :=
  if slots.count = 4 then
    some (b.push_back (Instruction.make .load_dst [slots.index] 0 0))
  else none

def set_current_stack (b : Builder) (stackIdx : Int) : Option Builder :=
  some (b.push_back (Instruction.make .set_current_stack [] stackIdx 0))

def label (b : Builder) (labelID : Int) : Option Builder :=
  if b.labelAssertion labelID then
    some (b.push_back (Instruction.make .label [] labelID 0))
  else none

def jump (b : Builder) (labelID : Int) : Option Builder :=
  if b.labelAssertion labelID then
    (b.push_back (Instruction.make .jump [] labelID 0)).incNumBranches
  else none

def branch_if_any_active_lanes (b : Builder) (labelID : Int) : Option Builder :=
  if b.labelAssertion labelID then
    (b.push_back (Instruction.make .branch_if_any_active_lanes [] labelID 0)).incNumBranches
  else none

def branch_if_no_active_lanes (b : Builder) (labelID : Int) : Option Builder :=
  if b.labelAssertion labelID then
    (b.push_back (Instruction.make .branch_if_no_active_lanes [] labelID 0)).incNumBranches
  else none

/-- The method `immediate_f(float val)`; the float is given by its 32-bit pattern. -/
def immediate_f (b : Builder) (valBits : Nat) : Option Builder :=
  some (b.push_back (Instruction.make .immediate_f [] (sk_bit_cast_int32 valBits) 0))

def immediate_i (b : Builder) (val : Int) : Option Builder :=
  some (b.push_back (Instruction.make .immediate_f [] val 0))

def immediate_u (b : Builder) (val : Nat) : Option Builder :=
  some (b.push_back (Instruction.make .immediate_f [] (sk_bit_cast_int32 val) 0))

/-- The method `push_literal_f(float val)`; the float is given by its 32-bit pattern. -/
def push_literal_f (b : Builder) (valBits : Nat) : Option Builder :=
  some (b.push_back (Instruction.make .push_literal_f [] (sk_bit_cast_int32 valBits) 0))

def push_literal_i (b : Builder) (val : Int) : Option Builder :=
  some (b.push_back (Instruction.make .push_literal_f [] val 0))

def push_literal_u (b : Builder) (val : Nat) : Option Builder :=
  some (b.push_back (Instruction.make .push_literal_f [] (sk_bit_cast_int32 val) 0))

def push_uniform (b : Builder) (src : SlotRange) : Option Builder :=
  some (b.push_back (Instruction.make .push_uniform [src.index] src.count 0))

def push_zeros (b : Builder) (count : Int) : Option Builder :=
  some (b.push_back (Instruction.make .push_zeros [] count 0))

def push_slots (b : Builder) (src : SlotRange) : Option Builder :=
  if src.count ≥ 0 then
    if src.count > 0 then
      some (b.push_back (Instruction.make .push_slots [src.index] src.count 0))
    else some b
  else none

/-- The overload `copy_stack_to_slots(SlotRange dst, int offsetFromStackTop)`. -/
def copy_stack_to_slots_at (b : Builder) (dst : SlotRange) (offsetFromStackTop : Int) :
    Option Builder :=
  some (b.push_back
    (Instruction.make .copy_stack_to_slots [dst.index] dst.count offsetFromStackTop))

/-- The overload `copy_stack_to_slots(SlotRange dst)`. -/
def copy_stack_to_slots (b : Builder) (dst : SlotRange) : Option Builder :=
  b.copy_stack_to_slots_at dst dst.count

/-- The overload `copy_stack_to_slots_unmasked(SlotRange dst, int offsetFromStackTop)`. -/
def copy_stack_to_slots_unmasked_at (b : Builder) (dst : SlotRange)
    (offsetFromStackTop : Int) : Option Builder :=
  some (b.push_back
    (Instruction.make .copy_stack_to_slots_unmasked [dst.index] dst.count offsetFromStackTop))

/-- The overload `copy_stack_to_slots_unmasked(SlotRange dst)`. -/
def copy_stack_to_slots_unmasked (b : Builder) (dst : SlotRange) : Option Builder :=
  b.copy_stack_to_slots_unmasked_at dst dst.count

def discard_stack (b : Builder) (count : Int) : Option Builder :=
  some (b.push_back (Instruction.make .discard_stack [] count 0))

def pop_slots (b : Builder) (dst : SlotRange) : Option Builder :=
  (b.copy_stack_to_slots dst).bind fun b1 => b1.discard_stack dst.count

/-- The method `push_clone(numSlots, offsetFromStackTop)`; the immediate
`numSlots + offsetFromStackTop` is an `int` sum, whose overflow is undefined. -/
def push_clone (b : Builder) (numSlots : Int) (offsetFromStackTop : Int) : Option Builder :=
  if -INT_MAX - 1 ≤ numSlots + offsetFromStackTop ∧ numSlots + offsetFromStackTop ≤ INT_MAX then
    some (b.push_back
      (Instruction.make .push_clone [] numSlots (numSlots + offsetFromStackTop)))
  else none

def select (b : Builder) (slots : Int) : Option Builder :=
  if slots > 0 then
    some (b.push_back (Instruction.make .select [] slots 0))
  else none

def pop_slots_unmasked (b : Builder) (dst : SlotRange) : Option Builder :=
  (b.copy_stack_to_slots_unmasked dst).bind fun b1 => b1.discard_stack dst.count

def load_unmasked (b : Builder) (slot : Slot) : Option Builder :=
  some (b.push_back (Instruction.make .load_unmasked [slot] 0 0))

def store_unmasked (b : Builder) (slot : Slot) : Option Builder :=
  some (b.push_back (Instruction.make .store_unmasked [slot] 0 0))

def store_masked (b : Builder) (slot : Slot) : Option Builder :=
  some (b.push_back (Instruction.make .store_masked [slot] 0 0))

def copy_slots_masked (b : Builder) (dst src : SlotRange) : Option Builder :=
  if dst.count = src.count then
    some (b.push_back (Instruction.make .copy_slot_masked [dst.index, src.index] dst.count 0))
  else none

def copy_slots_unmasked (b : Builder) (dst src : SlotRange) : Option Builder :=
  if dst.count = src.count then
    some (b.push_back (Instruction.make .copy_slot_unmasked [dst.index, src.index] dst.count 0))
  else none

def zero_slots_unmasked (b : Builder) (dst : SlotRange) : Option Builder :=
  some (b.push_back (Instruction.make .zero_slot_unmasked [dst.index] dst.count 0))

def push_condition_mask (b : Builder) : Option Builder :=
  some (b.push_back (Instruction.make .push_condition_mask [] 0 0))

def pop_condition_mask (b : Builder) : Option Builder :=
  some (b.push_back (Instruction.make .pop_condition_mask [] 0 0))

def merge_condition_mask (b : Builder) : Option Builder :=
  some (b.push_back (Instruction.make .merge_condition_mask [] 0 0))

def push_loop_mask (b : Builder) : Option Builder :=
  some (b.push_back (Instruction.make .push_loop_mask [] 0 0))

def pop_loop_mask (b : Builder) : Option Builder :=
  some (b.push_back (Instruction.make .pop_loop_mask [] 0 0))

def mask_off_loop_mask (b : Builder) : Option Builder :=
  some (b.push_back (Instruction.make .mask_off_loop_mask [] 0 0))

def reenable_loop_mask (b : Builder) (src : SlotRange) : Option Builder :=
  if src.count = 1 then
    some (b.push_back (Instruction.make .reenable_loop_mask [src.index] 0 0))
  else none

def merge_loop_mask (b : Builder) : Option Builder :=
  some (b.push_back (Instruction.make .merge_loop_mask [] 0 0))

def push_return_mask (b : Builder) : Option Builder :=
  some (b.push_back (Instruction.make .push_return_mask [] 0 0))

def pop_return_mask (b : Builder) : Option Builder :=
  some (b.push_back (Instruction.make .pop_return_mask [] 0 0))

def mask_off_return_mask (b : Builder) : Option Builder :=
  some (b.push_back (Instruction.make .mask_off_return_mask [] 0 0))

end Builder

/-! ## Sequences of Builder calls -/

/-- One call of a method that is defined inline in the `Builder` class. -/
inductive Call where
  | nextLabelID
  | init_lane_masks
  | store_src_rg (slots : SlotRange)
  | store_src (slots : SlotRange)
  | store_dst (slots : SlotRange)
  | load_src (slots : SlotRange)
  | load_dst (slots : SlotRange)
  | set_current_stack (stackIdx : Int)
  | label (labelID : Int)
  | jump (labelID : Int)
  | branch_if_any_active_lanes (labelID : Int)
  | branch_if_no_active_lanes (labelID : Int)
  | immediate_f (valBits : Nat)
  | immediate_i (val : Int)
  | immediate_u (val : Nat)
  | push_literal_f (valBits : Nat)
  | push_literal_i (val : Int)
  | push_literal_u (val : Nat)
  | push_uniform (src : SlotRange)
  | push_zeros (count : Int)
  | push_slots (src : SlotRange)
  | copy_stack_to_slots (dst : SlotRange)
  | copy_stack_to_slots_at (dst : SlotRange) (offsetFromStackTop : Int)
  | copy_stack_to_slots_unmasked (dst : SlotRange)
  | copy_stack_to_slots_unmasked_at (dst : SlotRange) (offsetFromStackTop : Int)
  | discard_stack (count : Int)
  | pop_slots (dst : SlotRange)
  | push_clone (numSlots : Int) (offsetFromStackTop : Int)
  | select (slots : Int)
  | pop_slots_unmasked (dst : SlotRange)
  | load_unmasked (slot : Slot)
  | store_unmasked (slot : Slot)
  | store_masked (slot : Slot)
  | copy_slots_masked (dst src : SlotRange)
  | copy_slots_unmasked (dst src : SlotRange)
  | zero_slots_unmasked (dst : SlotRange)
  | push_condition_mask
  | pop_condition_mask
  | merge_condition_mask
  | push_loop_mask
  | pop_loop_mask
  | mask_off_loop_mask
  | reenable_loop_mask (src : SlotRange)
  | merge_loop_mask
  | push_return_mask
  | pop_return_mask
  | mask_off_return_mask
  deriving DecidableEq, Repr

/-- The recording methods: every method of the class but `nextLabelID`. -/
def Call.isRecording : Call → Bool
  | .nextLabelID => false
  | _ => true

/-- The convenience composites, which are written as two calls of other methods. -/
def Call.isComposite : Call → Bool
  | .pop_slots _ => true
  | .pop_slots_unmasked _ => true
  | _ => false

/-- Dispatch of a recording call to the method it names (`nextLabelID`, which records
nothing, leaves the Builder as it is here; its effect is in `Builder.call`). -/
def Builder.record (b : Builder) : Call → Option Builder
  | .nextLabelID => some b
  | .init_lane_masks => b.init_lane_masks
  | .store_src_rg slots => b.store_src_rg slots
  | .store_src slots => b.store_src slots
  | .store_dst slots => b.store_dst slots
  | .load_src slots => b.load_src slots
  | .load_dst slots => b.load_dst slots
  | .set_current_stack stackIdx => b.set_current_stack stackIdx
  | .label labelID => b.label labelID
  | .jump labelID => b.jump labelID
  | .branch_if_any_active_lanes labelID => b.branch_if_any_active_lanes labelID
  | .branch_if_no_active_lanes labelID => b.branch_if_no_active_lanes labelID
  | .immediate_f valBits => b.immediate_f valBits
  | .immediate_i val => b.immediate_i val
  | .immediate_u val => b.immediate_u val
  | .push_literal_f valBits => b.push_literal_f valBits
  | .push_literal_i val => b.push_literal_i val
  | .push_literal_u val => b.push_literal_u val
  | .push_uniform src => b.push_uniform src
  | .push_zeros count => b.push_zeros count
  | .push_slots src => b.push_slots src
  | .copy_stack_to_slots dst => b.copy_stack_to_slots dst
  | .copy_stack_to_slots_at dst off => b.copy_stack_to_slots_at dst off
  | .copy_stack_to_slots_unmasked dst => b.copy_stack_to_slots_unmasked dst
  | .copy_stack_to_slots_unmasked_at dst off => b.copy_stack_to_slots_unmasked_at dst off
  | .discard_stack count => b.discard_stack count
  | .pop_slots dst => b.pop_slots dst
  | .push_clone numSlots off => b.push_clone numSlots off
  | .select slots => b.select slots
  | .pop_slots_unmasked dst => b.pop_slots_unmasked dst
  | .load_unmasked slot => b.load_unmasked slot
  | .store_unmasked slot => b.store_unmasked slot
  | .store_masked slot => b.store_masked slot
  | .copy_slots_masked dst src => b.copy_slots_masked dst src
  | .copy_slots_unmasked dst src => b.copy_slots_unmasked dst src
  | .zero_slots_unmasked dst => b.zero_slots_unmasked dst
  | .push_condition_mask => b.push_condition_mask
  | .pop_condition_mask => b.pop_condition_mask
  | .merge_condition_mask => b.merge_condition_mask
  | .push_loop_mask => b.push_loop_mask
  | .pop_loop_mask => b.pop_loop_mask
  | .mask_off_loop_mask => b.mask_off_loop_mask
  | .reenable_loop_mask src => b.reenable_loop_mask src
  | .merge_loop_mask => b.merge_loop_mask
  | .push_return_mask => b.push_return_mask
  | .pop_return_mask => b.pop_return_mask
  | .mask_off_return_mask => b.mask_off_return_mask

/-- One call on a Builder: the Builder after the call and, for `nextLabelID`, the handle
that the call returned. -/
def Builder.call (b : Builder) (c : Call) : Option (Builder × Option Int) :=
  match c with
  | .nextLabelID => b.nextLabelID.map fun r => (r.2, some r.1)
  | c => (b.record c).map fun b1 => (b1, none)

/-- A sequence of calls, in order, on a Builder: the final Builder and the handles returned
by the `nextLabelID` calls in the order of the calls; `none` as soon as a call fails. -/
def Builder.run (b : Builder) : List Call → Option (Builder × List Int)
  | [] => some (b, [])
  | c :: cs =>
    match b.call c with
    | none => none
    | some (b1, r) =>
      match Builder.run b1 cs with
      | none => none
      | some (b2, hs) => some (b2, r.toList ++ hs)

/-- A `push_slots` call with an empty slot range, for which the method records nothing. -/
def Call.isEmptyPushSlots : Call → Bool
  | .push_slots src => decide (src.count = 0)
  | _ => false

/-- The Builder after `nextLabelID`, `branch_if_no_active_lanes(0)`, `label(0)`. -/
def Builder.exampleForwardBranch : Builder :=
  { fInstructions := [Instruction.make .branch_if_no_active_lanes [] 0 0,
      Instruction.make .label [] 0 0], fNumLabels := 1, fNumBranches := 1 }

/-- The Builder after `nextLabelID`, `init_lane_masks`, `nextLabelID`, `label(1)`,
`nextLabelID`. -/
def Builder.exampleThreeLabels : Builder :=
  { fInstructions := [Instruction.make .init_lane_masks [] 0 0,
      Instruction.make .label [] 1 0], fNumLabels := 3, fNumBranches := 0 }

end SkSL.RP

namespace SkRasterPipeline

/-! ## Stage engine

The stage functions (`src/opts/SkRasterPipeline_opts.h`) and the driver behind
`SkRasterPipeline::run` (`src/core/SkRasterPipeline.cpp`) are not among the source files.
They are modelled from the specification, with the programs, fixtures and expectations of
`tests/SkRasterPipelineTest.cpp` fixing what the specification leaves open.

* A lane holds a 32-bit word, given as the unsigned number (a `Nat`) its bits spell.
* A register is a vector of `N` lanes (`SkOpts::raster_pipeline_highp_stride`), a function
  from the lane index.
* Memory is a flat array of 32-bit cells; a pointer is a cell index, and slot `s` of a slot
  array at `ptr` occupies the cells `ptr + s * N + lane`, one per lane.
* A mask lane counts as set when its word is not zero (the tests use `0` and `~0`).
-/

/-- The word `~0`, all bits set. -/
def kAllOnes : Nat := 4294967295

/-- The `int32_t` whose bit pattern is `w`. -/
def toInt32 (w : Nat) : Int :=
  if w < 2147483648 then (w : Int) else (w : Int) - 4294967296

/-- The bit pattern of an integer, truncated to 32 bits. -/
def ofInt32 (i : Int) : Nat := (i % 4294967296).toNat

/-- A vector register: lane index to lane word. -/
abbrev Vec := Nat → Nat

/-- Flat memory of 32-bit cells. -/
abbrev Mem := Nat → Nat

/-- Modelled from the spec: the register file of the stage functions
(`SkRasterPipeline_opts.h`, not among the source files), the lane registers of §3: four
current-colour accumulators
`r, g, b, a` and four destination accumulators `dr, dg, db, da`; the SkSL stages keep the
condition mask in `dr`, the loop mask in `dg`, the return mask in `db` and the combined
mask in `da` (test comments `// dr (condition)` ... `// da (combined)`). -/
structure Regs where
  r : Vec
  g : Vec
  b : Vec
  a : Vec
  dr : Vec
  dg : Vec
  db : Vec
  da : Vec

/-- The state a stage works on: the lane registers and the memory. -/
structure State where
  regs : Regs
  mem : Mem

/-- The registers at the start of a lane group: all lanes zero. -/
def Regs.zero : Regs :=
  { r := fun _ => 0, g := fun _ => 0, b := fun _ => 0, a := fun _ => 0,
    dr := fun _ => 0, dg := fun _ => 0, db := fun _ => 0, da := fun _ => 0 }

/-- Load of a full vector of `N` lanes from `ptr`. -/
def loadVec (N : Nat) (ptr : Nat) (m : Mem) : Vec :=
  fun lane => if lane < N then m (ptr + lane) else 0

/-- Store of a full vector of `N` lanes at `ptr`. -/
def storeVec (N : Nat) (ptr : Nat) (v : Vec) (m : Mem) : Mem :=
  fun addr => if ptr ≤ addr ∧ addr < ptr + N then v (addr - ptr) else m addr

/-- Lane-wise choice: the lane of `t` where the mask lane is set, the lane of `e` where it
is not. -/
def select (mask t e : Vec) : Vec :=
  fun lane => if mask lane ≠ 0 then t lane else e lane

/-- Whether at least one of the `N` lanes of `v` is set. -/
def anyLane (N : Nat) (v : Vec) : Bool :=
  (List.range N).any fun lane => v lane != 0

/-- The complement `~w` of a 32-bit word. -/
def complement (w : Nat) : Nat :=
  kAllOnes ^^^ w

/-- Lane-wise bitwise conjunction of the condition, loop and return masks. -/
def Regs.maskConjunction (regs : Regs) : Vec :=
  fun lane => regs.dr lane &&& regs.dg lane &&& regs.db lane

/-- Modelled from the spec: the mask update of the stage functions (`SkRasterPipeline_opts.h`,
not among the source files), the recomputation of the combined mask `da` as the conjunction
of condition, loop and return mask after a mask mutation (§9). -/
def Regs.update_execution_mask (regs : Regs) : Regs :=
  { regs with da := regs.maskConjunction }

/-- The integer operations of `SkRasterPipeline_IntArithmeticWithNSlots`. -/
inductive IntOp where
  | add
  | sub
  | mul
  | div
  | div_uint
  | bitwise_and
  | bitwise_or
  | bitwise_xor
  | min
  | min_uint
  | max
  | max_uint
  deriving DecidableEq, Repr

/-- The scalar operation on two 32-bit words that a test's `verify` function computes:
`a + b`, `a - b`, `a * b` wrap modulo 2^32; `a / b` is C++ signed division (truncating);
`divide_unsigned`, `min_unsigned`, `max_unsigned` read the words as `uint32_t`. -/
def IntOp.scalar : IntOp → Nat → Nat → Nat
  | .add, x, y => (x + y) % 4294967296
  | .sub, x, y => ofInt32 ((x : Int) - (y : Int))
  | .mul, x, y => (x * y) % 4294967296
  | .div, x, y => ofInt32 (Int.tdiv (toInt32 x) (toInt32 y))
  | .div_uint, x, y => x / y
  | .bitwise_and, x, y => x &&& y
  | .bitwise_or, x, y => x ||| y
  | .bitwise_xor, x, y => x ^^^ y
  | .min, x, y => if toInt32 x < toInt32 y then x else y
  | .min_uint, x, y => if x < y then x else y
  | .max, x, y => if toInt32 x > toInt32 y then x else y
  | .max_uint, x, y => if x > y then x else y

/-- Modelled from the spec: the slot loop of the multi-slot stage functions
(`SkRasterPipeline_opts.h`, not among the source files). A multi-slot stage walks `k` slots
of `dst` and `src` in step,
slot by slot, and replaces each destination lane by `f lane (dst lane) (src lane)`; all `N`
lanes of a slot are processed, whatever the width of the run (the tests run these stages
with `run(0,0,1,1)` and check all `N` lanes). -/
def applySlots (N : Nat) (f : Nat → Nat → Nat → Nat) : Nat → Nat → Nat → Mem → Mem
  | 0, _, _, m => m
  | k + 1, dst, src, m =>
    applySlots N f k (dst + N) (src + N)
      (storeVec N dst (fun lane => f lane (m (dst + lane)) (m (src + lane))) m)

/-- Modelled from the spec: the slot loop of the zeroing stage functions
(`SkRasterPipeline_opts.h`, not among the source files). A multi-slot stage without source
writes `k` slots of `dst`,
slot by slot, with `v lane` in every lane. -/
def fillSlots (N : Nat) (v : Vec) : Nat → Nat → Mem → Mem
  | 0, _, m => m
  | k + 1, dst, m => fillSlots N v k (dst + N) (storeVec N dst v m)

/-- An RGBA colour of four lane words. -/
structure Color where
  r : Nat
  g : Nat
  b : Nat
  a : Nat
  deriving DecidableEq, Repr

/-- Modelled from the spec: the stage list `SK_RASTER_PIPELINE_STAGES_ALL`
(`SkRasterPipeline.h`, not among the source files), as far as the tests of the SkSL support
append its stages, each with its context. `copy_slots_masked k` stands for the stages `copy_slot_masked`,
`copy_2_slots_masked`, `copy_3_slots_masked`, `copy_4_slots_masked` (`k` = 1..4), likewise
`copy_slots_unmasked k` and `zero_slots_unmasked k`; `int_n op` is the unbounded stage
`op_n_ints` with a `SkRasterPipeline_BinaryOpCtx {dst, src}`, and `int_k op k` the
hard-coded stage `op_int`, `op_2_ints`, `op_3_ints`, `op_4_ints` with context `dst`. -/
inductive Stage where
  | constant_color (c : Color)
  | swap_rb
  | init_lane_masks
  | load_condition_mask (ptr : Nat)
  | load_unmasked (ptr : Nat)
  | store_unmasked (ptr : Nat)
  | store_masked (ptr : Nat)
  | load_dst (ptr : Nat)
  | store_src (ptr : Nat)
  | store_dst (ptr : Nat)
  | copy_slots_masked (k : Nat) (dst src : Nat)
  | copy_slots_unmasked (k : Nat) (dst src : Nat)
  | zero_slots_unmasked (k : Nat) (dst : Nat)
  | int_n (op : IntOp) (dst src : Nat)
  | int_k (op : IntOp) (k : Nat) (dst : Nat)
  | jump (offset : Int)
  | branch_if_any_active_lanes (offset : Int)
  | branch_if_no_active_lanes (offset : Int)
  | merge_loop_mask (ptr : Nat)
  | reenable_loop_mask (ptr : Nat)
  | mask_off_loop_mask
  | mask_off_return_mask
  deriving DecidableEq, Repr

/-- Modelled from the spec: one stage on one lane group of `N` lanes of which the first
`active` belong to the run (`active = N` except in the final group of a row). The result is
the new state and the distance to the stage to continue with: 1 for the next stage, the
stage's offset for a taken branch. `anyActive` is the test a branch stage applies to the
registers. The stage functions are not among the source files; each case follows the test
that exercises the stage:
`init_lane_masks` sets the four masks in the active lanes and clears them in the others
(`SkRasterPipeline_InitLaneMasks`); `load_condition_mask` loads `dr` and recomputes `da`
(`SkRasterPipeline_LoadStoreConditionMask`); `store_masked` writes the lanes whose combined
mask is set (`SkRasterPipeline_LoadStoreMasked`); `load_dst`, `store_src`, `store_dst` move
four registers, one slot each; `merge_loop_mask` and `reenable_loop_mask` combine the loop
mask `dg` with a mask loaded from the context by AND and by OR, `mask_off_loop_mask` and
`mask_off_return_mask` clear in `dg` and in `db` the lanes that the combined mask `da` has
set, and each of the four recomputes `da` (`SkRasterPipeline_MergeLoopMask`,
`SkRasterPipeline_ReenableLoopMask`, `SkRasterPipeline_MaskOffLoopMask`,
`SkRasterPipeline_MaskOffReturnMask`). -/
def Stage.execWith (anyActive : Regs → Bool) (N active : Nat) :
    Stage → State → State × Int
  | .constant_color c, st =>
    ({ st with regs := { st.regs with
        r := fun _ => c.r, g := fun _ => c.g, b := fun _ => c.b, a := fun _ => c.a } }, 1)
  | .swap_rb, st =>
    ({ st with regs := { st.regs with r := st.regs.b, b := st.regs.r } }, 1)
  | .init_lane_masks, st =>
    ({ st with regs := { st.regs with
        dr := fun lane => if lane < active then kAllOnes else 0,
        dg := fun lane => if lane < active then kAllOnes else 0,
        db := fun lane => if lane < active then kAllOnes else 0,
        da := fun lane => if lane < active then kAllOnes else 0 } }, 1)
  | .load_condition_mask ptr, st =>
    ({ st with regs :=
        (Regs.update_execution_mask { st.regs with dr := loadVec N ptr st.mem }) }, 1)
  | .load_unmasked ptr, st =>
    ({ st with regs := { st.regs with r := loadVec N ptr st.mem } }, 1)
  | .store_unmasked ptr, st =>
    ({ st with mem := storeVec N ptr st.regs.r st.mem }, 1)
  | .store_masked ptr, st =>
    ({ st with mem :=
        (storeVec N ptr (select st.regs.da st.regs.r (loadVec N ptr st.mem)) st.mem) }, 1)
  | .load_dst ptr, st =>
    ({ st with regs := { st.regs with
        dr := loadVec N ptr st.mem,
        dg := loadVec N (ptr + N) st.mem,
        db := loadVec N (ptr + 2 * N) st.mem,
        da := loadVec N (ptr + 3 * N) st.mem } }, 1)
  | .store_src ptr, st =>
    ({ st with mem :=
        (storeVec N (ptr + 3 * N) st.regs.a
          (storeVec N (ptr + 2 * N) st.regs.b
            (storeVec N (ptr + N) st.regs.g
              (storeVec N ptr st.regs.r st.mem)))) }, 1)
  | .store_dst ptr, st =>
    ({ st with mem :=
        (storeVec N (ptr + 3 * N) st.regs.da
          (storeVec N (ptr + 2 * N) st.regs.db
            (storeVec N (ptr + N) st.regs.dg
              (storeVec N ptr st.regs.dr st.mem)))) }, 1)
  | .copy_slots_masked k dst src, st =>
    ({ st with mem :=
        (applySlots N (fun lane d s => if st.regs.da lane ≠ 0 then s else d) k dst src
          st.mem) }, 1)
  | .copy_slots_unmasked k dst src, st =>
    ({ st with mem := applySlots N (fun _ _ s => s) k dst src st.mem }, 1)
  | .zero_slots_unmasked k dst, st =>
    ({ st with mem := fillSlots N (fun _ => 0) k dst st.mem }, 1)
  | .int_n op dst src, st =>
    ({ st with mem :=
        (applySlots N (fun _ d s => op.scalar d s) ((src - dst) / N) dst src st.mem) }, 1)
  | .int_k op k dst, st =>
    ({ st with mem :=
        (applySlots N (fun _ d s => op.scalar d s) k dst (dst + k * N) st.mem) }, 1)
  | .jump offset, st => (st, offset)
  | .branch_if_any_active_lanes offset, st =>
    (st, if anyActive st.regs then offset else 1)
  | .branch_if_no_active_lanes offset, st =>
    (st, if anyActive st.regs then 1 else offset)
  | .merge_loop_mask ptr, st =>
    ({ st with regs := (Regs.update_execution_mask { st.regs with
        dg := fun lane => st.regs.dg lane &&& loadVec N ptr st.mem lane }) }, 1)
  | .reenable_loop_mask ptr, st =>
    ({ st with regs := (Regs.update_execution_mask { st.regs with
        dg := fun lane => st.regs.dg lane ||| loadVec N ptr st.mem lane }) }, 1)
  | .mask_off_loop_mask, st =>
    ({ st with regs := (Regs.update_execution_mask { st.regs with
        dg := fun lane => st.regs.dg lane &&& complement (st.regs.da lane) }) }, 1)
  | .mask_off_return_mask, st =>
    ({ st with regs := (Regs.update_execution_mask { st.regs with
        db := fun lane => st.regs.db lane &&& complement (st.regs.da lane) }) }, 1)

/-- Modelled from the spec: the test of the branch stage functions (`SkRasterPipeline_opts.h`,
not among the source files), "at least one lane of the combined mask is set". The combined mask is the register `da`: the fixture `oneLaneActive`
of `SkRasterPipeline_BranchIfAnyActiveLanes` sets one lane of `da` and leaves `dr`, `dg`,
`db` zero, and the test expects the branch to be taken. -/
def anyActiveLanes (N : Nat) (regs : Regs) : Bool :=
  anyLane N regs.da

/-- The reading "the conjunction of condition, loop and return mask has a set lane",
recomputed from `dr`, `dg`, `db` at the branch. -/
def anyConjunctionLanes (N : Nat) (regs : Regs) : Bool :=
  anyLane N regs.maskConjunction

/-- One stage of the modelled engine. -/
def Stage.exec (N active : Nat) : Stage → State → State × Int :=
  Stage.execWith (anyActiveLanes N) N active

/-- Modelled from the spec: the stage chain of the engine (`SkRasterPipeline_opts.h`, not
among the source files). A stage list runs from stage `pc` on, each stage continuing at
the distance it returns, until the position just behind the last stage is reached. `none`
when the fuel runs out or a branch leaves the list. -/
def runStagesWith (anyActive : Regs → Bool) (N active : Nat) (prog : List Stage) :
    Nat → Int → State → Option State
  | 0, _, _ => none
  | fuel + 1, pc, st =>
    if pc < 0 then none
    else if pc = prog.length then some st
    else
      match prog.get? pc.toNat with
      | none => none
      | some stage =>
        runStagesWith anyActive N active prog fuel
          (pc + (stage.execWith anyActive N active st).2)
          (stage.execWith anyActive N active st).1

/-- A stage list run on one lane group from its first stage. -/
def runStages (N active : Nat) (prog : List Stage) (fuel : Nat) (st : State) : Option State :=
  runStagesWith (anyActiveLanes N) N active prog fuel 0 st

/-! ### The driver `run(x, y, width, height)` -/

/-- Modelled from the spec: the driver behind `SkRasterPipeline::run` (`SkRasterPipeline.cpp`
and `SkRasterPipeline_opts.h`, not among the source files): `count` full lane groups of a row, starting at column `dx`;
`group dx active` runs the stage chain on the group that starts at column `dx` and has
`active` lanes inside the run. -/
def runFullGroups {σ : Type} (N : Nat) (group : Nat → Nat → σ → Option σ) :
    Nat → Nat → σ → Option σ
  | 0, _, s => some s
  | count + 1, dx, s =>
    match group dx N s with
    | none => none
    | some s1 => runFullGroups N group count (dx + N) s1

/-- Modelled from the spec: the driver behind `SkRasterPipeline::run` (not among the source
files), §4.1: one row of `run`, the columns `[x, x + width)` in groups
of the lane width `N`, "with a final group handling only the remaining lanes". -/
def runRow {σ : Type} (N : Nat) (group : Nat → Nat → σ → Option σ) (x width : Nat) (s : σ) :
    Option σ :=
  match runFullGroups N group (width / N) x s with
  | none => none
  | some s1 =>
    if width % N = 0 then some s1
    else group (x + (width / N) * N) (width % N) s1

/-- Modelled from the spec: the driver behind `SkRasterPipeline::run` (not among the source
files), §4.1: `height` rows starting at row `dy`. -/
def runRows {σ : Type} (N : Nat) (group : Nat → Nat → Nat → σ → Option σ) (x width : Nat) :
    Nat → Nat → σ → Option σ
  | 0, _, s => some s
  | height + 1, dy, s =>
    match runRow N (fun dx active => group dx dy active) x width s with
    | none => none
    | some s1 => runRows N group x width height (dy + 1) s1

/-- Modelled from the spec: `SkRasterPipeline::run` (`SkRasterPipeline.cpp`, not among the
source files), §4.1: `run(x, y, width, height)` executes the chain over every
pixel position of the rectangle `[x, x+width) × [y, y+height)`; `group dx dy active` is the
chain run on one lane group. -/
def run {σ : Type} (N : Nat) (group : Nat → Nat → Nat → σ → Option σ)
    (x y width height : Nat) (s : σ) : Option σ :=
  runRows N group x width height y s

/-- The stage chain of the SkSL stages on one lane group: registers start at zero, the
memory is carried from group to group. -/
def slotGroup (N : Nat) (prog : List Stage) (fuel : Nat) (_dx _dy active : Nat) (m : Mem) :
    Option Mem :=
  (runStages N active prog fuel { regs := Regs.zero, mem := m }).map State.mem

/-- The call `p.run(x, y, width, height)` for a pipeline `p` of SkSL stages. -/
def runProgram (N : Nat) (prog : List Stage) (fuel : Nat) (x y width height : Nat) (m : Mem) :
    Option Mem :=
  run N (slotGroup N prog fuel) x y width height m

/-! ### Fixtures of `SkRasterPipeline_BranchIfAnyActiveLanes` and
`SkRasterPipeline_BranchIfNoActiveLanes`

The arrays of the tests are laid out in memory as `slots` at cell 0, `kNoLanesActive` at
cell 100 and `oneLaneActive` at cell 200; colours are given by the bit patterns of their
floats. -/

/-- The colour `kColorDarkRed = {0.5f, 0.0f, 0.0f, 0.75f}`. -/
def kColorDarkRed : Color := { r := 0x3F000000, g := 0, b := 0, a := 0x3F400000 }

/-- The colour `kColorGreen = {0.0f, 1.0f, 0.0f, 1.0f}`. -/
def kColorGreen : Color := { r := 0, g := 0x3F800000, b := 0, a := 0x3F800000 }

/-- The colour `kColorBlack = {0.0f, 0.0f, 0.0f, 0.0f}`. -/
def kColorBlack : Color := { r := 0, g := 0, b := 0, a := 0 }

/-- The colour `kColorRed = {1.0f, 0.0f, 0.0f, 1.0f}`. -/
def kColorRed : Color := { r := 0x3F800000, g := 0, b := 0, a := 0x3F800000 }

/-- The colour `kColorBlue = {0.0f, 0.0f, 1.0f, 1.0f}`. -/
def kColorBlue : Color := { r := 0, g := 0, b := 0x3F800000, a := 0x3F800000 }

/-- Address of the array `slots`. -/
def kSlotsPtr : Nat := 0

/-- Address of the array `kNoLanesActive`, all zeros. -/
def kNoLanesActivePtr : Nat := 100

/-- Address of the array `oneLaneActive`, all zeros except `oneLaneActive[3*N] = ~0`, the
first lane of the `da` slot. -/
def oneLaneActivePtr : Nat := 200

/-- The memory at the start of both branch tests. -/
def branchTestMem (N : Nat) : Mem :=
  fun addr => if addr = oneLaneActivePtr + 3 * N then kAllOnes else 0

/-- The state at the start of a lane group of the branch tests. -/
def branchTestState (N : Nat) : State :=
  { regs := Regs.zero, mem := branchTestMem N }

/-- The program of `SkRasterPipeline_BranchIfAnyActiveLanes`. -/
def branchIfAnyProgram : List Stage :=
  [ .constant_color kColorDarkRed,
    .load_dst kNoLanesActivePtr,
    .branch_if_any_active_lanes 2,
    .constant_color kColorGreen,
    .load_dst oneLaneActivePtr,
    .branch_if_any_active_lanes 2,
    .constant_color kColorDarkRed,
    .init_lane_masks,
    .branch_if_any_active_lanes 2,
    .constant_color kColorDarkRed,
    .store_src kSlotsPtr ]

/-- The program of `SkRasterPipeline_BranchIfNoActiveLanes`. -/
def branchIfNoProgram : List Stage :=
  [ .constant_color kColorBlack,
    .init_lane_masks,
    .branch_if_no_active_lanes 2,
    .constant_color kColorRed,
    .load_dst oneLaneActivePtr,
    .branch_if_no_active_lanes 2,
    .swap_rb,
    .load_dst kNoLanesActivePtr,
    .branch_if_no_active_lanes 2,
    .constant_color kColorBlack,
    .store_src kSlotsPtr ]

/-- The check at the end of both branch tests: every lane of the four slots of `slots`
holds the channel of the expected colour. -/
def slotsHoldColor (N : Nat) (c : Color) (m : Mem) : Bool :=
  (List.range N).all fun lane =>
    m (kSlotsPtr + lane) == c.r && m (kSlotsPtr + N + lane) == c.g &&
      m (kSlotsPtr + 2 * N + lane) == c.b && m (kSlotsPtr + 3 * N + lane) == c.a

/-- Outcome of a branch test run as `p.run(0,0,1,1)` (one lane group, one active lane)
under a given branch condition: whether `slots` ends up holding the expected colour. -/
def branchTestPasses (anyActive : Regs → Bool) (N : Nat) (prog : List Stage)
    (expected : Color) : Bool :=
  match runStagesWith anyActive N 1 prog 20 0 (branchTestState N) with
  | none => false
  | some st => slotsHoldColor N expected st.mem

/-- The registers after `load_dst oneLaneActive`. -/
def oneLaneActiveRegs (N : Nat) : Regs :=
  ((Stage.load_dst oneLaneActivePtr).exec N 1 (branchTestState N)).1.regs

/-! ### Fixtures of the slot tests -/

/-- The memory of `SkRasterPipeline_CopySlotsMasked` for 4 lanes: five source slots at cell 0
holding 1000, 1001, ..., five destination slots at cell 20 holding 0, 1, ..., the first four
lanes of `kMask3 = {~0, 0, ~0, ~0, ...}` at cell 100, and (for `LoadStoreMasked`) `data`,
all 2, at cell 200 and `val`, all 1, at cell 300. -/
def copyTestMem : Mem :=
  fun addr =>
    if addr < 20 then 1000 + addr
    else if addr < 40 then addr - 20
    else if addr = 100 ∨ addr = 102 ∨ addr = 103 then kAllOnes
    else if 200 ≤ addr ∧ addr < 204 then 2
    else if 300 ≤ addr ∧ addr < 304 then 1
    else 0

/-- The state at the start of a lane group over `copyTestMem`. -/
def copyTestState : State :=
  { regs := Regs.zero, mem := copyTestMem }

/-- The memory of `SkRasterPipeline_IntArithmeticWithNSlots`: `slots` at cell 0 holding
1, 2, 3, ... -/
def iotaMem : Mem :=
  fun addr => addr + 1

/-- The state at the start of a lane group over `iotaMem`. -/
def iotaState : State :=
  { regs := Regs.zero, mem := iotaMem }

/-! ### Pixel stages `load_8888` and `store_8888`

Colour lanes of the pixel stages hold real numbers in `[0, 1]`; the float arithmetic of the
engine is modelled exactly, over the rationals. Every cell a stage reads or writes is
logged, so that "never reading or writing past `width`" is a statement about the log. -/

/-- The context `SkRasterPipeline_MemoryCtx {pixels, stride}` of a memory-access stage:
the cell of the first pixel and the row stride in pixels. -/
structure MemoryCtx where
  pixels : Nat
  stride : Nat
  deriving DecidableEq, Repr

/-- The cell of the pixel at column `dx` of row `dy`. -/
def MemoryCtx.ptr_at_xy (ctx : MemoryCtx) (dx dy : Nat) : Nat :=
  ctx.pixels + dy * ctx.stride + dx

/-- The colour registers of a pixel program. -/
structure PixelRegs where
  r : Nat → ℚ
  g : Nat → ℚ
  b : Nat → ℚ
  a : Nat → ℚ

/-- The registers at the start of a lane group. -/
def PixelRegs.zero : PixelRegs :=
  { r := fun _ => 0, g := fun _ => 0, b := fun _ => 0, a := fun _ => 0 }

/-- The memory together with the log of the cells read and written so far. -/
structure PixelState where
  mem : Mem
  reads : List Nat
  writes : List Nat

/-- Modelled from the spec: the channel conversion of the store stages
(`SkRasterPipeline_opts.h`, not among the source files), of a colour value to an 8-bit channel, clamped to
`[0, 1]`, scaled by 255 and rounded to the nearest integer. -/
def to_unorm (v : ℚ) : Nat :=
  (⌊(min (max 0 v) 1) * 255 + 1 / 2⌋).toNat

/-- Modelled from the spec: the channel conversion of the load stages
(`SkRasterPipeline_opts.h`, not among the source files): the four channels of an 8888 pixel, lowest byte first, each
scaled to `[0, 1]`. -/
def from_8888 (px : Nat) (channel : Nat) : ℚ :=
  ((px / 256 ^ channel % 256 : Nat) : ℚ) / 255

/-- The 8888 pixel with the given channels. -/
def pack_8888 (r g b a : ℚ) : Nat :=
  to_unorm r + to_unorm g * 256 + to_unorm b * 65536 + to_unorm a * 16777216

/-- The two pixel stages of `SkRasterPipeline_JIT`. -/
inductive PixelStage where
  | load_8888 (ctx : MemoryCtx)
  | store_8888 (ctx : MemoryCtx)
  deriving DecidableEq, Repr

/-- Modelled from the spec: the stage functions `load_8888` and `store_8888`
(`SkRasterPipeline_opts.h`, not among the source files), §4.1: a memory-access stage works on
the `active` lanes of the
group that starts at pixel `(dx, dy)`, lane `i` on the pixel at column `dx + i`; lanes
outside the run are neither read nor written (a load leaves zero in them). -/
def PixelStage.exec (dx dy active : Nat) :
    PixelStage → PixelRegs × PixelState → PixelRegs × PixelState
  | .load_8888 ctx, (_, s) =>
    ({ r := fun lane => if lane < active then from_8888 (s.mem (ctx.ptr_at_xy dx dy + lane)) 0
          else 0,
       g := fun lane => if lane < active then from_8888 (s.mem (ctx.ptr_at_xy dx dy + lane)) 1
          else 0,
       b := fun lane => if lane < active then from_8888 (s.mem (ctx.ptr_at_xy dx dy + lane)) 2
          else 0,
       a := fun lane => if lane < active then from_8888 (s.mem (ctx.ptr_at_xy dx dy + lane)) 3
          else 0 },
     { s with reads := s.reads ++ (List.range active).map fun lane =>
        ctx.ptr_at_xy dx dy + lane })
  | .store_8888 ctx, (regs, s) =>
    (regs,
     { s with
        mem := (storeVec active (ctx.ptr_at_xy dx dy)
          (fun lane => pack_8888 (regs.r lane) (regs.g lane) (regs.b lane) (regs.a lane))
          s.mem),
        writes := s.writes ++ (List.range active).map fun lane =>
          ctx.ptr_at_xy dx dy + lane })

/-- A chain of pixel stages on one lane group: registers start at zero, each stage hands
its result to the next. -/
def pixelGroup (prog : List PixelStage) (dx dy active : Nat) (s : PixelState) :
    Option PixelState :=
  some (prog.foldl (fun acc stage => stage.exec dx dy active acc) (PixelRegs.zero, s)).2

/-- The call `p.run(x, y, width, height)` for a pipeline `p` of pixel stages on lanes of
width `N`, starting with an empty access log. -/
def runPixels (N : Nat) (prog : List PixelStage) (x y width height : Nat) (m : Mem) :
    Option PixelState :=
  run N (pixelGroup prog) x y width height { mem := m, reads := [], writes := [] }

/-- The buffer of `SkRasterPipeline_JIT`: 72 cells, the cells 12..35 holding 1..24. -/
def jitTestMem : Mem :=
  fun addr => if 12 ≤ addr ∧ addr < 36 then addr - 11 else 0

/-! ### Jumps -/

/-- The offset of a jump or branch stage; `none` for every other stage. -/
def Stage.branchOffset : Stage → Option Int
  | .jump offset => some offset
  | .branch_if_any_active_lanes offset => some offset
  | .branch_if_no_active_lanes offset => some offset
  | _ => none

/-- Every jump or branch stage of the list targets a position of the list itself, from its
first stage up to the position just behind its last stage. -/
def branchesStayWithin (seg : List Stage) : Bool :=
  (List.range seg.length).all fun i =>
    match (seg.get? i).bind Stage.branchOffset with
    | none => true
    | some offset => decide (0 ≤ (i : Int) + offset ∧ (i : Int) + offset ≤ seg.length)

/-- The program of `SkRasterPipeline_Jump`. -/
def jumpProgram : List Stage :=
  [ .constant_color kColorGreen,
    .jump 2,
    .constant_color kColorDarkRed,
    .store_src kSlotsPtr ]

/-- Leading stages whose jump targets the fourth stage of the whole program. -/
def jumpAcrossPrefix : List Stage :=
  [ .jump 3,
    .init_lane_masks ]

/-- Trailing stages: a mask initialisation and the store of the colour registers. -/
def jumpAcrossSuffix : List Stage :=
  [ .init_lane_masks,
    .store_src kSlotsPtr ]

/-- Progress of the copy program: the first `c` pixels from column `x` on have been copied
from `src` to `dst`, everything else is as in the initial memory `m0`, and only these
pixels have been read and written. -/
def CopyInv (src dst : Nat) (m0 : Mem) (x c : Nat) (s : PixelState) : Prop :=
  (∀ addr, s.mem addr =
      if dst + x ≤ addr ∧ addr < dst + x + c then m0 (src + (addr - dst)) else m0 addr) ∧
    (∀ addr ∈ s.reads, src + x ≤ addr ∧ addr < src + x + c) ∧
    (∀ addr ∈ s.writes, dst + x ≤ addr ∧ addr < dst + x + c)

end SkRasterPipeline

namespace SkSL.RP

/-! ## Program: lowering of multi-slot binary ops and stack-depth analysis

`Program::appendAdjacentMultiSlotBinaryOp` and `Program::tempStackMaxDepths` are declared in
the header; their bodies (`SkSLRasterPipelineBuilder.cpp`) are not among the source files. -/

/-- The context of an appended stage: none, a pointer to the destination slots, or a
`SkRasterPipeline_BinaryOpCtx {dst, src}`. -/
inductive StageCtx where
  | none
  | ptr (dst : Nat)
  | binaryOp (dst src : Nat)
  deriving DecidableEq, Repr

/-- One appended stage: its position in the native stage table and its context. -/
structure AppendedStage where
  stage : Nat
  ctx : StageCtx
  deriving DecidableEq, Repr

/-- Modelled from the spec: `Program::appendAdjacentMultiSlotBinaryOp`, whose body is not
among the source files. §4.3 (lowering): "choose the specialization matching the requested
count when count ≤ 4, and the generic N-slot op ... otherwise", the specializations for
1/2/3/4 slots being "laid out immediately after" the N-slot op in the stage table. The
header requires `src` to be immediately after `dst` in memory, that is `numSlots` slots of
`N` lanes behind it; the context of the generic op is the pair `{dst, src}` of
`SkRasterPipeline_BinaryOpCtx`, as the tests build it. A call outside this contract (no
slots, or `src` not adjacent) is `none`. -/
def Program.appendAdjacentMultiSlotBinaryOp (N : Nat) (pipeline : List AppendedStage)
    (baseStage : Nat) (dst src : Nat) (numSlots : Nat) : Option (List AppendedStage) :=
  if numSlots = 0 ∨ src ≠ dst + N * numSlots then none
  else if numSlots > 4 then
    some (pipeline ++ [{ stage := baseStage, ctx := .binaryOp dst src }])
  else
    some (pipeline ++ [{ stage := baseStage + numSlots, ctx := .ptr dst }])

/-- The stage family named in the header (lines 140-145): `add_n_floats`, `add_float`,
`add_2_floats`, `add_3_floats`, `add_4_floats`. -/
inductive AddFloatsStage where
  | add_n_floats
  | add_float
  | add_2_floats
  | add_3_floats
  | add_4_floats
  deriving DecidableEq, Repr

/-- The layout the header requires: the family members are "contiguous ops in the stage
list, listed in that order", starting at the position `base` of `add_n_floats`. -/
def AddFloatsStage.position (base : Nat) : AddFloatsStage → Nat
  | .add_n_floats => base
  | .add_float => base + 1
  | .add_2_floats => base + 2
  | .add_3_floats => base + 3
  | .add_4_floats => base + 4

/-- The state of the stack-depth scan: the current stack and the two maps of type
`StackDepthMap = SkTHashMap<int, int>` (stack index to depth; an absent key reads 0). -/
structure StackScan where
  curIdx : Int
  current : Int → Int
  largest : Int → Int

/-- The state at the start of the scan. -/
def StackScan.init : StackScan :=
  { curIdx := 0, current := fun _ => 0, largest := fun _ => 0 }

/-- How a native stage that `unary_op`, `binary_op`, `ternary_op` or `swizzle` records acts
on the temporary stack, in the words of the header: a unary op replaces the stack top with
the result; a binary op consumes two n-slot input values and pushes the result; a ternary
op consumes three n-slot input values and pushes the result; a swizzle consumes `inputSlots`
elements and generates `components` elements. -/
inductive StackEffect where
  | none
  | unary
  | binary
  | ternary
  | swizzle (components : Nat)
  deriving DecidableEq, Repr

/-- Modelled from the spec: the stack effect that the body of `Program::tempStackMaxDepths`
(`SkSLRasterPipelineBuilder.cpp`, not among the source files) gives each op, the number of
slots an instruction pushes on the current temporary stack (positive) or takes from it
(negative), as the Builder methods of the header describe their ops: `push_literal_f`
pushes one slot; `push_slots`, `push_uniform`, `push_zeros` and `push_clone` push `fImmA`
slots; `discard_stack` discards `fImmA` slots; `select` overlays the top two entries of
`fImmA` slots, making one; `copy_stack_to_slots` does not discard any values; a native
stage `k` recorded with the slot count in `fImmA` acts as `effect k` tells, the stage list
not being among the source files. The condition, loop and return masks have save/restore
stacks of their own (§3), so the mask ops leave the temporary stacks as they are. -/
def Instruction.stackDelta (effect : Nat → StackEffect) (inst : Instruction) : Int :=
  match inst.fOp with
  | .push_literal_f => 1
  | .push_slots => inst.fImmA
  | .push_uniform => inst.fImmA
  | .push_zeros => inst.fImmA
  | .push_clone => inst.fImmA
  | .discard_stack => -inst.fImmA
  | .select => -inst.fImmA
  | .native k =>
    match effect k with
    | .none => 0
    | .unary => 0
    | .binary => -inst.fImmA
    | .ternary => -(2 * inst.fImmA)
    | .swizzle components => (components : Int) - inst.fImmA
  | _ => 0

/-- The state of the scan behind an instruction: `set_current_stack` selects the stack; any
other instruction changes the running depth of the current stack by `delta inst`, and the
recorded maximum of that stack is raised to the new depth if that is larger. -/
def StackScan.advance (delta : Instruction → Int) (st : StackScan) (inst : Instruction) :
    StackScan :=
  if inst.fOp = .set_current_stack then { st with curIdx := inst.fImmA }
  else
    { st with
      current := Function.update st.current st.curIdx (st.current st.curIdx + delta inst)
      largest := Function.update st.largest st.curIdx
        (max (st.current st.curIdx + delta inst) (st.largest st.curIdx)) }

/-- Modelled from the spec: the loop body of `Program::tempStackMaxDepths`
(`SkSLRasterPipelineBuilder.cpp`, not among the source files), one step of the "single
forward scan tracking running depth per stack, recording the max" (§4.3, pass 2). "A
stack-depth computation showing negative depth (more pops than pushes)" must "fail fast
(assertion)": the step is `none` when the instruction takes the running depth of the
current stack below 0. -/
def StackScan.step (delta : Instruction → Int) (st : StackScan) (inst : Instruction) :
    Option StackScan :=
  if inst.fOp ≠ .set_current_stack ∧ st.current st.curIdx + delta inst < 0 then none
  else some (st.advance delta inst)

/-- The scan over a stream of instructions from a given state, `none` as soon as a step
fails. -/
def StackScan.scan (delta : Instruction → Int) : StackScan → List Instruction → Option StackScan
  | st, [] => some st
  | st, inst :: rest =>
    match StackScan.step delta st inst with
    | none => none
    | some st1 => StackScan.scan delta st1 rest

/-- Modelled from the spec: `Program::tempStackMaxDepths`, whose body is not among the
source files: the scan over `fInstructions`, returning the map of recorded maxima, or
`none` when the scan fails its assertion. -/
def Program.tempStackMaxDepths (delta : Instruction → Int) (fInstructions : List Instruction) :
    Option (Int → Int) :=
  (StackScan.scan delta StackScan.init fInstructions).map fun st => st.largest

/-- The running depth of stack `idx` after a stream of instructions that starts with stack
`cur` selected: slots pushed minus slots discarded while `idx` is the current stack. -/
def runningDepthFrom (delta : Instruction → Int) (idx : Int) : Int → List Instruction → Int
  | _, [] => 0
  | cur, inst :: rest =>
    if inst.fOp = .set_current_stack then runningDepthFrom delta idx inst.fImmA rest
    else (if cur = idx then delta inst else 0) + runningDepthFrom delta idx cur rest

/-- The running depth of stack `idx` after a prefix of the instruction stream; stack 0 is
selected at the start. -/
def runningDepth (delta : Instruction → Int) (idx : Int) (stream : List Instruction) : Int :=
  runningDepthFrom delta idx 0 stream

/-- The largest of a list of depths and 0, the depth before the first instruction. -/
def maxOver (depths : List Int) : Int :=
  depths.foldr max 0

/-- The specification's words: the maximum over all prefixes of the instruction stream of the
running depth of stack `idx`. -/
def maxPrefixDepth (delta : Instruction → Int) (idx : Int) (stream : List Instruction) : Int :=
  maxOver (stream.inits.map (runningDepth delta idx))

/-- The instructions recorded by pushes of 1, 2 and 1 slots with a discard of 1 slot after
the second push. -/
def stackExampleA : List Instruction :=
  ((Builder.fresh.run [.push_zeros 1, .push_zeros 2, .discard_stack 1, .push_zeros 1]).map
    fun r => r.1.fInstructions).getD []

/-- The instructions recorded by pushes of 1, 2 and 1 slots with a discard of 1 slot after
the first push. -/
def stackExampleB : List Instruction :=
  ((Builder.fresh.run [.push_zeros 1, .discard_stack 1, .push_zeros 2, .push_zeros 1]).map
    fun r => r.1.fInstructions).getD []

/-- The instructions recorded by two pushes of 2 slots, `select(2)` and a push of 2
slots. -/
def stackExampleSelect : List Instruction :=
  ((Builder.fresh.run [.push_zeros 2, .push_zeros 2, .select 2, .push_zeros 2]).map
    fun r => r.1.fInstructions).getD []

/-- Two pushes of 2 slots, a two-slot instruction of the native stage 7 and a push of 2
slots. -/
def stackExampleNative : List Instruction :=
  [Instruction.make .push_zeros [] 2 0, Instruction.make .push_zeros [] 2 0,
    Instruction.make (.native 7) [] 2 0, Instruction.make .push_zeros [] 2 0]

/-- The instructions recorded by a discard of 1 slot from the empty stack and a push of 2
slots. -/
def stackExampleUnderflow : List Instruction :=
  ((Builder.fresh.run [.discard_stack 1, .push_zeros 2]).map
    fun r => r.1.fInstructions).getD []

/-- The stream of `stackExampleA` on stack 1, selected with `set_current_stack`, between two
pushes on stack 0. -/
def stackExampleC : List Instruction :=
  ((Builder.fresh.run [.push_zeros 1, .set_current_stack 1, .push_zeros 1, .push_zeros 2,
      .discard_stack 1, .push_zeros 1, .set_current_stack 0, .push_zeros 1]).map
    fun r => r.1.fInstructions).getD []

end SkSL.RP

/-! ## SkAndroidCodec: sample sizes (src/codec/SkAndroidCodec.cpp)

C++ `int` values are `Int`; `a / b` on `int` is truncating division, `Int.tdiv`. -/

/-- The type `SkISize`: a width and a height. -/
structure SkISize where
  fWidth : Int
  fHeight : Int
  deriving DecidableEq, Repr

/-- What `computeSampleSize` and `getSampledDimensions` use of a `SkAndroidCodec`: the
dimensions `fCodec->dimensions()`, whether `fCodec->getEncodedFormat()` is `kWEBP`, and the
virtual method `onGetSampledDimensions`, whose implementations (`SkSampledCodec`,
`SkAndroidCodecAdapter`) are not among the source files and are a field here. -/
structure SkAndroidCodec where
  dimensions : SkISize
  isWebP : Bool
  onGetSampledDimensions : Int → SkISize

namespace SkAndroidCodec

/-- The function `is_valid_sample_size`. -/
def is_valid_sample_size (sampleSize : Int) : Bool :=
  decide (sampleSize > 0)

/-- The function `supports_any_down_scale`. -/
def supports_any_down_scale (codec : SkAndroidCodec) : Bool :=
  codec.isWebP

/-- The function `smaller_than`: true if either dimension of `a` is less than that of `b`. -/
def smaller_than (a b : SkISize) : Bool :=
  decide (a.fWidth < b.fWidth) || decide (a.fHeight < b.fHeight)

/-- The function `strictly_bigger_than`: both dimensions of `a` exceed those of `b`. -/
def strictly_bigger_than (a b : SkISize) : Bool :=
  decide (a.fWidth > b.fWidth) && decide (a.fHeight > b.fHeight)

/-- The method `getSampledDimensions`. -/
def getSampledDimensions (codec : SkAndroidCodec) (sampleSize : Int) : SkISize :=
  if is_valid_sample_size sampleSize = false then { fWidth := 0, fHeight := 0 }
  else if 1 = sampleSize then codec.dimensions
  else codec.onGetSampledDimensions sampleSize

/-- The "handle bad input" step of `computeSampleSize` (lines 253-257): a desired size with
a dimension below 1 has that dimension raised to 1. -/
def handleBadInput (desiredSize : SkISize) : SkISize :=
  if desiredSize.fWidth < 1 ∨ desiredSize.fHeight < 1 then
    { fWidth := max 1 desiredSize.fWidth, fHeight := max 1 desiredSize.fHeight }
  else desiredSize

/-- The first guess of `computeSampleSize` (lines 263-265): `std::min(sampleX, sampleY)`. -/
def initialSampleSize (codec : SkAndroidCodec) (desiredSize : SkISize) : Int :=
  min (Int.tdiv codec.dimensions.fWidth desiredSize.fWidth)
    (Int.tdiv codec.dimensions.fHeight desiredSize.fHeight)

/-- The loop `while (true)` of `computeSampleSize` (lines 279-292), "see if there is a
tighter fit"; one unit of fuel per iteration, `none` when the fuel runs out. The result is
the returned sample size and the final `*desiredSize`. -/
def tighterFit (codec : SkAndroidCodec) (desiredSize : SkISize) :
    Nat → Int → SkISize → Option (Int × SkISize)
  | 0, _, _ => none
  | fuel + 1, sampleSize, computedSize =>
    if codec.getSampledDimensions (sampleSize + 1) = desiredSize then
      some (sampleSize + 1, desiredSize)
    else if codec.getSampledDimensions (sampleSize + 1) = computedSize ∨
        smaller_than (codec.getSampledDimensions (sampleSize + 1)) desiredSize = true then
      some (sampleSize, computedSize)
    else
      tighterFit codec desiredSize fuel (sampleSize + 1)
        (codec.getSampledDimensions (sampleSize + 1))

/-- The loop `while (sampleSize > 2)` of `computeSampleSize` (lines 305-315), "computedSize
is too small, make it larger", with the final `*desiredSize = origDims; return 1;`; one unit
of fuel per test of the loop condition, `none` when the fuel runs out. -/
def makeLarger (codec : SkAndroidCodec) (desiredSize : SkISize) :
    Nat → Int → Option (Int × SkISize)
  | 0, _ => none
  | fuel + 1, sampleSize =>
    if sampleSize > 2 then
      if codec.getSampledDimensions (sampleSize - 1) = desiredSize ∨
          smaller_than (codec.getSampledDimensions (sampleSize - 1)) desiredSize = false then
        some (sampleSize - 1, codec.getSampledDimensions (sampleSize - 1))
      else makeLarger codec desiredSize fuel (sampleSize - 1)
    else some (1, codec.dimensions)

/-- The part of `computeSampleSize` behind the WebP test (lines 263-315), on the desired
size after the bad-input step. -/
def sampleSizeFor (codec : SkAndroidCodec) (fuel : Nat) (desiredSize : SkISize) :
    Option (Int × SkISize) :=
  if codec.getSampledDimensions (initialSampleSize codec desiredSize) = desiredSize then
    some (initialSampleSize codec desiredSize, desiredSize)
  else if codec.getSampledDimensions (initialSampleSize codec desiredSize) = codec.dimensions ∨
      initialSampleSize codec desiredSize = 1 then
    some (1, codec.getSampledDimensions (initialSampleSize codec desiredSize))
  else if strictly_bigger_than
      (codec.getSampledDimensions (initialSampleSize codec desiredSize)) desiredSize = true then
    tighterFit codec desiredSize fuel (initialSampleSize codec desiredSize)
      (codec.getSampledDimensions (initialSampleSize codec desiredSize))
  else if smaller_than
      (codec.getSampledDimensions (initialSampleSize codec desiredSize)) desiredSize = false then
    some (initialSampleSize codec desiredSize,
      codec.getSampledDimensions (initialSampleSize codec desiredSize))
  else makeLarger codec desiredSize fuel (initialSampleSize codec desiredSize)

/-- The method `computeSampleSize(SkISize* desiredSize)` for a non-null pointer: the returned
sample size and the value of `*desiredSize` at the return; `none` when a loop runs out of
fuel. -/
def computeSampleSize (codec : SkAndroidCodec) (fuel : Nat) (desiredSize : SkISize) :
    Option (Int × SkISize) :=
  if desiredSize = codec.dimensions then some (1, desiredSize)
  else if smaller_than codec.dimensions desiredSize = true then some (1, codec.dimensions)
  else if supports_any_down_scale codec = true then some (1, handleBadInput desiredSize)
  else sampleSizeFor codec fuel (handleBadInput desiredSize)

/-- A codec that is not WebP and whose sampled dimensions are, per axis,
`max(1, dimension / sampleSize)`. -/
def sampled (dimensions : SkISize) : SkAndroidCodec :=
  { dimensions := dimensions
    isWebP := false
    onGetSampledDimensions := fun sampleSize =>
      { fWidth := max 1 (Int.tdiv dimensions.fWidth sampleSize)
        fHeight := max 1 (Int.tdiv dimensions.fHeight sampleSize) } }

/-- A WebP codec; its sampled dimensions play no part in `computeSampleSize`. -/
def webp (dimensions : SkISize) : SkAndroidCodec :=
  { dimensions := dimensions
    isWebP := true
    onGetSampledDimensions := fun _ => dimensions }

end SkAndroidCodec

/-! ## Graphite promise images (`src/gpu/graphite/Image_Graphite.cpp`) -/

/-- The method `SkISize::isEmpty`: a width or a height of at most 0. -/
def SkISize.isEmpty (s : SkISize) : Bool :=
  decide (s.fWidth ≤ 0) || decide (s.fHeight ≤ 0)

namespace skgpu

/-- A non-null release callback: a function of the client, named by a number, or the empty
lambda `[](void*) {}` that `MakeGraphitePromiseTexture` puts in the place of a null
`imageReleaseProc`. A callback pointer that may be null is an `Option Callback`. -/
inductive Callback where
  | client (id : Nat)
  | noop
  deriving DecidableEq, Repr

/-- One call of a release callback with a context pointer. -/
structure Invocation where
  proc : Callback
  ctx : Nat
  deriving DecidableEq, Repr

/-- Modelled from the spec: `skgpu::RefCntedCallback` of `src/gpu/RefCntedCallback.h`, which
is not among the source files. It holds a callback and the context to call it with; `Make`
returns null for a null callback (the reason why `MakeGraphitePromiseTexture` must "ensure
Make doesn't fail"), `context()` returns the context, and dropping the last reference calls
the callback once with the context. -/
structure RefCntedCallback where
  fReleaseProc : Callback
  fReleaseCtx : Nat
  deriving DecidableEq, Repr

namespace RefCntedCallback

/-- The factory `RefCntedCallback::Make(proc, ctx)`: null for a null `proc`. -/
def Make (proc : Option Callback) (ctx : Nat) : Option RefCntedCallback :=
  match proc with
  | none => none
  | some p => some { fReleaseProc := p, fReleaseCtx := ctx }

/-- The accessor `RefCntedCallback::context()`. -/
def context (cb : RefCntedCallback) : Nat :=
  cb.fReleaseCtx

/-- The calls made when the last reference to the callback goes away. -/
def destroy (cb : RefCntedCallback) : List Invocation :=
  [{ proc := cb.fReleaseProc, ctx := cb.fReleaseCtx }]

end RefCntedCallback

/-- The calls made when an `sk_sp<RefCntedCallback>` that is the only owner goes out of
scope: none for a null or moved-from pointer. -/
def reset (p : Option RefCntedCallback) : List Invocation :=
  match p with
  | none => []
  | some cb => cb.destroy

namespace graphite

/-- The `PromiseLazyInstantiateCallback` of `MakePromiseImageLazyProxy`: the client's fulfill
proc, the release helper it owns and the client's texture release proc. -/
structure PromiseLazyInstantiateCallback where
  fFulfillProc : Nat
  fReleaseHelper : RefCntedCallback
  fTextureReleaseProc : Option Nat
  deriving DecidableEq, Repr

/-- A lazy `TextureProxy` as far as promise images go: it owns the instantiate callback. -/
structure TextureProxy where
  fLazyInstantiateCallback : PromiseLazyInstantiateCallback
  deriving DecidableEq, Repr

/-- A Graphite `Image` as far as promise images go: the proxy of its view. -/
structure Image where
  proxy : TextureProxy
  deriving DecidableEq, Repr

/-- The function `Image::MakePromiseImageLazyProxy`. The result is `none` when an `SkASSERT` fails, else
the proxy (or null) with the release calls made before the function has returned. With a
null `fulfillProc` the function returns null and its parameter `releaseHelper`, the only
owner, goes out of scope. Otherwise the helper is moved into the callback and the callback
into `TextureProxy::MakeLazy`, which is not among the source files: `makeLazy` tells
whether it returns a proxy; when it returns null the callback it was given is gone with
its helper. -/
def Image.MakePromiseImageLazyProxy (dimensions : SkISize) (fulfillProc : Option Nat)
    (releaseHelper : Option RefCntedCallback) (textureReleaseProc : Option Nat)
    (makeLazy : Bool) : Option (Option TextureProxy × List Invocation) :=
  if dimensions.isEmpty = true then none
  else
    match releaseHelper with
    | none => none
    | some helper =>
      match fulfillProc with
      | none => some (none, reset (some helper))
      | some f =>
        let callback : PromiseLazyInstantiateCallback :=
          { fFulfillProc := f, fReleaseHelper := helper,
            fTextureReleaseProc := textureReleaseProc }
        if makeLazy = true then some (some { fLazyInstantiateCallback := callback }, [])
        else some (none, reset (some callback.fReleaseHelper))

/-- The arguments of `SkImage::MakeGraphitePromiseTexture` and what the code asks of the
parts that are not among the source files: whether `recorder` is non-null, whether
`SkImageInfoIsValid` holds of the image info, whether the caps find color type and
texture info compatible, and whether `TextureProxy::MakeLazy` returns a proxy. Procs are
function pointers named by numbers, `none` being null. -/
structure PromiseTextureArgs where
  recorder : Bool
  dimensions : SkISize
  infoIsValid : Bool
  areColorTypeAndTextureInfoCompatible : Bool
  makeLazy : Bool
  fulfillProc : Option Nat
  imageReleaseProc : Option Nat
  textureReleaseProc : Option Nat
  imageContext : Nat

/-- The callback the release helper is made with:
`imageReleaseProc ? imageReleaseProc : [](void*) {}`. -/
def PromiseTextureArgs.releaseProc (a : PromiseTextureArgs) : Callback :=
  match a.imageReleaseProc with
  | some p => .client p
  | none => .noop

end graphite
end skgpu

namespace SkImage

open skgpu skgpu.graphite

/-- The function `SkImage::MakeGraphitePromiseTexture`. The result is `none` when an `SkASSERT` fails,
else the image (or null) with the release calls made before the function has returned. On
the three early returns the local `releaseHelper` still owns the callback and goes out of
scope; after the call of `MakePromiseImageLazyProxy` it is moved-from. -/
def MakeGraphitePromiseTexture (a : PromiseTextureArgs) :
    Option (Option Image × List Invocation) :=
  let releaseHelper := RefCntedCallback.Make (some a.releaseProc) a.imageContext
  if a.recorder = false then some (none, reset releaseHelper)
  else if a.infoIsValid = false then some (none, reset releaseHelper)
  else if a.areColorTypeAndTextureInfoCompatible = false then some (none, reset releaseHelper)
  else
    match Image.MakePromiseImageLazyProxy a.dimensions a.fulfillProc releaseHelper
        a.textureReleaseProc a.makeLazy with
    | none => none
    | some (none, calls) => some (none, calls ++ reset none)
    | some (some proxy, calls) => some (some { proxy := proxy }, calls ++ reset none)

/-- A promise-texture call with a null recorder and the client release proc 7. -/
def nullRecorderArgs : PromiseTextureArgs :=
  { recorder := false, dimensions := { fWidth := 16, fHeight := 16 }, infoIsValid := true,
    areColorTypeAndTextureInfoCompatible := true, makeLazy := true, fulfillProc := some 1,
    imageReleaseProc := some 7, textureReleaseProc := some 3, imageContext := 42 }

/-- A promise-texture call with a null fulfill proc and a null image release proc. -/
def nullFulfillArgs : PromiseTextureArgs :=
  { recorder := true, dimensions := { fWidth := 16, fHeight := 16 }, infoIsValid := true,
    areColorTypeAndTextureInfoCompatible := true, makeLazy := true, fulfillProc := none,
    imageReleaseProc := none, textureReleaseProc := some 3, imageContext := 42 }

end SkImage

namespace SkSL.RP

/-! ## Builder: branch counter and label operands -/

/-- The ops that `jump`, `branch_if_any_active_lanes` and `branch_if_no_active_lanes`
record. -/
def BuilderOp.isBranch : BuilderOp → Bool
  | .jump => true
  | .branch_if_any_active_lanes => true
  | .branch_if_no_active_lanes => true
  | _ => false

/-- The ops whose `fImmA` is a label handle: `label` and the three branch ops. -/
def BuilderOp.hasLabelOperand : BuilderOp → Bool
  | .label => true
  | op => op.isBranch

/-- The number of recorded instructions whose op is a branch op. -/
def Builder.countBranches (b : Builder) : Nat :=
  b.fInstructions.countP fun inst => inst.fOp.isBranch

/-- The Builder after `nextLabelID`, `jump(0)`, `label(0)`, `push_zeros(2)`,
`branch_if_any_active_lanes(0)`. -/
def Builder.exampleTwoBranches : Builder :=
  { fInstructions := [Instruction.make .jump [] 0 0, Instruction.make .label [] 0 0,
      Instruction.make .push_zeros [] 2 0,
      Instruction.make .branch_if_any_active_lanes [] 0 0],
    fNumLabels := 1, fNumBranches := 2 }

end SkSL.RP

/-! ## GPU types (`include/gpu/GpuTypes.h`) -/

namespace skgpu

/-- The type `enum class CallbackResult : bool`: a value of the type is its underlying
`bool`. -/
structure CallbackResult where
  value : Bool
  deriving DecidableEq, Repr

/-- The enumerator `CallbackResult::kFailed = true`. -/
def CallbackResult.kFailed : CallbackResult := { value := true }

/-- The enumerator `CallbackResult::kSuccess = true`. -/
def CallbackResult.kSuccess : CallbackResult := { value := true }

/-- The type `enum class Budgeted : bool`. -/
structure Budgeted where
  value : Bool
  deriving DecidableEq, Repr

/-- The enumerator `Budgeted::kNo = false`. -/
def Budgeted.kNo : Budgeted := { value := false }

/-- The enumerator `Budgeted::kYes = true`. -/
def Budgeted.kYes : Budgeted := { value := true }

end skgpu

/-! ## SkAndroidCodec: gamut area (src/codec/SkAndroidCodec.cpp, lines 54-62)

The `float` arithmetic of the source is read as exact arithmetic on rationals. -/

/-- The type `SkPoint`: two coordinates. -/
structure SkPoint where
  fX : ℚ
  fY : ℚ
  deriving DecidableEq, Repr

namespace SkAndroidCodec

/-- The function `calculate_area(SkPoint abc[])`, on the three points `abc[0]`, `abc[1]`,
`abc[2]`. -/
def calculate_area (a b c : SkPoint) : ℚ :=
  (1 / 2) * |a.fX * b.fY + b.fX * c.fY - a.fX * c.fY - c.fX * b.fY - b.fX * a.fY|

/-- The cross product `u x v` of two plane vectors. -/
def cross (ux uy vx vy : ℚ) : ℚ :=
  ux * vy - uy * vx

/-- The area of the triangle with vertices `a`, `b`, `c`: one half of the absolute value of
the cross product `(b - a) x (c - a)`. -/
def triangleArea (a b c : SkPoint) : ℚ :=
  (1 / 2) * |cross (b.fX - a.fX) (b.fY - a.fY) (c.fX - a.fX) (c.fY - a.fY)|

end SkAndroidCodec

/-! ## SkAndroidCodec: output color type (src/codec/SkAndroidCodec.cpp, lines 144-180) -/

/-- The color types that `SkAndroidCodec.cpp` names; the enumeration itself
(`include/core/SkColorType.h`) is not among the source files, and every enumerator the file
does not name is `other k`. -/
inductive SkColorType where
  | kAlpha_8
  | kRGB_565
  | kARGB_4444
  | kRGBA_8888
  | kBGRA_8888
  | kRGBA_1010102
  | kGray_8
  | kRGBA_F16
  | other (k : Nat)
  deriving DecidableEq, Repr

/-- The alpha types; `SkAndroidCodec.cpp` names `kOpaque`, `kPremul` and `kUnpremul`. -/
inductive SkAlphaType where
  | kUnknown
  | kOpaque
  | kPremul
  | kUnpremul
  deriving DecidableEq, Repr

/-- The alias `kN32_SkColorType`, which `SkColorType.h` (not among the source files) sets
to `kBGRA_8888_SkColorType` or to `kRGBA_8888_SkColorType` with the byte order of the
platform; `bgra` tells which. -/
def kN32_SkColorType (bgra : Bool) : SkColorType :=
  if bgra then .kBGRA_8888 else .kRGBA_8888

namespace SkAndroidCodec

/-- What `computeOutputColorType` reads of the codec: `getEncodedInfo().bitsPerComponent()`,
`getEncodedInfo().getColorDepth()`, and the color type and alpha type of `getInfo()`. -/
structure EncodedColor where
  bitsPerComponent : Nat
  colorDepth : Nat
  colorType : SkColorType
  alphaType : SkAlphaType
  deriving DecidableEq, Repr

/-- The value behind the `switch` of `computeOutputColorType`: "F16 is the Android default
for high precision images". -/
def defaultOutputColorType (bgra : Bool) (codec : EncodedColor) : SkColorType :=
  if codec.bitsPerComponent > 8 then .kRGBA_F16
  else if codec.colorDepth = 10 then .kRGBA_1010102
  else kN32_SkColorType bgra

/-- The method `computeOutputColorType(SkColorType requestedColorType)`. The cases of the
`switch` are tested in the order of the source; `kAlpha_8` falls through to `kGray_8`. -/
def computeOutputColorType (bgra : Bool) (codec : EncodedColor)
    (requestedColorType : SkColorType) : SkColorType :=
  if requestedColorType = .kARGB_4444 then kN32_SkColorType bgra
  else if requestedColorType = kN32_SkColorType bgra then defaultOutputColorType bgra codec
  else if requestedColorType = .kAlpha_8 ∨ requestedColorType = .kGray_8 then
    if SkColorType.kGray_8 = codec.colorType then .kGray_8
    else defaultOutputColorType bgra codec
  else if requestedColorType = .kRGB_565 then
    if SkAlphaType.kOpaque = codec.alphaType then .kRGB_565
    else defaultOutputColorType bgra codec
  else if requestedColorType = .kRGBA_1010102 then
    if codec.colorDepth = 10 then .kRGBA_1010102
    else defaultOutputColorType bgra codec
  else if requestedColorType = .kRGBA_F16 then .kRGBA_F16
  else defaultOutputColorType bgra codec

/-- A codec with 16 bits per component (a 16-bit PNG), color depth 16. -/
def highPrecisionCodec : EncodedColor :=
  { bitsPerComponent := 16, colorDepth := 16, colorType := .kRGBA_8888,
    alphaType := .kUnpremul }

end SkAndroidCodec

/-! ## Graphite images: `makeTextureImage` (src/gpu/graphite/Image_Graphite.cpp, lines
87-93 and 125-141) -/

/-- The type `Mipmapped` of `RequiredImageProperties::fMipmapped`; its declaration is not
among the source files, the code names its enumerators `kNo` and `kYes`. -/
inductive Mipmapped where
  | kNo
  | kYes
  deriving DecidableEq, Repr

/-- The type `RequiredImageProperties`, as far as `makeTextureImage` reads it. -/
structure RequiredImageProperties where
  fMipmapped : Mipmapped
  deriving DecidableEq, Repr

/-- The method `SkISize::area`: width times height, computed in 64 bits. -/
def SkISize.area (s : SkISize) : Int :=
  s.fWidth * s.fHeight

/-- What `makeTextureImage` reads of the image it is called on: `dimensions()`,
`as_IB(this)->isGraphiteBacked()`, which is true exactly of a `skgpu::graphite::Image`, and
`hasMipmaps()`. -/
structure SkImage where
  dimensions : SkISize
  isGraphiteBacked : Bool
  hasMipmaps : Bool
  deriving DecidableEq, Repr

/-- What a call of `makeTextureImage` leaves: the returned pointer (`none` is null) and, when
`onMakeTextureImage` was called, the properties it was called with. -/
structure TextureImageResult where
  image : Option SkImage
  dispatched : Option RequiredImageProperties
  deriving DecidableEq, Repr

/-- The method `Image::onMakeTextureImage` of the Graphite image: `none` when its `SkASSERT`
fails, else `sk_ref_sp(this)`. -/
def skgpu.graphite.Image.onMakeTextureImage (image : SkImage)
    (requiredProps : RequiredImageProperties) : Option SkImage :=
  if requiredProps.fMipmapped = .kYes ∧ image.hasMipmaps = false then some image else none

/-- The properties after the test `this->dimensions().area() <= 1` of `makeTextureImage`. -/
def SkImage.adjustedProps (image : SkImage) (requiredProps : RequiredImageProperties) :
    RequiredImageProperties :=
  if image.dimensions.area ≤ 1 then { requiredProps with fMipmapped := .kNo }
  else requiredProps

/-- The method `SkImage::makeTextureImage(Recorder*, RequiredImageProperties)`; `recorder`
tells whether the recorder is non-null. The virtual call `as_IB(this)->onMakeTextureImage`
reaches `Image::onMakeTextureImage` for a Graphite-backed image; for any other image it
reaches an override that is not among the source files, `onMakeTextureImageOther`. The
result is `none` when an `SkASSERT` fails. -/
def SkImage.makeTextureImage
    (onMakeTextureImageOther : SkImage → RequiredImageProperties → Option (Option SkImage))
    (image : SkImage) (recorder : Bool) (requiredProps : RequiredImageProperties) :
    Option TextureImageResult :=
  if recorder = false then some { image := none, dispatched := none }
  else if image.isGraphiteBacked = true ∧
      ((image.adjustedProps requiredProps).fMipmapped = .kNo ∨ image.hasMipmaps = true) then
    some { image := some image, dispatched := none }
  else if image.isGraphiteBacked = true then
    (skgpu.graphite.Image.onMakeTextureImage image (image.adjustedProps requiredProps)).map
      fun r => { image := some r, dispatched := some (image.adjustedProps requiredProps) }
  else
    (onMakeTextureImageOther image (image.adjustedProps requiredProps)).map
      fun r => { image := r, dispatched := some (image.adjustedProps requiredProps) }

/-- A Graphite-backed 16x16 image without mipmaps. -/
def SkImage.graphite16 : SkImage :=
  { dimensions := { fWidth := 16, fHeight := 16 }, isGraphiteBacked := true,
    hasMipmaps := false }

/-! ## SkAndroidCodec: `getAndroidPixels` (src/codec/SkAndroidCodec.cpp, lines 363-398) -/

/-- The type `SkIRect`: left, top, right and bottom edge. -/
structure SkIRect where
  fLeft : Int
  fTop : Int
  fRight : Int
  fBottom : Int
  deriving DecidableEq, Repr

/-- The factory `SkIRect::MakeSize(size)`: the rectangle `{0, 0, width, height}`. -/
def SkIRect.MakeSize (size : SkISize) : SkIRect :=
  { fLeft := 0, fTop := 0, fRight := size.fWidth, fBottom := size.fHeight }

namespace SkCodec

/-- The results of `SkCodec::Result` that `getAndroidPixels` names; the enumeration
(`include/codec/SkCodec.h`) is not among the source files, and every other enumerator is
`other k`. -/
inductive Result where
  | kSuccess
  | kInvalidParameters
  | other (k : Nat)
  deriving DecidableEq, Repr

end SkCodec

namespace SkAndroidCodec

/-- The type `AndroidOptions`: the subset pointer `fSubset` (`none` is null) and, in
`rest`, every other field; the declaration is not among the source files. -/
structure AndroidOptions (α : Type) where
  fSubset : Option SkIRect
  rest : α

/-- The arguments of `getAndroidPixels` besides the options: `requestInfo.minRowBytes()`,
the pointer `requestPixels` (`none` is null) and `requestRowBytes`. -/
structure PixelRequest where
  minRowBytes : Nat
  requestPixels : Option Nat
  requestRowBytes : Nat
  deriving DecidableEq, Repr

/-- What `getAndroidPixels` uses of the codec and of code that is not among the source
files: `fCodec->dimensions()`, the function `is_valid_subset`, the methods
`fCodec->handleFrameIndex` and `onGetAndroidPixels`, which act on a state `σ` that holds the
pixel memory, and a default-constructed `AndroidOptions`. -/
structure PixelCodec (α σ : Type) where
  dimensions : SkISize
  is_valid_subset : SkIRect → SkISize → Bool
  handleFrameIndex : PixelRequest → AndroidOptions α → σ → SkCodec.Result × σ
  onGetAndroidPixels : PixelRequest → AndroidOptions α → σ → SkCodec.Result × σ
  defaultOptions : AndroidOptions α

/-- A call that `getAndroidPixels` makes, with the options it passes. -/
inductive PixelCall (α : Type) where
  | handleFrameIndex (req : PixelRequest) (options : AndroidOptions α)
  | onGetAndroidPixels (req : PixelRequest) (options : AndroidOptions α)

/-- The options that `getAndroidPixels` goes on with (lines 373-391), `none` when it returns
`kInvalidParameters` for an invalid subset. -/
def resolveOptions {α σ : Type} (codec : PixelCodec α σ) (options : Option (AndroidOptions α)) :
    Option (AndroidOptions α) :=
  match options with
  | none => some codec.defaultOptions
  | some o =>
    match o.fSubset with
    | none => some o
    | some subset =>
      if codec.is_valid_subset subset codec.dimensions = false then none
      else if SkIRect.MakeSize codec.dimensions = subset then some { o with fSubset := none }
      else some o

/-- The end of `getAndroidPixels` (lines 393-398): `handleFrameIndex`, whose result is
returned unless it is `kSuccess`, then `onGetAndroidPixels`. -/
def forwardPixels {α σ : Type} (codec : PixelCodec α σ) (req : PixelRequest)
    (options : AndroidOptions α) (mem : σ) : SkCodec.Result × σ × List (PixelCall α) :=
  if (codec.handleFrameIndex req options mem).1 ≠ .kSuccess then
    ((codec.handleFrameIndex req options mem).1, (codec.handleFrameIndex req options mem).2,
      [.handleFrameIndex req options])
  else
    ((codec.onGetAndroidPixels req options (codec.handleFrameIndex req options mem).2).1,
      (codec.onGetAndroidPixels req options (codec.handleFrameIndex req options mem).2).2,
      [.handleFrameIndex req options, .onGetAndroidPixels req options])

/-- The method `getAndroidPixels(requestInfo, requestPixels, requestRowBytes, options)`: the
result, the state of the pixel memory and the calls made, in order. -/
def getAndroidPixels {α σ : Type} (codec : PixelCodec α σ) (req : PixelRequest)
    (options : Option (AndroidOptions α)) (mem : σ) :
    SkCodec.Result × σ × List (PixelCall α) :=
  if req.requestPixels = none then (.kInvalidParameters, mem, [])
  else if req.requestRowBytes < req.minRowBytes then (.kInvalidParameters, mem, [])
  else
    match resolveOptions codec options with
    | none => (.kInvalidParameters, mem, [])
    | some o => forwardPixels codec req o mem

/-- A 4x4 codec whose `is_valid_subset` is containment in the image rectangle, whose
`handleFrameIndex` succeeds and whose `onGetAndroidPixels` writes the sample size found in
`rest` to the pixel memory. -/
def pixelCodec4x4 : PixelCodec Nat Nat :=
  { dimensions := { fWidth := 4, fHeight := 4 }
    is_valid_subset := fun subset dims =>
      decide (0 ≤ subset.fLeft) && decide (0 ≤ subset.fTop) &&
        decide (subset.fLeft < subset.fRight) && decide (subset.fTop < subset.fBottom) &&
        decide (subset.fRight ≤ dims.fWidth) && decide (subset.fBottom ≤ dims.fHeight)
    handleFrameIndex := fun _ _ mem => (.kSuccess, mem)
    onGetAndroidPixels := fun _ options _ => (.kSuccess, options.rest)
    defaultOptions := { fSubset := none, rest := 1 } }

/-- A request with a non-null pixel pointer and enough row bytes. -/
def validRequest : PixelRequest :=
  { minRowBytes := 16, requestPixels := some 4096, requestRowBytes := 16 }

end SkAndroidCodec

namespace SkRasterPipeline

/-! ### Fixtures of the loop-mask and return-mask tests

The arrays of the tests are laid out in memory as `initial` at cell 0, `mask` at cell 100
and `dst` at cell 200. -/

/-- Address of the array `initial`. -/
def kInitialPtr : Nat := 0

/-- Address of the array `mask`. -/
def kMaskPtr : Nat := 100

/-- Address of the array `dst`. -/
def kDstPtr : Nat := 200

/-- The memory at the start of a mask test: the arrays `initial` and `mask`, and `dst` all
zero. -/
def maskTestMem (initial mask : List Nat) : Mem :=
  fun addr =>
    if addr < kMaskPtr then initial.getD addr 0
    else if addr < kDstPtr then mask.getD (addr - kMaskPtr) 0
    else 0

/-- The array `initial` of `SkRasterPipeline_MergeLoopMask`. -/
def mergeLoopMaskInitial : List Nat :=
  [kAllOnes, kAllOnes, kAllOnes, kAllOnes, kAllOnes, 0, kAllOnes, kAllOnes,
   kAllOnes, 0, kAllOnes, 0, kAllOnes, kAllOnes, kAllOnes, kAllOnes,
   kAllOnes, kAllOnes, kAllOnes, kAllOnes, kAllOnes, kAllOnes, 0, kAllOnes,
   kAllOnes, kAllOnes, kAllOnes, kAllOnes, kAllOnes, kAllOnes, kAllOnes, kAllOnes]

/-- The array `mask` of `SkRasterPipeline_MergeLoopMask`. -/
def mergeLoopMaskMask : List Nat :=
  [0, kAllOnes, kAllOnes, 0, kAllOnes, kAllOnes, kAllOnes, kAllOnes]

/-- The array `initial` of `SkRasterPipeline_ReenableLoopMask`. -/
def reenableLoopMaskInitial : List Nat :=
  [kAllOnes, kAllOnes, kAllOnes, kAllOnes, kAllOnes, 0, kAllOnes, kAllOnes,
   kAllOnes, 0, kAllOnes, 0, kAllOnes, kAllOnes, 0, kAllOnes,
   0, kAllOnes, kAllOnes, kAllOnes, 0, 0, 0, kAllOnes,
   0, 0, kAllOnes, 0, 0, 0, 0, kAllOnes]

/-- The array `mask` of `SkRasterPipeline_ReenableLoopMask`. -/
def reenableLoopMaskMask : List Nat :=
  [0, kAllOnes, 0, 0, 0, 0, kAllOnes, 0]

/-- The array `initial` of `SkRasterPipeline_MaskOffLoopMask` and of
`SkRasterPipeline_MaskOffReturnMask`. -/
def maskOffInitial : List Nat :=
  [kAllOnes, kAllOnes, kAllOnes, kAllOnes, kAllOnes, 0, kAllOnes, kAllOnes,
   kAllOnes, 0, kAllOnes, kAllOnes, 0, 0, 0, kAllOnes,
   kAllOnes, kAllOnes, 0, kAllOnes, 0, 0, kAllOnes, kAllOnes,
   kAllOnes, 0, 0, kAllOnes, 0, 0, 0, kAllOnes]

/-- The program of a mask test: `load_dst initial`, the stage under test, `store_dst dst`. -/
def maskTestProgram (stage : Stage) : List Stage :=
  [.load_dst kInitialPtr, stage, .store_dst kDstPtr]

/-- The memory after a mask test run as `p.run(0,0,N,1)`: one full lane group. -/
def maskTestRun (N : Nat) (stage : Stage) (initial mask : List Nat) : Option Mem :=
  (runStages N N (maskTestProgram stage) 10
    { regs := Regs.zero, mem := maskTestMem initial mask }).map fun st => st.mem

/-- The last check of the four mask tests, for lane `index`: `da` contains
`dr & dg & db`. -/
def combinedIsConjunction (N : Nat) (m : Mem) (index : Nat) : Bool :=
  m (kDstPtr + 3 * N + index) ==
    (m (kDstPtr + index) &&& m (kDstPtr + N + index) &&& m (kDstPtr + 2 * N + index))

/-- The checks of `SkRasterPipeline_MergeLoopMask` (`useOr = false`) and of
`SkRasterPipeline_ReenableLoopMask` (`useOr = true`) on the memory after the run. -/
def loopMaskTestPasses (N : Nat) (useOr : Bool) (initial mask : List Nat) (m : Mem) : Bool :=
  (List.range N).all fun index =>
    (m (kDstPtr + N + index) ==
        (if useOr then initial.getD (N + index) 0 ||| mask.getD index 0
          else initial.getD (N + index) 0 &&& mask.getD index 0)) &&
      m (kDstPtr + index) == initial.getD index 0 &&
      m (kDstPtr + 2 * N + index) == initial.getD (2 * N + index) 0 &&
      combinedIsConjunction N m index

/-- The checks of `SkRasterPipeline_MaskOffLoopMask` (`slot = 1`, the register `dg`) and of
`SkRasterPipeline_MaskOffReturnMask` (`slot = 2`, the register `db`) on the memory after
the run. -/
def maskOffTestPasses (N : Nat) (slot : Nat) (initial : List Nat) (m : Mem) : Bool :=
  (List.range N).all fun index =>
    (m (kDstPtr + slot * N + index) ==
        (initial.getD (slot * N + index) 0 &&& complement (initial.getD (3 * N + index) 0))) &&
      combinedIsConjunction N m index

/-- The four mask tests, run with `N` lanes. -/
def maskTestsPass (N : Nat) : Bool :=
  ((maskTestRun N (.merge_loop_mask kMaskPtr) mergeLoopMaskInitial mergeLoopMaskMask).any
      (loopMaskTestPasses N false mergeLoopMaskInitial mergeLoopMaskMask)) &&
    ((maskTestRun N (.reenable_loop_mask kMaskPtr) reenableLoopMaskInitial
        reenableLoopMaskMask).any
      (loopMaskTestPasses N true reenableLoopMaskInitial reenableLoopMaskMask)) &&
    ((maskTestRun N .mask_off_loop_mask maskOffInitial []).any
      (maskOffTestPasses N 1 maskOffInitial)) &&
    ((maskTestRun N .mask_off_return_mask maskOffInitial []).any
      (maskOffTestPasses N 2 maskOffInitial))

/-- What a mask stage leaves of a state `st`: the masks `dr`, `dg`, `db` given, the
combined mask `da` equal to their conjunction in every lane, and the colour registers and
the memory as they were. -/
def MaskStageEffect (st st1 : State) (dr dg db : Vec) : Prop :=
  st1.regs.dr = dr ∧ st1.regs.dg = dg ∧ st1.regs.db = db ∧
    (∀ lane, st1.regs.da lane = st1.regs.dr lane &&& st1.regs.dg lane &&& st1.regs.db lane) ∧
    st1.regs.r = st.regs.r ∧ st1.regs.g = st.regs.g ∧ st1.regs.b = st.regs.b ∧
    st1.regs.a = st.regs.a ∧ st1.mem = st.mem

end SkRasterPipeline

namespace SkSL.RP

/-! ## Builder: the recording methods defined outside the header -/

/-- One call of a recording method that the class declares (lines 305-315, 329-330 and
379-380 of the header) and defines outside the header. -/
inductive DeclaredCall where
  | unary_op (op : BuilderOp) (slots : Int)
  | binary_op (op : BuilderOp) (slots : Int)
  | ternary_op (op : BuilderOp) (slots : Int)
  | push_duplicates (count : Int)
  | swizzle (inputSlots : Int) (components : List Int)
  deriving DecidableEq, Repr

/-- Modelled from the spec: the recording methods `unary_op`, `binary_op`, `ternary_op`,
`push_duplicates` and `swizzle`, whose bodies (`SkSLRasterPipelineBuilder.cpp`) are not among
the source files. Of a Builder method the specification says that "each call appends exactly
one Instruction (or, for convenience composites like `pop_slots`, a short fixed sequence)",
and of the arity-generic methods that they "accept an opcode naming the N-slot variant and
a slot count": `unary_op`, `binary_op` and `ternary_op` append one Instruction with the
given opcode and the slot count as `fImmA`; the fixed sequence that `push_duplicates` and
`swizzle` append for their arguments is `sequence`, with `none` for a failed assertion. -/
def Builder.recordDeclared (sequence : DeclaredCall → Option (List Instruction))
    (b : Builder) : DeclaredCall → Option Builder
  | .unary_op op slots => some (b.push_back (Instruction.make op [] slots 0))
  | .binary_op op slots => some (b.push_back (Instruction.make op [] slots 0))
  | .ternary_op op slots => some (b.push_back (Instruction.make op [] slots 0))
  | .push_duplicates count =>
    (sequence (.push_duplicates count)).map fun l =>
      { b with fInstructions := b.fInstructions ++ l }
  | .swizzle inputSlots components =>
    (sequence (.swizzle inputSlots components)).map fun l =>
      { b with fInstructions := b.fInstructions ++ l }

/-- A choice of the sequences of `push_duplicates` and `swizzle` for examples: `swizzle`
appends one Instruction of the native stage 0 with the input slot count, `push_duplicates`
as many single-slot `push_clone` instructions as its count. -/
def exampleSequence : DeclaredCall → Option (List Instruction)
  | .push_duplicates count =>
    if 0 ≤ count then some (List.replicate count.toNat (Instruction.make .push_clone [] 1 1))
    else none
  | .swizzle inputSlots _ => some [Instruction.make (.native 0) [] inputSlots 0]
  | _ => some []

end SkSL.RP

namespace SkRasterPipeline

/-! ### The scalar results of the integer stages, in the words of the specification -/

/-- The specification's words: `r` is the 32-bit scalar result `op(d, s)` of the 32-bit
words `d` and `s`. Sums, differences and products wrap modulo 2^32; `div` is the quotient of
the signed readings, truncated towards zero, and `div_uint` the quotient of the unsigned
readings; the bitwise ops act bit by bit; `min` and `max` compare the signed readings,
`min_uint` and `max_uint` the unsigned ones, and return one of the two words. -/
def IntOp.IsResult (op : IntOp) (d s r : Nat) : Prop :=
  match op with
  | .add => r < 4294967296 ∧ ((r : Int) - ((d : Int) + (s : Int))) % 4294967296 = 0
  | .sub => r < 4294967296 ∧ ((r : Int) - ((d : Int) - (s : Int))) % 4294967296 = 0
  | .mul => r < 4294967296 ∧ ((r : Int) - ((d : Int) * (s : Int))) % 4294967296 = 0
  | .div =>
    r < 4294967296 ∧
      ((r : Int) -
        Int.tdiv (if d < 2147483648 then (d : Int) else (d : Int) - 4294967296)
          (if s < 2147483648 then (s : Int) else (s : Int) - 4294967296)) % 4294967296 = 0
  | .div_uint => r * s ≤ d ∧ d < (r + 1) * s
  | .bitwise_and => ∀ i, r.testBit i = (d.testBit i && s.testBit i)
  | .bitwise_or => ∀ i, r.testBit i = (d.testBit i || s.testBit i)
  | .bitwise_xor => ∀ i, r.testBit i = xor (d.testBit i) (s.testBit i)
  | .min =>
    if (if d < 2147483648 then (d : Int) else (d : Int) - 4294967296) <
        (if s < 2147483648 then (s : Int) else (s : Int) - 4294967296) then r = d
    else r = s
  | .min_uint => if d < s then r = d else r = s
  | .max =>
    if (if d < 2147483648 then (d : Int) else (d : Int) - 4294967296) >
        (if s < 2147483648 then (s : Int) else (s : Int) - 4294967296) then r = d
    else r = s
  | .max_uint => if d > s then r = d else r = s

/-- A memory of one lane per slot with the word `x` in slot 0 and the word `y` in slot 1,
and the registers all zero. -/
def pairState (x y : Nat) : State :=
  { regs := Regs.zero, mem := fun addr => if addr = 0 then x else if addr = 1 then y else 0 }

end SkRasterPipeline

namespace SkSL.RP

/-! # Theorems -/

/-! ## Builder: recording -/

/-- Every successful recording call keeps the old instructions as a prefix, appends at most
two instructions, and keeps the label counter. -/
theorem Builder.record_append (b b1 : Builder) (c : Call) (h : b.record c = some b1) :
    ∃ l : List Instruction, b1.fInstructions = b.fInstructions ++ l ∧
      b1.fNumLabels = b.fNumLabels ∧
      l.length = (if c.isRecording && !c.isEmptyPushSlots then
        (if c.isComposite then 2 else 1) else 0) := by
  cases c <;>
    simp only [Builder.record, Builder.init_lane_masks, Builder.store_src_rg, Builder.store_src,
      Builder.store_dst, Builder.load_src, Builder.load_dst, Builder.set_current_stack,
      Builder.label, Builder.jump, Builder.branch_if_any_active_lanes,
      Builder.branch_if_no_active_lanes, Builder.immediate_f, Builder.immediate_i,
      Builder.immediate_u, Builder.push_literal_f, Builder.push_literal_i,
      Builder.push_literal_u, Builder.push_uniform, Builder.push_zeros, Builder.push_slots,
      Builder.copy_stack_to_slots, Builder.copy_stack_to_slots_at,
      Builder.copy_stack_to_slots_unmasked, Builder.copy_stack_to_slots_unmasked_at,
      Builder.discard_stack, Builder.pop_slots, Builder.push_clone, Builder.select,
      Builder.pop_slots_unmasked, Builder.load_unmasked, Builder.store_unmasked,
      Builder.store_masked, Builder.copy_slots_masked, Builder.copy_slots_unmasked,
      Builder.zero_slots_unmasked, Builder.push_condition_mask, Builder.pop_condition_mask,
      Builder.merge_condition_mask, Builder.push_loop_mask, Builder.pop_loop_mask,
      Builder.mask_off_loop_mask, Builder.reenable_loop_mask, Builder.merge_loop_mask,
      Builder.push_return_mask, Builder.pop_return_mask, Builder.mask_off_return_mask,
      Builder.incNumBranches, Builder.push_back, Option.bind] at h <;>
    (try split at h) <;> (try split at h) <;>
    (try (simp only [Option.some.injEq, reduceCtorEq] at h)) <;>
    (try subst h) <;>
    (try simp_all [Call.isRecording, Call.isComposite, Call.isEmptyPushSlots]) <;>
    (split <;> omega)

/-- The effect of one call on the label counter and on the returned handles. -/
theorem Builder.call_numLabels (b b1 : Builder) (c : Call) (r : Option Int)
    (h : b.call c = some (b1, r)) :
    (c = .nextLabelID ∧ r = some b.fNumLabels ∧ b1.fNumLabels = b.fNumLabels + 1 ∧
        b.fNumLabels < INT_MAX) ∨
      (c ≠ .nextLabelID ∧ r = none ∧ b1.fNumLabels = b.fNumLabels) := by
  by_cases hc : c = .nextLabelID
  · subst hc
    left
    simp only [Builder.call, Builder.nextLabelID] at h
    split at h
    · simp only [Option.map, Option.some.injEq, Prod.mk.injEq] at h
      obtain ⟨h1, h2⟩ := h
      subst h1
      exact ⟨rfl, h2.symm, rfl, by assumption⟩
    · simp at h
  · right
    have h2 : b.call c = (b.record c).map fun b1 => (b1, none) := by
      cases c <;> first | rfl | exact absurd rfl hc
    rw [h2] at h
    cases hrec : b.record c with
    | none => simp [hrec] at h
    | some b2 =>
      simp only [hrec, Option.map, Option.some.injEq, Prod.mk.injEq] at h
      obtain ⟨h3, h4⟩ := h
      subst h3
      obtain ⟨l, _, hl, _⟩ := Builder.record_append b b2 c hrec
      exact ⟨hc, h4.symm, hl⟩

/-- The handles returned in a run are consecutive, starting at the label counter of the
initial Builder, and the label counter has advanced by their number. -/
theorem Builder.run_handles (cs : List Call) (b b1 : Builder) (hs : List Int)
    (h : b.run cs = some (b1, hs)) :
    hs = (List.range hs.length).map (fun (i : Nat) => b.fNumLabels + (i : Int)) ∧
      b1.fNumLabels = b.fNumLabels + hs.length := by
  induction cs generalizing b hs with
  | nil =>
    simp only [Builder.run, Option.some.injEq, Prod.mk.injEq] at h
    obtain ⟨h1, h2⟩ := h
    subst h1 h2
    simp
  | cons c cs ih =>
    simp only [Builder.run] at h
    cases hcall : b.call c with
    | none => simp [hcall] at h
    | some p =>
      obtain ⟨b2, r⟩ := p
      simp only [hcall] at h
      cases hrun : b2.run cs with
      | none => simp [hrun] at h
      | some q =>
        obtain ⟨b3, hs2⟩ := q
        simp only [hrun, Option.some.injEq, Prod.mk.injEq] at h
        obtain ⟨h1, h2⟩ := h
        subst h1 h2
        obtain ⟨ih1, ih2⟩ := ih b2 hs2 hrun
        rcases Builder.call_numLabels b b2 c r hcall with ⟨_, hr, hn, _⟩ | ⟨_, hr, hn⟩
        · subst hr
          rw [hn] at ih1 ih2
          constructor
          · simp only [Option.toList, List.singleton_append, List.length_cons,
              List.range_succ_eq_map, List.map_cons, List.map_map, Nat.cast_zero, add_zero]
            congr 1
            conv_lhs => rw [ih1]
            apply List.map_congr_left
            intro i _
            simp only [Function.comp, Nat.succ_eq_add_one, Nat.cast_add, Nat.cast_one]
            ring
          · simp only [Option.toList, List.singleton_append, List.length_cons, Nat.cast_add,
              Nat.cast_one]
            rw [ih2]; ring
        · subst hr
          rw [hn] at ih1 ih2
          simpa using ⟨ih1, ih2⟩

/-- Membership in the handles returned by a run from a fresh Builder. -/
theorem Builder.mem_handles_fresh (cs : List Call) (b : Builder) (hs : List Int)
    (h : Builder.fresh.run cs = some (b, hs)) (id : Int) :
    id ∈ hs ↔ 0 ≤ id ∧ id < b.fNumLabels := by
  obtain ⟨h1, h2⟩ := Builder.run_handles cs Builder.fresh b hs h
  have h0 : Builder.fresh.fNumLabels = 0 := rfl
  rw [h0] at h1 h2
  rw [h2]
  constructor
  · intro hmem
    rw [h1] at hmem
    simp only [zero_add, List.mem_map, List.mem_range] at hmem
    obtain ⟨i, hi, rfl⟩ := hmem
    omega
  · rintro ⟨hlo, hhi⟩
    rw [h1]
    simp only [zero_add, List.mem_map, List.mem_range, List.length_map, List.length_range]
    refine ⟨id.toNat, ?_, ?_⟩ <;> omega

/-- C1 (amended): a successful call of a non-composite recording method appends exactly one
Instruction to the recorded list, except `push_slots` on an empty slot range (count 0), which
passes its assertion and leaves the list as it is. -/
theorem Builder.record_appends_one (b b1 : Builder) (c : Call)
    (hrec : c.isRecording = true) (hcomp : c.isComposite = false)
    (h : b.record c = some b1) :
    (c.isEmptyPushSlots = false →
        (∃ inst, b1.fInstructions = b.fInstructions ++ [inst]) ∧
        b1.fInstructions.length = b.fInstructions.length + 1) ∧
      (c.isEmptyPushSlots = true → b1.fInstructions = b.fInstructions) := by
  obtain ⟨l, hl, _, hlen⟩ := Builder.record_append b b1 c h
  simp only [hrec, hcomp, Bool.true_and, Bool.false_eq_true, if_false] at hlen
  constructor
  · intro he
    simp only [he, Bool.not_false, if_true] at hlen
    obtain ⟨inst, rfl⟩ := List.length_eq_one.mp hlen
    exact ⟨⟨inst, hl⟩, by simp [hl]⟩
  · intro he
    simp only [he, Bool.not_true, Bool.false_eq_true, if_false] at hlen
    rw [hl, List.length_eq_zero.mp hlen, List.append_nil]

/-- Witness for C1 (amended): `jump(0)` on a Builder with one reserved label. -/
theorem Builder.record_appends_one_witness :
    ((Call.jump 0).isEmptyPushSlots = false →
        (∃ inst, [Instruction.make .jump [] 0 0] = ([] : List Instruction) ++ [inst]) ∧
        [Instruction.make .jump [] 0 0].length = ([] : List Instruction).length + 1) ∧
      ((Call.jump 0).isEmptyPushSlots = true →
        [Instruction.make .jump [] 0 0] = ([] : List Instruction)) :=
  Builder.record_appends_one { fNumLabels := 1 }
    { fInstructions := [Instruction.make .jump [] 0 0], fNumLabels := 1, fNumBranches := 1 }
    (.jump 0) rfl rfl (by decide)

/-- C1 as stated fails: `push_slots` of the empty range `{0, 0}` is a non-composite recording
call whose assertion `src.count >= 0` holds, and it leaves the instruction list unchanged, so
not every such call makes the list one Instruction longer. -/
theorem Builder.push_slots_empty_records_nothing :
    Builder.fresh.record (.push_slots { index := 0, count := 0 }) = some Builder.fresh ∧
      ¬ (∀ (b b1 : Builder) (c : Call), c.isRecording = true → c.isComposite = false →
          b.record c = some b1 →
          b1.fInstructions.length = b.fInstructions.length + 1) := by
  refine ⟨by decide, fun hall => ?_⟩
  have h := hall Builder.fresh Builder.fresh (.push_slots { index := 0, count := 0 })
    rfl rfl (by decide)
  simp at h

/-! ## Builder: labels -/

/-- C2: after any sequence of calls on a fresh Builder, the assertion of `label`, `jump`,
`branch_if_any_active_lanes` and `branch_if_no_active_lanes` holds for `id` exactly when `id`
is one of the handles returned by the earlier `nextLabelID` calls; since the sequence is
arbitrary, this is so whether or not `label(id)` has been recorded yet. Each of the four
methods then succeeds exactly for the reserved handles (for the three branches, as long as
the branch counter can still be incremented). -/
theorem Builder.labelAssertion_iff_reserved (cs : List Call) (b : Builder) (hs : List Int)
    (h : Builder.fresh.run cs = some (b, hs)) (id : Int) :
    (b.labelAssertion id = true ↔ id ∈ hs) ∧
      ((b.label id).isSome = true ↔ id ∈ hs) ∧
      (b.fNumBranches < INT_MAX →
        ((b.jump id).isSome = true ↔ id ∈ hs) ∧
        ((b.branch_if_any_active_lanes id).isSome = true ↔ id ∈ hs) ∧
        ((b.branch_if_no_active_lanes id).isSome = true ↔ id ∈ hs)) := by
  have hmem := Builder.mem_handles_fresh cs b hs h id
  have hA : b.labelAssertion id = true ↔ id ∈ hs := by
    rw [hmem]
    simp [Builder.labelAssertion]
  refine ⟨hA, ?_, ?_⟩
  · rw [← hA]
    unfold Builder.label
    split <;> simp_all
  · intro hbr
    rw [← hA]
    refine ⟨?_, ?_, ?_⟩
    · unfold Builder.jump
      split <;> simp_all [Builder.incNumBranches, Builder.push_back]
    · unfold Builder.branch_if_any_active_lanes
      split <;> simp_all [Builder.incNumBranches, Builder.push_back]
    · unfold Builder.branch_if_no_active_lanes
      split <;> simp_all [Builder.incNumBranches, Builder.push_back]

/-- Witness for C2: handle 0 is reserved, branched to (forward reference), then placed with
`label(0)`; afterwards it is still accepted (backward reference). -/
theorem Builder.labelAssertion_iff_reserved_witness :
    (Builder.exampleForwardBranch.labelAssertion 0 = true ↔ (0 : Int) ∈ [(0 : Int)]) ∧
      ((Builder.exampleForwardBranch.label 0).isSome = true ↔ (0 : Int) ∈ [(0 : Int)]) ∧
      (Builder.exampleForwardBranch.fNumBranches < INT_MAX →
        ((Builder.exampleForwardBranch.jump 0).isSome = true ↔ (0 : Int) ∈ [(0 : Int)]) ∧
        ((Builder.exampleForwardBranch.branch_if_any_active_lanes 0).isSome = true ↔
          (0 : Int) ∈ [(0 : Int)]) ∧
        ((Builder.exampleForwardBranch.branch_if_no_active_lanes 0).isSome = true ↔
          (0 : Int) ∈ [(0 : Int)])) :=
  Builder.labelAssertion_iff_reserved
    [.nextLabelID, .branch_if_no_active_lanes 0, .label 0] Builder.exampleForwardBranch [0]
    (by decide) 0

/-- C3: on a fresh Builder the n-th `nextLabelID` call returns n-1 (the returned handles,
in call order, are 0, 1, 2, ...), whatever other calls are interleaved; no two calls return
the same handle; the next `nextLabelID` call succeeds and returns the number of handles
handed out so far, as long as that is below `INT_MAX`; and no method other than
`nextLabelID` changes the label counter. -/
theorem Builder.nextLabelID_handles (cs : List Call) (b : Builder) (hs : List Int)
    (h : Builder.fresh.run cs = some (b, hs)) :
    hs = (List.range hs.length).map (fun (i : Nat) => (i : Int)) ∧
      hs.Nodup ∧
      b.fNumLabels = hs.length ∧
      ((hs.length : Int) < INT_MAX →
        b.nextLabelID = some ((hs.length : Int), { b with fNumLabels := hs.length + 1 })) ∧
      (∀ (b0 b1 : Builder) (c : Call) (r : Option Int), c ≠ .nextLabelID →
        b0.call c = some (b1, r) → b1.fNumLabels = b0.fNumLabels ∧ r = none) := by
  obtain ⟨h1, h2⟩ := Builder.run_handles cs Builder.fresh b hs h
  have h0 : Builder.fresh.fNumLabels = 0 := rfl
  simp only [h0, zero_add] at h1 h2
  refine ⟨h1, ?_, h2, ?_, ?_⟩
  · rw [h1]
    apply List.Nodup.map _ (List.nodup_range _)
    intro i j hij
    exact Int.ofNat.inj hij
  · intro hlt
    simp only [Builder.nextLabelID, h2, hlt, if_true]
  · intro b0 b1 c r hc hcall
    rcases Builder.call_numLabels b0 b1 c r hcall with ⟨hc2, _⟩ | ⟨_, hr, hn⟩
    · exact absurd hc2 hc
    · exact ⟨hn, hr⟩

/-- Witness for C3: three `nextLabelID` calls interleaved with recording calls return
0, 1, 2. -/
theorem Builder.nextLabelID_handles_witness :
    ([0, 1, 2] : List Int) =
        (List.range ([0, 1, 2] : List Int).length).map (fun (i : Nat) => (i : Int)) ∧
      ([0, 1, 2] : List Int).Nodup ∧
      Builder.exampleThreeLabels.fNumLabels = ([0, 1, 2] : List Int).length ∧
      ((([0, 1, 2] : List Int).length : Int) < INT_MAX →
        Builder.exampleThreeLabels.nextLabelID =
          some ((([0, 1, 2] : List Int).length : Int),
            { Builder.exampleThreeLabels with
              fNumLabels := ([0, 1, 2] : List Int).length + 1 })) ∧
      (∀ (b0 b1 : Builder) (c : Call) (r : Option Int), c ≠ .nextLabelID →
        b0.call c = some (b1, r) → b1.fNumLabels = b0.fNumLabels ∧ r = none) :=
  Builder.nextLabelID_handles
    [.nextLabelID, .init_lane_masks, .nextLabelID, .label 1, .nextLabelID]
    Builder.exampleThreeLabels [0, 1, 2] (by decide)

end SkSL.RP

namespace SkRasterPipeline

/-! ## Branch stages -/

/-- The modelled branch condition (a set lane in `da`) makes both branch tests pass, for
the lane counts 4 and 8. -/
theorem branch_tests_pass :
    branchTestPasses (anyActiveLanes 4) 4 branchIfAnyProgram kColorGreen = true ∧
      branchTestPasses (anyActiveLanes 4) 4 branchIfNoProgram kColorBlue = true ∧
      branchTestPasses (anyActiveLanes 8) 8 branchIfAnyProgram kColorGreen = true ∧
      branchTestPasses (anyActiveLanes 8) 8 branchIfNoProgram kColorBlue = true := by
  decide

/-- A branch condition recomputed from `dr`, `dg`, `db` makes both branch tests fail. -/
theorem branch_tests_fail_with_conjunction :
    branchTestPasses (anyConjunctionLanes 4) 4 branchIfAnyProgram kColorGreen = false ∧
      branchTestPasses (anyConjunctionLanes 4) 4 branchIfNoProgram kColorBlue = false := by
  decide

/-- A set lane among the first `N` lanes, spelled out. -/
theorem anyLane_iff (N : Nat) (v : Vec) :
    anyLane N v = true ↔ ∃ lane, lane < N ∧ v lane ≠ 0 := by
  simp [anyLane, List.any_eq_true]

/-- C4 (amended): `branch_if_any_active_lanes` continues at its offset exactly when the
combined-mask register `da` has a set lane, and at the next stage otherwise;
`branch_if_no_active_lanes` does the opposite; neither changes registers or memory. When
`da` holds the conjunction of `dr`, `dg` and `db`, as the mask stages leave it, this is the
test "the conjunction of condition, loop and return mask has a set lane". -/
theorem branch_iff_combined_mask (N active : Nat) (offset : Int) (st : State) :
    (Stage.branch_if_any_active_lanes offset).exec N active st =
        (st, if anyLane N st.regs.da then offset else 1) ∧
      (Stage.branch_if_no_active_lanes offset).exec N active st =
        (st, if anyLane N st.regs.da then 1 else offset) ∧
      (anyLane N st.regs.da = true ↔ ∃ lane, lane < N ∧ st.regs.da lane ≠ 0) ∧
      ((∀ lane, lane < N →
          st.regs.da lane = st.regs.dr lane &&& st.regs.dg lane &&& st.regs.db lane) →
        (anyLane N st.regs.da = true ↔
          ∃ lane, lane < N ∧ st.regs.dr lane &&& st.regs.dg lane &&& st.regs.db lane ≠ 0)) := by
  refine ⟨rfl, rfl, anyLane_iff N _, fun h => ?_⟩
  rw [anyLane_iff]
  constructor
  · rintro ⟨lane, hl, hne⟩
    exact ⟨lane, hl, by rwa [← h lane hl]⟩
  · rintro ⟨lane, hl, hne⟩
    exact ⟨lane, hl, by rwa [h lane hl]⟩

/-- C4 as stated fails on the fixture `oneLaneActive` of the branch tests (4 lanes): after
`load_dst oneLaneActive` the conjunction of `dr`, `dg`, `db` has no set lane, yet
`branch_if_any_active_lanes` takes its branch (offset 2) and `branch_if_no_active_lanes`
falls through to the next stage, as both tests expect. -/
theorem branch_on_oneLaneActive_fixture :
    (∀ lane, lane < 4 → (oneLaneActiveRegs 4).maskConjunction lane = 0) ∧
      ((Stage.branch_if_any_active_lanes 2).exec 4 1
        { regs := oneLaneActiveRegs 4, mem := branchTestMem 4 }).2 = 2 ∧
      ((Stage.branch_if_no_active_lanes 2).exec 4 1
        { regs := oneLaneActiveRegs 4, mem := branchTestMem 4 }).2 = 1 := by
  decide

/-! ## Multi-slot stages -/

/-- A multi-slot stage leaves every cell outside its `k` destination slots unchanged. -/
theorem applySlots_frame (N : Nat) (f : Nat → Nat → Nat → Nat) (k dst src : Nat) (m : Mem)
    (addr : Nat) (h : ¬ (dst ≤ addr ∧ addr < dst + k * N)) :
    applySlots N f k dst src m addr = m addr := by
  induction k generalizing dst src m with
  | zero => rfl
  | succ k ih =>
    have hk : (k + 1) * N = k * N + N := Nat.succ_mul k N
    simp only [applySlots]
    rw [ih (dst + N) (src + N) _ (by omega)]
    simp only [storeVec]
    rw [if_neg (by omega)]

/-- A multi-slot stage whose source slots lie apart from its destination slots leaves in
lane `lane` of destination slot `s` the value `f lane (dst lane) (src lane)`. -/
theorem applySlots_value (N : Nat) (f : Nat → Nat → Nat → Nat) (k dst src : Nat) (m : Mem)
    (s lane : Nat) (hs : s < k) (hl : lane < N)
    (hdisj : src + k * N ≤ dst ∨ dst + k * N ≤ src) :
    applySlots N f k dst src m (dst + s * N + lane) =
      f lane (m (dst + s * N + lane)) (m (src + s * N + lane)) := by
  induction k generalizing dst src m s with
  | zero => omega
  | succ k ih =>
    have hk : (k + 1) * N = k * N + N := Nat.succ_mul k N
    simp only [applySlots]
    cases s with
    | zero =>
      rw [applySlots_frame _ _ _ _ _ _ _ (by omega)]
      simp only [storeVec, Nat.zero_mul, Nat.add_zero]
      rw [if_pos (by omega)]
      congr 1 <;> (congr 1; omega)
    | succ s =>
      have hs2 : s < k := by omega
      have hsk : (s + 1) * N ≤ k * N := Nat.mul_le_mul_right N hs2
      have hsN : (s + 1) * N = s * N + N := Nat.succ_mul s N
      have e1 : dst + (s + 1) * N + lane = dst + N + s * N + lane := by omega
      have e2 : src + (s + 1) * N + lane = src + N + s * N + lane := by omega
      rw [e1, e2, ih (dst + N) (src + N) _ s hs2 (by omega)]
      simp only [storeVec]
      rw [if_neg (by omega), if_neg (by omega)]

/-- A fill stage leaves every cell outside its `k` destination slots unchanged. -/
theorem fillSlots_frame (N : Nat) (v : Vec) (k dst : Nat) (m : Mem)
    (addr : Nat) (h : ¬ (dst ≤ addr ∧ addr < dst + k * N)) :
    fillSlots N v k dst m addr = m addr := by
  induction k generalizing dst m with
  | zero => rfl
  | succ k ih =>
    have hk : (k + 1) * N = k * N + N := Nat.succ_mul k N
    simp only [fillSlots]
    rw [ih (dst + N) _ (by omega)]
    simp only [storeVec]
    rw [if_neg (by omega)]

/-- A fill stage leaves `v lane` in lane `lane` of each of its `k` destination slots. -/
theorem fillSlots_value (N : Nat) (v : Vec) (k dst : Nat) (m : Mem)
    (s lane : Nat) (hs : s < k) (hl : lane < N) :
    fillSlots N v k dst m (dst + s * N + lane) = v lane := by
  induction k generalizing dst m s with
  | zero => omega
  | succ k ih =>
    simp only [fillSlots]
    cases s with
    | zero =>
      rw [fillSlots_frame _ _ _ _ _ _ (by omega)]
      simp only [storeVec, Nat.zero_mul, Nat.add_zero]
      rw [if_pos (by omega)]
      congr 1; omega
    | succ s =>
      have hsN : (s + 1) * N = s * N + N := Nat.succ_mul s N
      have e1 : dst + (s + 1) * N + lane = dst + N + s * N + lane := by omega
      rw [e1, ih (dst + N) _ s (by omega)]

/-- Conjunction with `~0` keeps a 32-bit word. -/
theorem and_allOnes (w : Nat) (h : w < 4294967296) : w &&& kAllOnes = w := by
  have h2 := Nat.and_pow_two_sub_one_eq_mod w 32
  norm_num at h2
  rw [kAllOnes, h2]
  exact Nat.mod_eq_of_lt h

/-- C5: on a full lane group, `init_lane_masks`, `load_condition_mask(mask)`,
`copy_k_slots_masked{dst, src}` sets lane `lane` of destination slot `s < k` to the source
lane where the mask lane is set and leaves it as it was where the mask lane is clear; every
cell outside the `k` destination slots keeps its value. Likewise `init_lane_masks`,
`load_condition_mask(mask)`, `load_unmasked(data)`, `store_masked(val)`, run with a width
below the lane count, writes `data` to exactly the lanes of `val` that are below the width
and set in the mask. -/
theorem masked_copy_effect (N k maskPtr dst src : Nat) (st : State)
    (hmask : ∀ lane, lane < N → st.mem (maskPtr + lane) < 4294967296)
    (hdisj : src + k * N ≤ dst ∨ dst + k * N ≤ src)
    (width data val : Nat) (hwidth : width < N) :
    (∃ st', runStages N N
          [.init_lane_masks, .load_condition_mask maskPtr, .copy_slots_masked k dst src] 4 st
          = some st' ∧
        (∀ s lane, s < k → lane < N →
          st'.mem (dst + s * N + lane) =
            if st.mem (maskPtr + lane) ≠ 0 then st.mem (src + s * N + lane)
            else st.mem (dst + s * N + lane)) ∧
        (∀ addr, ¬ (dst ≤ addr ∧ addr < dst + k * N) → st'.mem addr = st.mem addr)) ∧
      (∃ m', runProgram N
          [.init_lane_masks, .load_condition_mask maskPtr, .load_unmasked data,
            .store_masked val] 5 0 0 width 1 st.mem = some m' ∧
        (∀ lane, lane < N →
          m' (val + lane) =
            if lane < width ∧ st.mem (maskPtr + lane) ≠ 0 then st.mem (data + lane)
            else st.mem (val + lane)) ∧
        (∀ addr, ¬ (val ≤ addr ∧ addr < val + N) → m' addr = st.mem addr)) := by
  constructor
  · refine ⟨_, rfl, ?_, ?_⟩
    · intro s lane hs hl
      simp only [Stage.execWith]
      rw [applySlots_value N _ k dst src st.mem s lane hs hl hdisj]
      simp only [Regs.update_execution_mask, Regs.maskConjunction, loadVec, hl, if_true]
      rw [and_allOnes _ (hmask lane hl), and_allOnes _ (hmask lane hl)]
    · intro addr haddr
      exact applySlots_frame N _ k dst src st.mem addr haddr
  · have h1 : width / N = 0 := Nat.div_eq_of_lt hwidth
    have h2 : width % N = width := Nat.mod_eq_of_lt hwidth
    simp only [runProgram, run, runRows, runRow, h1, h2, runFullGroups, slotGroup]
    by_cases h0 : width = 0
    · subst h0
      rw [if_pos rfl]
      refine ⟨_, rfl, ?_, ?_⟩
      · intro lane hl
        simp
      · intro addr _
        rfl
    · rw [if_neg h0]
      refine ⟨_, rfl, ?_, ?_⟩
      · intro lane hl
        simp only [Stage.execWith, storeVec, select, loadVec, Regs.update_execution_mask,
          Regs.maskConjunction, hl, if_true]
        rw [if_pos (by omega)]
        simp only [Nat.add_sub_cancel_left, hl, if_true]
        by_cases hlw : lane < width
        · simp only [hlw, if_true, true_and]
          rw [and_allOnes _ (hmask lane hl), and_allOnes _ (hmask lane hl)]
        · simp [hlw]
      · intro addr haddr
        simp only [Stage.execWith, storeVec]
        rw [if_neg haddr]

/-- Witness for C5: `copy_2_slots_masked` over the fixture of `SkRasterPipeline_CopySlotsMasked`
with 4 lanes and mask `{~0, 0, ~0, ~0}`, and the masked store run with width 3. -/
theorem masked_copy_effect_witness :
    (∃ st', runStages 4 4
          [.init_lane_masks, .load_condition_mask 100, .copy_slots_masked 2 20 0] 4
          copyTestState = some st' ∧
        (∀ s lane, s < 2 → lane < 4 →
          st'.mem (20 + s * 4 + lane) =
            if copyTestState.mem (100 + lane) ≠ 0 then copyTestState.mem (0 + s * 4 + lane)
            else copyTestState.mem (20 + s * 4 + lane)) ∧
        (∀ addr, ¬ (20 ≤ addr ∧ addr < 20 + 2 * 4) → st'.mem addr = copyTestState.mem addr)) ∧
      (∃ m', runProgram 4
          [.init_lane_masks, .load_condition_mask 100, .load_unmasked 200,
            .store_masked 300] 5 0 0 3 1 copyTestState.mem = some m' ∧
        (∀ lane, lane < 4 →
          m' (300 + lane) =
            if lane < 3 ∧ copyTestState.mem (100 + lane) ≠ 0 then copyTestState.mem (200 + lane)
            else copyTestState.mem (300 + lane)) ∧
        (∀ addr, ¬ (300 ≤ addr ∧ addr < 300 + 4) → m' addr = copyTestState.mem addr)) :=
  masked_copy_effect 4 2 100 20 0 copyTestState (by decide) (by decide) 3 200 300 (by decide)

/-- C6: `copy_k_slots_unmasked{dst, src}` sets every lane of the first `k` destination slots
to the corresponding source lane and `zero_k_slots_unmasked` sets them to 0; both leave
every cell outside these `k` slots unchanged, and the resulting memory does not depend on
the registers, so not on the condition, loop and return masks either. -/
theorem unmasked_copy_effect (N active k dst src : Nat) (st : State)
    (hdisj : src + k * N ≤ dst ∨ dst + k * N ≤ src) :
    (∀ s lane, s < k → lane < N →
        ((Stage.copy_slots_unmasked k dst src).exec N active st).1.mem (dst + s * N + lane) =
          st.mem (src + s * N + lane)) ∧
      (∀ addr, ¬ (dst ≤ addr ∧ addr < dst + k * N) →
        ((Stage.copy_slots_unmasked k dst src).exec N active st).1.mem addr = st.mem addr) ∧
      (∀ s lane, s < k → lane < N →
        ((Stage.zero_slots_unmasked k dst).exec N active st).1.mem (dst + s * N + lane) = 0) ∧
      (∀ addr, ¬ (dst ≤ addr ∧ addr < dst + k * N) →
        ((Stage.zero_slots_unmasked k dst).exec N active st).1.mem addr = st.mem addr) ∧
      (∀ regs2 : Regs,
        ((Stage.copy_slots_unmasked k dst src).exec N active { st with regs := regs2 }).1.mem =
            ((Stage.copy_slots_unmasked k dst src).exec N active st).1.mem ∧
          ((Stage.zero_slots_unmasked k dst).exec N active { st with regs := regs2 }).1.mem =
            ((Stage.zero_slots_unmasked k dst).exec N active st).1.mem) := by
  refine ⟨?_, ?_, ?_, ?_, fun _ => ⟨rfl, rfl⟩⟩
  · intro s lane hs hl
    exact applySlots_value N _ k dst src st.mem s lane hs hl hdisj
  · intro addr haddr
    exact applySlots_frame N _ k dst src st.mem addr haddr
  · intro s lane hs hl
    exact fillSlots_value N _ k dst st.mem s lane hs hl
  · intro addr haddr
    exact fillSlots_frame N _ k dst st.mem addr haddr

/-- Witness for C6: `copy_3_slots_unmasked` and `zero_3_slots_unmasked` over the fixture of
`SkRasterPipeline_CopySlotsUnmasked` with 4 lanes, run with one active lane. -/
theorem unmasked_copy_effect_witness :
    (∀ s lane, s < 3 → lane < 4 →
        ((Stage.copy_slots_unmasked 3 20 0).exec 4 1 copyTestState).1.mem (20 + s * 4 + lane) =
          copyTestState.mem (0 + s * 4 + lane)) ∧
      (∀ addr, ¬ (20 ≤ addr ∧ addr < 20 + 3 * 4) →
        ((Stage.copy_slots_unmasked 3 20 0).exec 4 1 copyTestState).1.mem addr =
          copyTestState.mem addr) ∧
      (∀ s lane, s < 3 → lane < 4 →
        ((Stage.zero_slots_unmasked 3 20).exec 4 1 copyTestState).1.mem (20 + s * 4 + lane) =
          0) ∧
      (∀ addr, ¬ (20 ≤ addr ∧ addr < 20 + 3 * 4) →
        ((Stage.zero_slots_unmasked 3 20).exec 4 1 copyTestState).1.mem addr =
          copyTestState.mem addr) ∧
      (∀ regs2 : Regs,
        ((Stage.copy_slots_unmasked 3 20 0).exec 4 1
            { copyTestState with regs := regs2 }).1.mem =
            ((Stage.copy_slots_unmasked 3 20 0).exec 4 1 copyTestState).1.mem ∧
          ((Stage.zero_slots_unmasked 3 20).exec 4 1
            { copyTestState with regs := regs2 }).1.mem =
            ((Stage.zero_slots_unmasked 3 20).exec 4 1 copyTestState).1.mem) :=
  unmasked_copy_effect 4 1 3 20 0 copyTestState (by decide)

/-- The scalar operations on sample words: sums, differences and products wrap modulo
2^32, signed division truncates towards zero, and the signed and unsigned readings of
`min` and `max` differ on words with the top bit set. -/
theorem IntOp.scalar_samples :
    IntOp.add.scalar 4294967295 1 = 0 ∧
      IntOp.sub.scalar 1 2 = 4294967295 ∧
      IntOp.mul.scalar 65536 65537 = 65536 ∧
      IntOp.div.scalar (ofInt32 (-7)) 2 = ofInt32 (-3) ∧
      IntOp.div_uint.scalar (ofInt32 (-7)) 2 = 2147483644 ∧
      IntOp.bitwise_and.scalar 12 10 = 8 ∧
      IntOp.bitwise_or.scalar 12 10 = 14 ∧
      IntOp.bitwise_xor.scalar 12 10 = 6 ∧
      IntOp.min.scalar (ofInt32 (-1)) 1 = ofInt32 (-1) ∧
      IntOp.min_uint.scalar (ofInt32 (-1)) 1 = 1 ∧
      IntOp.max.scalar (ofInt32 (-1)) 1 = 1 ∧
      IntOp.max_uint.scalar (ofInt32 (-1)) 1 = ofInt32 (-1) := by
  decide

/-- The scalar operation of the stage model gives the 32-bit result of the specification,
for a divisor that is not zero. -/
theorem IntOp.scalar_isResult (op : IntOp) (d s : Nat)
    (hs0 : op = .div ∨ op = .div_uint → s ≠ 0) : op.IsResult d s (op.scalar d s) := by
  cases op
  case add =>
    simp only [IntOp.IsResult, IntOp.scalar]
    omega
  case sub =>
    simp only [IntOp.IsResult, IntOp.scalar, ofInt32]
    omega
  case mul =>
    simp only [IntOp.IsResult, IntOp.scalar]
    refine ⟨Nat.mod_lt _ (by norm_num), ?_⟩
    push_cast
    generalize (d : Int) * (s : Int) = X
    omega
  case div =>
    simp only [IntOp.IsResult, IntOp.scalar, ofInt32, toInt32]
    generalize Int.tdiv (if d < 2147483648 then (d : Int) else (d : Int) - 4294967296)
      (if s < 2147483648 then (s : Int) else (s : Int) - 4294967296) = Q
    omega
  case div_uint =>
    simp only [IntOp.IsResult, IntOp.scalar]
    have hpos : 0 < s := Nat.pos_of_ne_zero (hs0 (Or.inr rfl))
    refine ⟨Nat.div_mul_le_self d s, ?_⟩
    have h1 := Nat.div_add_mod d s
    have h2 := Nat.mod_lt d hpos
    calc d = s * (d / s) + d % s := h1.symm
      _ < s * (d / s) + s := by omega
      _ = (d / s + 1) * s := by ring
  case bitwise_and =>
    simp only [IntOp.IsResult, IntOp.scalar]
    intro i
    exact Nat.testBit_and d s i
  case bitwise_or =>
    simp only [IntOp.IsResult, IntOp.scalar]
    intro i
    exact Nat.testBit_or d s i
  case bitwise_xor =>
    simp only [IntOp.IsResult, IntOp.scalar]
    intro i
    exact Nat.testBit_xor d s i
  case min =>
    simp only [IntOp.IsResult, IntOp.scalar, toInt32]
    split_ifs <;> rfl
  case min_uint =>
    simp only [IntOp.IsResult, IntOp.scalar]
    split_ifs <;> rfl
  case max =>
    simp only [IntOp.IsResult, IntOp.scalar, toInt32]
    split_ifs <;> rfl
  case max_uint =>
    simp only [IntOp.IsResult, IntOp.scalar]
    split_ifs <;> rfl

/-- C8: the `n`-slot integer stage `op_n_ints`, with `src` placed `n` slots behind `dst`,
leaves in each lane of each of the first `n` destination slots the 32-bit scalar result
`op(dst lane, src lane)` (sums, differences and products wrapping modulo 2^32, signed and
unsigned readings as the op names them, the divisor of a division not zero) and leaves
every cell outside these `n` slots and every register unchanged; the hard-coded stage for
`n` slots leaves the same results, the same memory and the same registers. On sample words:
`0xFFFFFFFF + 1 = 0`, `1 - 2 = 0xFFFFFFFF`, `65536 * 65537 = 65536`, `-7 / 2 = -3`,
`0xFFFFFFF9 / 2 = 0x7FFFFFFC` unsigned, `12 & 10 = 8`, `12 | 10 = 14`, `12 ^ 10 = 6`, and
of `-1` and `1` the signed minimum is `-1`, the unsigned minimum 1, the signed maximum 1
and the unsigned maximum `0xFFFFFFFF`. -/
theorem int_n_effect (N active n dst : Nat) (op : IntOp) (st : State)
    (hN : 0 < N) (_hn : 0 < n) :
    (∀ s lane, s < n → lane < N →
        (op = .div ∨ op = .div_uint → st.mem (dst + (n + s) * N + lane) ≠ 0) →
        op.IsResult (st.mem (dst + s * N + lane)) (st.mem (dst + (n + s) * N + lane))
            (((Stage.int_n op dst (dst + n * N)).exec N active st).1.mem
              (dst + s * N + lane)) ∧
          op.IsResult (st.mem (dst + s * N + lane)) (st.mem (dst + (n + s) * N + lane))
            (((Stage.int_k op n dst).exec N active st).1.mem (dst + s * N + lane))) ∧
      (∀ addr, ¬ (dst ≤ addr ∧ addr < dst + n * N) →
        ((Stage.int_n op dst (dst + n * N)).exec N active st).1.mem addr = st.mem addr ∧
          ((Stage.int_k op n dst).exec N active st).1.mem addr = st.mem addr) ∧
      ((Stage.int_k op n dst).exec N active st).1.mem =
        ((Stage.int_n op dst (dst + n * N)).exec N active st).1.mem ∧
      ((Stage.int_n op dst (dst + n * N)).exec N active st).1.regs = st.regs ∧
      ((Stage.int_k op n dst).exec N active st).1.regs = st.regs ∧
      ((Stage.int_n .add 0 1).exec 1 1 (pairState 4294967295 1)).1.mem 0 = 0 ∧
      ((Stage.int_n .sub 0 1).exec 1 1 (pairState 1 2)).1.mem 0 = 4294967295 ∧
      ((Stage.int_n .mul 0 1).exec 1 1 (pairState 65536 65537)).1.mem 0 = 65536 ∧
      ((Stage.int_n .div 0 1).exec 1 1 (pairState 4294967289 2)).1.mem 0 = 4294967293 ∧
      ((Stage.int_n .div_uint 0 1).exec 1 1 (pairState 4294967289 2)).1.mem 0 = 2147483644 ∧
      ((Stage.int_n .bitwise_and 0 1).exec 1 1 (pairState 12 10)).1.mem 0 = 8 ∧
      ((Stage.int_n .bitwise_or 0 1).exec 1 1 (pairState 12 10)).1.mem 0 = 14 ∧
      ((Stage.int_n .bitwise_xor 0 1).exec 1 1 (pairState 12 10)).1.mem 0 = 6 ∧
      ((Stage.int_n .min 0 1).exec 1 1 (pairState 4294967295 1)).1.mem 0 = 4294967295 ∧
      ((Stage.int_n .min_uint 0 1).exec 1 1 (pairState 4294967295 1)).1.mem 0 = 1 ∧
      ((Stage.int_n .max 0 1).exec 1 1 (pairState 4294967295 1)).1.mem 0 = 1 ∧
      ((Stage.int_n .max_uint 0 1).exec 1 1 (pairState 4294967295 1)).1.mem 0 = 4294967295 ∧
      ((Stage.int_k .sub 1 0).exec 1 1 (pairState 1 2)).1.mem 0 = 4294967295 ∧
      ((Stage.int_k .div 1 0).exec 1 1 (pairState 4294967289 2)).1.mem 0 = 4294967293 := by
  have hcount : (dst + n * N - dst) / N = n := by
    rw [Nat.add_sub_cancel_left, Nat.mul_div_cancel n hN]
  have hmem : ((Stage.int_n op dst (dst + n * N)).exec N active st).1.mem =
      applySlots N (fun _ d s => op.scalar d s) n dst (dst + n * N) st.mem := by
    simp only [Stage.exec, Stage.execWith, hcount]
  have hmemk : ((Stage.int_k op n dst).exec N active st).1.mem =
      applySlots N (fun _ d s => op.scalar d s) n dst (dst + n * N) st.mem := rfl
  refine ⟨?_, ?_, ?_, rfl, rfl, by decide, by decide, by decide, by decide, by decide,
    by decide, by decide, by decide, by decide, by decide, by decide, by decide, by decide,
    by decide⟩
  · intro s lane hs hl hdiv
    have e : dst + n * N + s * N + lane = dst + (n + s) * N + lane := by
      rw [Nat.add_mul]; omega
    have hval := applySlots_value N (fun _ d s => op.scalar d s) n dst (dst + n * N) st.mem
      s lane hs hl (Or.inr le_rfl)
    rw [e] at hval
    have hres := IntOp.scalar_isResult op (st.mem (dst + s * N + lane))
      (st.mem (dst + (n + s) * N + lane)) hdiv
    rw [hmem, hmemk, hval]
    exact ⟨hres, hres⟩
  · intro addr haddr
    rw [hmem, hmemk]
    exact ⟨applySlots_frame N _ n dst (dst + n * N) st.mem addr haddr,
      applySlots_frame N _ n dst (dst + n * N) st.mem addr haddr⟩
  · rw [hmem, hmemk]

/-- Witness for C8: `add_n_ints` on 5 slots of 4 lanes over the fixture 1, 2, 3, ... of
`SkRasterPipeline_IntArithmeticWithNSlots` leaves 1 + 21 = 22 in the first lane of the
first slot, and `sub_n_ints` leaves 1 - 21 = -20, the word 4294967276. -/
theorem int_n_effect_witness :
    (((Stage.int_n .add 0 (0 + 5 * 4)).exec 4 1 iotaState).1.mem (0 + 0 * 4 + 0) = 22 ∧
        ((Stage.int_n .sub 0 (0 + 5 * 4)).exec 4 1 iotaState).1.mem (0 + 0 * 4 + 0) =
          4294967276) ∧
      IntOp.add.IsResult (iotaState.mem (0 + 0 * 4 + 0)) (iotaState.mem (0 + (5 + 0) * 4 + 0))
        (((Stage.int_n .add 0 (0 + 5 * 4)).exec 4 1 iotaState).1.mem (0 + 0 * 4 + 0)) ∧
      IntOp.add.IsResult (iotaState.mem (0 + 0 * 4 + 0)) (iotaState.mem (0 + (5 + 0) * 4 + 0))
        (((Stage.int_k .add 5 0).exec 4 1 iotaState).1.mem (0 + 0 * 4 + 0)) :=
  ⟨by decide,
    (int_n_effect 4 1 5 0 .add iotaState (by decide) (by decide)).1 0 0 (by decide)
      (by decide) (by decide)⟩

/-! ## Pixel stages and the tail of a row -/

/-- An 8-bit channel survives the conversion to a colour value and back. -/
theorem to_unorm_from_8888 (px : Nat) (channel : Nat) :
    to_unorm (from_8888 px channel) = px / 256 ^ channel % 256 := by
  unfold to_unorm from_8888
  have hk255 : px / 256 ^ channel % 256 ≤ 255 := by
    exact Nat.le_of_lt_succ (Nat.mod_lt (px / 256 ^ channel) (by norm_num : 0 < 256))
  generalize px / 256 ^ channel % 256 = k at hk255 ⊢
  have h0 : (0 : ℚ) ≤ (k : ℚ) / 255 := by positivity
  have h1 : (k : ℚ) / 255 ≤ 1 := by
    rw [div_le_one (by norm_num)]
    exact_mod_cast hk255
  rw [max_eq_right h0, min_eq_left h1]
  have e : (k : ℚ) / 255 * 255 + 1 / 2 = ((k : ℤ) : ℚ) + 1 / 2 := by
    field_simp
  rw [e]
  have hf : ⌊((k : ℤ) : ℚ) + 1 / 2⌋ = (k : ℤ) := by
    rw [Int.floor_eq_iff]
    constructor <;> norm_num
  rw [hf]
  simp

/-- A 32-bit pixel survives `load_8888` followed by `store_8888`. -/
theorem pack_from_8888 (px : Nat) (h : px < 4294967296) :
    pack_8888 (from_8888 px 0) (from_8888 px 1) (from_8888 px 2) (from_8888 px 3) = px := by
  have key : px % 256 + px / 256 % 256 * 256 + px / 65536 % 256 * 65536 +
      px / 16777216 % 256 * 16777216 = px := by omega
  unfold pack_8888
  simp only [to_unorm_from_8888]
  norm_num
  exact key

/-- One lane group of the copy program extends the copied range by its active lanes. -/
theorem copy_group_step (srcCtx dstCtx : MemoryCtx) (m0 : Mem) (x c a width : Nat)
    (s : PixelState)
    (hinv : CopyInv srcCtx.pixels dstCtx.pixels m0 x c s)
    (hca : c + a ≤ width)
    (hword : ∀ i, x ≤ i → i < x + width → m0 (srcCtx.pixels + i) < 4294967296)
    (hdisj : srcCtx.pixels + x + width ≤ dstCtx.pixels + x ∨
      dstCtx.pixels + x + width ≤ srcCtx.pixels + x) :
    ∃ s', pixelGroup [.load_8888 srcCtx, .store_8888 dstCtx] (x + c) 0 a s = some s' ∧
      CopyInv srcCtx.pixels dstCtx.pixels m0 x (c + a) s' := by
  obtain ⟨hmem, hreads, hwrites⟩ := hinv
  refine ⟨_, rfl, ?_, ?_, ?_⟩
  · intro addr
    simp only [List.foldl, PixelStage.exec, storeVec, MemoryCtx.ptr_at_xy, Nat.zero_mul,
      Nat.add_zero]
    by_cases hin : dstCtx.pixels + (x + c) ≤ addr ∧ addr < dstCtx.pixels + (x + c) + a
    · rw [if_pos hin, if_pos (show dstCtx.pixels + x ≤ addr ∧
          addr < dstCtx.pixels + x + (c + a) by omega)]
      have hlane : addr - (dstCtx.pixels + (x + c)) < a := by omega
      simp only [hlane, if_true]
      have hsrc : s.mem (srcCtx.pixels + (x + c) + (addr - (dstCtx.pixels + (x + c)))) =
          m0 (srcCtx.pixels + (addr - dstCtx.pixels)) := by
        rw [hmem, if_neg (by omega)]
        congr 1
        omega
      rw [hsrc]
      apply pack_from_8888
      have e : srcCtx.pixels + (addr - dstCtx.pixels) =
          srcCtx.pixels + (x + c + (addr - (dstCtx.pixels + (x + c)))) := by omega
      rw [e]
      exact hword _ (by omega) (by omega)
    · rw [if_neg hin, hmem]
      by_cases h2 : dstCtx.pixels + x ≤ addr ∧ addr < dstCtx.pixels + x + c
      · rw [if_pos h2, if_pos (show dstCtx.pixels + x ≤ addr ∧
            addr < dstCtx.pixels + x + (c + a) by omega)]
      · rw [if_neg h2, if_neg (show ¬ (dstCtx.pixels + x ≤ addr ∧
            addr < dstCtx.pixels + x + (c + a)) by omega)]
  · intro addr haddr
    simp only [List.foldl, PixelStage.exec, MemoryCtx.ptr_at_xy, Nat.zero_mul, Nat.add_zero,
      List.mem_append, List.mem_map, List.mem_range] at haddr
    rcases haddr with h | ⟨lane, hl, rfl⟩
    · have := hreads addr h
      omega
    · omega
  · intro addr haddr
    simp only [List.foldl, PixelStage.exec, MemoryCtx.ptr_at_xy, Nat.zero_mul, Nat.add_zero,
      List.mem_append, List.mem_map, List.mem_range] at haddr
    rcases haddr with h | ⟨lane, hl, rfl⟩
    · have := hwrites addr h
      omega
    · omega

/-- Full lane groups of the copy program extend the copied range by `N` pixels each. -/
theorem copy_full_groups (srcCtx dstCtx : MemoryCtx) (m0 : Mem) (N x width : Nat)
    (hword : ∀ i, x ≤ i → i < x + width → m0 (srcCtx.pixels + i) < 4294967296)
    (hdisj : srcCtx.pixels + x + width ≤ dstCtx.pixels + x ∨
      dstCtx.pixels + x + width ≤ srcCtx.pixels + x)
    (count c : Nat) (s : PixelState)
    (hinv : CopyInv srcCtx.pixels dstCtx.pixels m0 x c s)
    (hc : c + count * N ≤ width) :
    ∃ s', runFullGroups N
        (fun dx active => pixelGroup [.load_8888 srcCtx, .store_8888 dstCtx] dx 0 active)
        count (x + c) s = some s' ∧
      CopyInv srcCtx.pixels dstCtx.pixels m0 x (c + count * N) s' := by
  induction count generalizing c s with
  | zero => exact ⟨s, rfl, by simpa using hinv⟩
  | succ count ih =>
    have hk : (count + 1) * N = count * N + N := Nat.succ_mul count N
    obtain ⟨s1, hs1, hinv1⟩ :=
      copy_group_step srcCtx dstCtx m0 x c N width s hinv (by omega) hword hdisj
    obtain ⟨s2, hs2, hinv2⟩ := ih (c + N) s1 hinv1 (by omega)
    refine ⟨s2, ?_, ?_⟩
    · simp only [runFullGroups, hs1]
      rw [← hs2]
      congr 1
      omega
    · have e : c + (count + 1) * N = c + N + count * N := by omega
      rw [e]
      exact hinv2

/-- C7: the program `[load_8888(src), store_8888(dst)]` run as `run(x, 0, width, 1)` on lane
groups of any width `N` copies exactly the pixels `x ≤ i < x + width` from `src` to `dst`,
leaves every other cell unchanged, and reads and writes no cell outside these pixels. -/
theorem load_store_8888_run (N x width : Nat) (srcCtx dstCtx : MemoryCtx) (m : Mem)
    (_hN : 0 < N)
    (hword : ∀ i, x ≤ i → i < x + width → m (srcCtx.pixels + i) < 4294967296)
    (hdisj : srcCtx.pixels + x + width ≤ dstCtx.pixels + x ∨
      dstCtx.pixels + x + width ≤ srcCtx.pixels + x) :
    ∃ s', runPixels N [.load_8888 srcCtx, .store_8888 dstCtx] x 0 width 1 m = some s' ∧
      (∀ i, x ≤ i → i < x + width → s'.mem (dstCtx.pixels + i) = m (srcCtx.pixels + i)) ∧
      (∀ addr, ¬ (dstCtx.pixels + x ≤ addr ∧ addr < dstCtx.pixels + x + width) →
        s'.mem addr = m addr) ∧
      (∀ addr ∈ s'.reads, srcCtx.pixels + x ≤ addr ∧ addr < srcCtx.pixels + x + width) ∧
      (∀ addr ∈ s'.writes, dstCtx.pixels + x ≤ addr ∧ addr < dstCtx.pixels + x + width) := by
  have hinv0 : CopyInv srcCtx.pixels dstCtx.pixels m x 0
      { mem := m, reads := [], writes := [] } := by
    refine ⟨fun addr => ?_, ?_, ?_⟩
    · rw [if_neg (by omega)]
    · simp
    · simp
  have hdm := Nat.div_add_mod width N
  have hmul : width / N * N = N * (width / N) := Nat.mul_comm _ _
  obtain ⟨s1, hs1, hinv1⟩ := copy_full_groups srcCtx dstCtx m N x width hword hdisj
    (width / N) 0 _ hinv0 (by omega)
  simp only [Nat.add_zero, Nat.zero_add] at hs1 hinv1
  have hfinal : ∃ s', runPixels N [.load_8888 srcCtx, .store_8888 dstCtx] x 0 width 1 m
      = some s' ∧ CopyInv srcCtx.pixels dstCtx.pixels m x width s' := by
    simp only [runPixels, run, runRows, runRow, hs1]
    by_cases hmod : width % N = 0
    · rw [if_pos hmod]
      refine ⟨s1, rfl, ?_⟩
      have e : width = width / N * N := by omega
      rw [e]
      exact hinv1
    · rw [if_neg hmod]
      obtain ⟨s2, hs2, hinv2⟩ := copy_group_step srcCtx dstCtx m x (width / N * N)
        (width % N) width s1 hinv1 (by omega) hword hdisj
      have e : width / N * N + width % N = width := by omega
      rw [e] at hinv2
      rw [hs2]
      exact ⟨s2, rfl, hinv2⟩
  obtain ⟨s', hrun, hmem, hreads, hwrites⟩ := hfinal
  refine ⟨s', hrun, ?_, ?_, hreads, hwrites⟩
  · intro i hi1 hi2
    rw [hmem, if_pos (by omega)]
    congr 1
    omega
  · intro addr haddr
    rw [hmem, if_neg haddr]

/-- Witness for C7: the run of `SkRasterPipeline_JIT`, `run(15, 0, 20, 1)` from `buf + 0` to
`buf + 36`, on groups of 8 lanes. -/
theorem load_store_8888_run_witness :
    ∃ s', runPixels 8 [.load_8888 { pixels := 0, stride := 0 },
          .store_8888 { pixels := 36, stride := 0 }] 15 0 20 1 jitTestMem = some s' ∧
      (∀ i, 15 ≤ i → i < 15 + 20 → s'.mem (36 + i) = jitTestMem (0 + i)) ∧
      (∀ addr, ¬ (36 + 15 ≤ addr ∧ addr < 36 + 15 + 20) → s'.mem addr = jitTestMem addr) ∧
      (∀ addr ∈ s'.reads, 0 + 15 ≤ addr ∧ addr < 0 + 15 + 20) ∧
      (∀ addr ∈ s'.writes, 36 + 15 ≤ addr ∧ addr < 36 + 15 + 20) :=
  load_store_8888_run 8 15 20 { pixels := 0, stride := 0 } { pixels := 36, stride := 0 }
    jitTestMem (by decide)
    (fun i _ _ => by show jitTestMem (0 + i) < 4294967296; unfold jitTestMem; split <;> omega)
    (by decide)

end SkRasterPipeline

namespace SkSL.RP

/-! ## Program: multi-slot lowering -/

/-- C9: `appendAdjacentMultiSlotBinaryOp`, given the position `baseStage` of an unbounded
n-slot op that is followed in the stage table by its 1-, 2-, 3- and 4-slot specializations,
appends for `numSlots` in 1..4 exactly the stage at table position `baseStage + numSlots`
(with `add_n_floats` and 3 slots: `add_3_floats`), and for `numSlots > 4` the generic
`baseStage` with the context `{dst, src}`, from which the slot count is read off as the
distance of `src` from `dst` in slots. -/
theorem Program.appendAdjacentMultiSlotBinaryOp_selects (N : Nat)
    (pipeline : List AppendedStage) (baseStage dst src numSlots : Nat)
    (hN : 0 < N) (hadj : src = dst + N * numSlots) :
    (1 ≤ numSlots ∧ numSlots ≤ 4 →
        Program.appendAdjacentMultiSlotBinaryOp N pipeline baseStage dst src numSlots =
          some (pipeline ++ [{ stage := baseStage + numSlots, ctx := .ptr dst }])) ∧
      (4 < numSlots →
        Program.appendAdjacentMultiSlotBinaryOp N pipeline baseStage dst src numSlots =
            some (pipeline ++ [{ stage := baseStage, ctx := .binaryOp dst src }]) ∧
          (src - dst) / N = numSlots) ∧
      (∀ base, baseStage = AddFloatsStage.position base .add_n_floats → numSlots = 3 →
        Program.appendAdjacentMultiSlotBinaryOp N pipeline baseStage dst src numSlots =
          some (pipeline ++
            [{ stage := AddFloatsStage.position base .add_3_floats, ctx := .ptr dst }])) := by
  refine ⟨?_, ?_, ?_⟩
  · rintro ⟨h1, h4⟩
    unfold Program.appendAdjacentMultiSlotBinaryOp
    rw [if_neg (by omega), if_neg (by omega)]
  · intro h4
    constructor
    · unfold Program.appendAdjacentMultiSlotBinaryOp
      rw [if_neg (by omega), if_pos h4]
    · rw [hadj, Nat.add_sub_cancel_left, Nat.mul_div_cancel_left numSlots hN]
  · intro base hbase h3
    subst hbase h3
    unfold Program.appendAdjacentMultiSlotBinaryOp
    rw [if_neg (by omega), if_neg (by omega)]
    rfl

/-- Witness for C9: `add_n_floats` at table position 10, 8 lanes, 3 slots at cell 0. -/
theorem Program.appendAdjacentMultiSlotBinaryOp_selects_witness :
    (1 ≤ 3 ∧ 3 ≤ 4 →
        Program.appendAdjacentMultiSlotBinaryOp 8 [] 10 0 24 3 =
          some ([] ++ [{ stage := 10 + 3, ctx := .ptr 0 }])) ∧
      (4 < 3 →
        Program.appendAdjacentMultiSlotBinaryOp 8 [] 10 0 24 3 =
            some ([] ++ [{ stage := 10, ctx := .binaryOp 0 24 }]) ∧
          (24 - 0) / 8 = 3) ∧
      (∀ base, 10 = AddFloatsStage.position base .add_n_floats → 3 = 3 →
        Program.appendAdjacentMultiSlotBinaryOp 8 [] 10 0 24 3 =
          some ([] ++
            [{ stage := AddFloatsStage.position base .add_3_floats, ctx := .ptr 0 }])) :=
  Program.appendAdjacentMultiSlotBinaryOp_selects 8 [] 10 0 24 3 (by decide) (by decide)

/-! ## Program: stack-depth analysis -/

/-- The largest of a list of depths and 0 is not negative. -/
theorem maxOver_nonneg (l : List Int) : 0 ≤ maxOver l := by
  induction l with
  | nil => simp [maxOver]
  | cons x l ih =>
    simp only [maxOver, List.foldr_cons] at ih ⊢
    exact le_max_of_le_right ih

/-- Every member of a list is at most `maxOver` of the list. -/
theorem le_maxOver_of_mem (l : List Int) (x : Int) (h : x ∈ l) : x ≤ maxOver l := by
  induction l with
  | nil => simp at h
  | cons y l ih =>
    simp only [maxOver, List.foldr_cons] at ih ⊢
    rcases List.mem_cons.mp h with rfl | h2
    · exact le_max_left _ _
    · exact le_max_of_le_right (ih h2)

/-- A bound that is not negative and bounds every member bounds `maxOver`. -/
theorem maxOver_le (l : List Int) (z : Int) (h0 : 0 ≤ z) (h : ∀ x ∈ l, x ≤ z) :
    maxOver l ≤ z := by
  induction l with
  | nil => simpa [maxOver] using h0
  | cons y l ih =>
    simp only [maxOver, List.foldr_cons] at ih ⊢
    exact max_le (h y (List.mem_cons_self _ _))
      (ih fun x hx => h x (List.mem_cons_of_mem _ hx))

/-- Shifting all depths of a list that contains a depth 0 by `d`. -/
theorem maxOver_shift (l : List Int) (d : Int) (h0 : (0 : Int) ∈ l) :
    maxOver (0 :: l.map (fun x => d + x)) = max 0 (d + maxOver l) := by
  apply le_antisymm
  · apply maxOver_le
    · exact le_max_left _ _
    · intro x hx
      rcases List.mem_cons.mp hx with rfl | hx
      · exact le_max_left _ _
      · obtain ⟨y, hy, rfl⟩ := List.mem_map.mp hx
        have := le_maxOver_of_mem l y hy
        exact le_max_of_le_right (by omega)
  · apply max_le (maxOver_nonneg _)
    have hd : d + 0 ≤ maxOver (0 :: l.map (fun x => d + x)) :=
      le_maxOver_of_mem _ _ (List.mem_cons_of_mem _ (List.mem_map.mpr ⟨0, h0, rfl⟩))
    have hb : maxOver l ≤ maxOver (0 :: l.map (fun x => d + x)) - d := by
      apply maxOver_le
      · omega
      · intro x hx
        have : d + x ≤ maxOver (0 :: l.map (fun x => d + x)) :=
          le_maxOver_of_mem _ _ (List.mem_cons_of_mem _ (List.mem_map.mpr ⟨x, hx, rfl⟩))
        omega
    omega

/-- The depth 0 of the empty prefix is among the running depths of the prefixes. -/
theorem zero_mem_prefix_depths (delta : Instruction → Int) (idx cur : Int)
    (l : List Instruction) :
    (0 : Int) ∈ l.inits.map (runningDepthFrom delta idx cur) := by
  apply List.mem_map.mpr
  exact ⟨[], by simp, by simp [runningDepthFrom]⟩

/-- The unchecked scan from any state in which the recorded maximum of stack `idx` is at least its
running depth: the final maximum is the larger of the old maximum and the largest running
depth over the prefixes of the remaining stream. -/
theorem StackScan.foldl_largest (delta : Instruction → Int) (idx : Int)
    (l : List Instruction) (st : StackScan) (hinv : st.current idx ≤ st.largest idx) :
    (l.foldl (StackScan.advance delta) st).largest idx =
      max (st.largest idx)
        (st.current idx + maxOver (l.inits.map (runningDepthFrom delta idx st.curIdx))) := by
  induction l generalizing st with
  | nil =>
    simp [maxOver, runningDepthFrom]
    exact hinv
  | cons x rest ih =>
    simp only [List.foldl_cons, List.inits_cons, List.map_cons, List.map_map]
    by_cases hset : x.fOp = .set_current_stack
    · have hstep : StackScan.advance delta st x = { st with curIdx := x.fImmA } := by
        simp [StackScan.advance, hset]
      rw [hstep, ih { st with curIdx := x.fImmA } hinv]
      have hfun : (runningDepthFrom delta idx st.curIdx ∘ fun p => x :: p) =
          runningDepthFrom delta idx x.fImmA := by
        funext p
        simp [runningDepthFrom, hset]
      rw [hfun]
      have h1 : runningDepthFrom delta idx st.curIdx [] = 0 := by simp [runningDepthFrom]
      rw [h1]
      have h2 : maxOver (0 :: rest.inits.map (runningDepthFrom delta idx x.fImmA)) =
          maxOver (rest.inits.map (runningDepthFrom delta idx x.fImmA)) := by
        simp only [maxOver, List.foldr_cons]
        exact max_eq_right (maxOver_nonneg _)
      rw [h2]
    · by_cases hcur : st.curIdx = idx
      · subst hcur
        have hfun : (runningDepthFrom delta st.curIdx st.curIdx ∘ fun p => x :: p) =
            fun p => delta x + runningDepthFrom delta st.curIdx st.curIdx p := by
          funext p
          simp [runningDepthFrom, hset]
        have h1 : runningDepthFrom delta st.curIdx st.curIdx [] = 0 := by
          simp [runningDepthFrom]
        rw [hfun, h1]
        have hmap : rest.inits.map
            (fun p => delta x + runningDepthFrom delta st.curIdx st.curIdx p) =
            (rest.inits.map (runningDepthFrom delta st.curIdx st.curIdx)).map
              (fun v => delta x + v) := by
          rw [List.map_map]
          rfl
        rw [hmap, maxOver_shift _ _ (zero_mem_prefix_depths delta st.curIdx st.curIdx rest)]
        have hM := maxOver_nonneg (rest.inits.map (runningDepthFrom delta st.curIdx st.curIdx))
        have hstep : StackScan.advance delta st x =
            { st with
              current := Function.update st.current st.curIdx
                (st.current st.curIdx + delta x)
              largest := Function.update st.largest st.curIdx
                (max (st.current st.curIdx + delta x) (st.largest st.curIdx)) } := by
          simp [StackScan.advance, hset]
        rw [hstep, ih _ (by simp)]
        simp only [Function.update_same]
        generalize maxOver (rest.inits.map (runningDepthFrom delta st.curIdx st.curIdx)) = M
          at hM ⊢
        simp only [max_def]
        split_ifs <;> omega
      · have hfun : (runningDepthFrom delta idx st.curIdx ∘ fun p => x :: p) =
            runningDepthFrom delta idx st.curIdx := by
          funext p
          simp [runningDepthFrom, hset, hcur]
        have h1 : runningDepthFrom delta idx st.curIdx [] = 0 := by simp [runningDepthFrom]
        rw [hfun, h1]
        have h2 : maxOver (0 :: rest.inits.map (runningDepthFrom delta idx st.curIdx)) =
            maxOver (rest.inits.map (runningDepthFrom delta idx st.curIdx)) := by
          simp only [maxOver, List.foldr_cons]
          exact max_eq_right (maxOver_nonneg _)
        rw [h2]
        have hne : idx ≠ st.curIdx := fun h => hcur h.symm
        rw [ih]
        · simp only [StackScan.advance, hset, if_false, Function.update_noteq hne]
        · simp only [StackScan.advance, hset, if_false, Function.update_noteq hne]
          exact hinv

/-- The running depth of every stack behind the unchecked scan of a stream. -/
theorem StackScan.foldl_current (delta : Instruction → Int) (idx : Int)
    (l : List Instruction) (st : StackScan) :
    (l.foldl (StackScan.advance delta) st).current idx =
      st.current idx + runningDepthFrom delta idx st.curIdx l := by
  induction l generalizing st with
  | nil => simp [runningDepthFrom]
  | cons x rest ih =>
    simp only [List.foldl_cons]
    rw [ih]
    by_cases hset : x.fOp = .set_current_stack
    · simp [StackScan.advance, runningDepthFrom, hset]
    · by_cases hcur : st.curIdx = idx
      · subst hcur
        simp [StackScan.advance, runningDepthFrom, hset]
        omega
      · have hne : idx ≠ st.curIdx := fun h => hcur h.symm
        simp [StackScan.advance, runningDepthFrom, hset, hcur, Function.update_noteq hne]

/-- The checked scan from a state without negative depths: it fails exactly when some
prefix of the stream takes the running depth of some stack below 0, and what it returns is
the state of the unchecked scan. -/
theorem StackScan.scan_spec (delta : Instruction → Int) (l : List Instruction)
    (st : StackScan) (hst : ∀ idx, 0 ≤ st.current idx) :
    (StackScan.scan delta st l = none ↔
        ∃ idx, ∃ p ∈ l.inits, st.current idx + runningDepthFrom delta idx st.curIdx p < 0) ∧
      (∀ st1, StackScan.scan delta st l = some st1 →
        st1 = l.foldl (StackScan.advance delta) st) := by
  induction l generalizing st with
  | nil =>
    refine ⟨?_, ?_⟩
    · simp only [StackScan.scan, reduceCtorEq, false_iff, not_exists, not_and]
      intro idx p hp
      have hp2 : p = [] := by simpa using hp
      subst hp2
      have := hst idx
      simp [runningDepthFrom]
      omega
    · intro st1 h
      simp only [StackScan.scan, Option.some.injEq] at h
      simp [h]
  | cons x rest ih =>
    by_cases hset : x.fOp = .set_current_stack
    · have hstep : StackScan.step delta st x = some { st with curIdx := x.fImmA } := by
        simp [StackScan.step, StackScan.advance, hset]
      have hadv : StackScan.advance delta st x = { st with curIdx := x.fImmA } := by
        simp [StackScan.advance, hset]
      obtain ⟨ih1, ih2⟩ := ih { st with curIdx := x.fImmA } hst
      simp only [StackScan.scan, hstep, List.foldl_cons, hadv]
      refine ⟨?_, ih2⟩
      rw [ih1]
      constructor
      · rintro ⟨idx, p, hp, hneg⟩
        refine ⟨idx, x :: p, ?_, ?_⟩
        · simp only [List.inits_cons, List.mem_cons, List.mem_map]
          exact Or.inr ⟨p, hp, rfl⟩
        · simpa [runningDepthFrom, hset] using hneg
      · rintro ⟨idx, p, hp, hneg⟩
        simp only [List.inits_cons, List.mem_cons, List.mem_map] at hp
        rcases hp with rfl | ⟨q, hq, rfl⟩
        · have := hst idx
          simp [runningDepthFrom] at hneg
          omega
        · exact ⟨idx, q, hq, by simpa [runningDepthFrom, hset] using hneg⟩
    · by_cases hneg : st.current st.curIdx + delta x < 0
      · have hstep : StackScan.step delta st x = none := by
          simp [StackScan.step, hset, hneg]
        simp only [StackScan.scan, hstep, true_iff, reduceCtorEq, false_implies, implies_true,
          and_true]
        refine ⟨st.curIdx, [x], ?_, ?_⟩
        · simp only [List.inits_cons, List.mem_cons, List.mem_map]
          exact Or.inr ⟨[], by simp, rfl⟩
        · simpa [runningDepthFrom, hset] using hneg
      · have hstep : StackScan.step delta st x = some (StackScan.advance delta st x) := by
          simp [StackScan.step, hset, hneg]
        have hadv : StackScan.advance delta st x =
            { st with
              current := Function.update st.current st.curIdx
                (st.current st.curIdx + delta x)
              largest := Function.update st.largest st.curIdx
                (max (st.current st.curIdx + delta x) (st.largest st.curIdx)) } := by
          simp [StackScan.advance, hset]
        have hcurr : ∀ idx, (StackScan.advance delta st x).current idx =
            st.current idx + (if st.curIdx = idx then delta x else 0) := by
          intro idx
          rw [hadv]
          by_cases hc : st.curIdx = idx
          · subst hc
            simp
          · have hne : idx ≠ st.curIdx := fun h => hc h.symm
            simp [hc, Function.update_noteq hne]
        have hidx : (StackScan.advance delta st x).curIdx = st.curIdx := by
          rw [hadv]
        have hst1 : ∀ idx, 0 ≤ (StackScan.advance delta st x).current idx := by
          intro idx
          rw [hcurr]
          have := hst idx
          split_ifs with hc
          · subst hc
            omega
          · omega
        obtain ⟨ih1, ih2⟩ := ih (StackScan.advance delta st x) hst1
        simp only [StackScan.scan, hstep, List.foldl_cons]
        refine ⟨?_, ih2⟩
        rw [ih1]
        constructor
        · rintro ⟨idx, p, hp, hlt⟩
          refine ⟨idx, x :: p, ?_, ?_⟩
          · simp only [List.inits_cons, List.mem_cons, List.mem_map]
            exact Or.inr ⟨p, hp, rfl⟩
          · rw [hcurr, hidx] at hlt
            simp only [runningDepthFrom, hset, if_false]
            omega
        · rintro ⟨idx, p, hp, hlt⟩
          simp only [List.inits_cons, List.mem_cons, List.mem_map] at hp
          rcases hp with rfl | ⟨q, hq, rfl⟩
          · have := hst idx
            simp [runningDepthFrom] at hlt
            omega
          · refine ⟨idx, q, hq, ?_⟩
            rw [hcurr, hidx]
            simp only [runningDepthFrom, hset, if_false] at hlt
            omega

/-- C10: `tempStackMaxDepths` returns for every stack index the maximum over all prefixes
of the instruction stream of that stack's running depth, whatever the stack effect `delta`
of the single instructions, and it fails its assertion exactly when some prefix takes the
running depth of a stack below 0. For the recorded streams that push 1, 2 and 1 slots
with one intervening discard of 1 slot it reports 3 (not 4), on the initial stack as well
as on a stack selected with `set_current_stack`; pushes of 2 and 2 slots, a `select` or a
binary op of 2 slots and a push of 2 slots give 4; a discard from the empty stack fails. -/
theorem Program.tempStackMaxDepths_eq_maxPrefixDepth :
    (∀ (delta : Instruction → Int) (stream : List Instruction),
        (Program.tempStackMaxDepths delta stream = none ↔
          ∃ idx, ∃ p ∈ stream.inits, runningDepth delta idx p < 0) ∧
        (∀ depths, Program.tempStackMaxDepths delta stream = some depths →
          ∀ idx, depths idx = maxPrefixDepth delta idx stream)) ∧
      (∀ effect : Nat → StackEffect,
        (Program.tempStackMaxDepths (Instruction.stackDelta effect) stackExampleA).map
            (fun depths => depths 0) = some 3 ∧
          (Program.tempStackMaxDepths (Instruction.stackDelta effect) stackExampleB).map
            (fun depths => depths 0) = some 3 ∧
          (Program.tempStackMaxDepths (Instruction.stackDelta effect) stackExampleC).map
            (fun depths => (depths 0, depths 1)) = some (2, 3) ∧
          (Program.tempStackMaxDepths (Instruction.stackDelta effect) stackExampleSelect).map
            (fun depths => depths 0) = some 4 ∧
          Program.tempStackMaxDepths (Instruction.stackDelta effect) stackExampleUnderflow =
            none) ∧
      (Program.tempStackMaxDepths (Instruction.stackDelta fun _ => .binary)
          stackExampleNative).map (fun depths => depths 0) = some 4 ∧
      (Program.tempStackMaxDepths (Instruction.stackDelta fun _ => .unary)
          stackExampleNative).map (fun depths => depths 0) = some 6 := by
  refine ⟨?_, ?_, ?_, ?_⟩
  · intro delta stream
    have hinit : ∀ idx, 0 ≤ StackScan.init.current idx := fun _ => le_refl _
    obtain ⟨h1, h2⟩ := StackScan.scan_spec delta stream StackScan.init hinit
    constructor
    · unfold Program.tempStackMaxDepths
      rw [Option.map_eq_none', h1]
      simp only [StackScan.init, zero_add, runningDepth]
    · intro depths h idx
      unfold Program.tempStackMaxDepths at h
      cases hs : StackScan.scan delta StackScan.init stream with
      | none => simp [hs] at h
      | some st1 =>
        simp only [hs, Option.map, Option.some.injEq] at h
        subst h
        rw [h2 st1 hs]
        unfold maxPrefixDepth
        rw [StackScan.foldl_largest delta idx stream StackScan.init (le_refl _)]
        simp only [StackScan.init, zero_add, runningDepth]
        exact max_eq_right (maxOver_nonneg _)
  · intro effect
    exact ⟨rfl, rfl, rfl, rfl, rfl⟩
  · rfl
  · rfl

end SkSL.RP

namespace SkSL.RP

/-! ## Builder: slot-range assertions and composites -/

/-- C12: the slot-range count checks of the Builder hold exactly for matching counts:
`copy_slots_masked` and `copy_slots_unmasked` succeed if and only if `dst.count == src.count`,
`store_src`, `store_dst`, `load_src` and `load_dst` if and only if `slots.count == 4`,
`store_src_rg` if and only if `slots.count == 2`, and `reenable_loop_mask` if and only if
`src.count == 1`; with any other count the call is an assertion failure. -/
theorem Builder.slot_count_assertions (b : Builder) (dst src slots : SlotRange) :
    ((b.copy_slots_masked dst src).isSome = true ↔ dst.count = src.count) ∧
      ((b.copy_slots_unmasked dst src).isSome = true ↔ dst.count = src.count) ∧
      ((b.store_src slots).isSome = true ↔ slots.count = 4) ∧
      ((b.store_dst slots).isSome = true ↔ slots.count = 4) ∧
      ((b.load_src slots).isSome = true ↔ slots.count = 4) ∧
      ((b.load_dst slots).isSome = true ↔ slots.count = 4) ∧
      ((b.store_src_rg slots).isSome = true ↔ slots.count = 2) ∧
      ((b.reenable_loop_mask src).isSome = true ↔ src.count = 1) ∧
      (dst.count ≠ src.count →
        b.copy_slots_masked dst src = none ∧ b.copy_slots_unmasked dst src = none) ∧
      (slots.count ≠ 4 →
        b.store_src slots = none ∧ b.store_dst slots = none ∧ b.load_src slots = none ∧
          b.load_dst slots = none) ∧
      (slots.count ≠ 2 → b.store_src_rg slots = none) ∧
      (src.count ≠ 1 → b.reenable_loop_mask src = none) := by
  refine ⟨?_, ?_, ?_, ?_, ?_, ?_, ?_, ?_, ?_, ?_, ?_, ?_⟩
  · unfold Builder.copy_slots_masked; split <;> simp_all
  · unfold Builder.copy_slots_unmasked; split <;> simp_all
  · unfold Builder.store_src; split <;> simp_all
  · unfold Builder.store_dst; split <;> simp_all
  · unfold Builder.load_src; split <;> simp_all
  · unfold Builder.load_dst; split <;> simp_all
  · unfold Builder.store_src_rg; split <;> simp_all
  · unfold Builder.reenable_loop_mask; split <;> simp_all
  · intro h
    simp [Builder.copy_slots_masked, Builder.copy_slots_unmasked, h]
  · intro h
    simp [Builder.store_src, Builder.store_dst, Builder.load_src, Builder.load_dst, h]
  · intro h
    simp [Builder.store_src_rg, h]
  · intro h
    simp [Builder.reenable_loop_mask, h]

/-- C13: `pop_slots(dst)` appends exactly two instructions, first `copy_stack_to_slots` with
`fSlotA = dst.index`, `fImmA = dst.count` and `fImmB = dst.count`, then `discard_stack` with
`fImmA = dst.count`; `pop_slots_unmasked(dst)` appends the same pair with the op
`copy_stack_to_slots_unmasked`; so `pop_slots(dst)` records what
`copy_stack_to_slots(dst, dst.count)` followed by `discard_stack(dst.count)` records. -/
theorem Builder.pop_slots_records (b : Builder) (dst : SlotRange) :
    b.pop_slots dst =
        some { b with fInstructions := b.fInstructions ++
          [{ fOp := .copy_stack_to_slots, fSlotA := dst.index, fSlotB := NA, fSlotC := NA,
             fImmA := dst.count, fImmB := dst.count },
           { fOp := .discard_stack, fSlotA := NA, fSlotB := NA, fSlotC := NA,
             fImmA := dst.count, fImmB := 0 }] } ∧
      b.pop_slots_unmasked dst =
        some { b with fInstructions := b.fInstructions ++
          [{ fOp := .copy_stack_to_slots_unmasked, fSlotA := dst.index, fSlotB := NA,
             fSlotC := NA, fImmA := dst.count, fImmB := dst.count },
           { fOp := .discard_stack, fSlotA := NA, fSlotB := NA, fSlotC := NA,
             fImmA := dst.count, fImmB := 0 }] } ∧
      b.pop_slots dst =
        (b.copy_stack_to_slots_at dst dst.count).bind fun b1 => b1.discard_stack dst.count := by
  refine ⟨?_, ?_, rfl⟩
  · simp [Builder.pop_slots, Builder.copy_stack_to_slots, Builder.copy_stack_to_slots_at,
      Builder.discard_stack, Builder.push_back, Instruction.make]
  · simp [Builder.pop_slots_unmasked, Builder.copy_stack_to_slots_unmasked,
      Builder.copy_stack_to_slots_unmasked_at, Builder.discard_stack, Builder.push_back,
      Instruction.make]

end SkSL.RP

namespace SkRasterPipeline

/-! ## Jumps over a stage -/

/-- One step of the stage chain at a position given as a natural number. -/
theorem runStagesWith_succ (anyActive : Regs → Bool) (N active : Nat) (prog : List Stage)
    (fuel n : Nat) (st : State) :
    runStagesWith anyActive N active prog (fuel + 1) (n : Int) st =
      if n = prog.length then some st
      else
        match prog[n]? with
        | none => none
        | some stage =>
          runStagesWith anyActive N active prog fuel
            ((n : Int) + (stage.execWith anyActive N active st).2)
            (stage.execWith anyActive N active st).1 := by
  simp only [runStagesWith]
  rw [if_neg (by omega)]
  simp only [Int.toNat_ofNat, Nat.cast_inj, List.get?_eq_getElem?]

/-- A position before the first stage ends the run without a result. -/
theorem runStagesWith_neg (anyActive : Regs → Bool) (N active : Nat) (prog : List Stage)
    (fuel : Nat) (pc : Int) (st : State) (h : pc < 0) :
    runStagesWith anyActive N active prog fuel pc st = none := by
  cases fuel with
  | zero => rfl
  | succ fuel => simp [runStagesWith, h]

/-- More fuel keeps the result of a run. -/
theorem runStagesWith_mono (anyActive : Regs → Bool) (N active : Nat) (prog : List Stage)
    (fuel : Nat) (pc : Int) (st r : State)
    (h : runStagesWith anyActive N active prog fuel pc st = some r) :
    runStagesWith anyActive N active prog (fuel + 1) pc st = some r := by
  induction fuel generalizing pc st with
  | zero => simp [runStagesWith] at h
  | succ fuel ih =>
    by_cases hneg : pc < 0
    · rw [runStagesWith_neg _ _ _ _ _ _ _ hneg] at h
      simp at h
    · lift pc to ℕ using (by omega)
      rw [runStagesWith_succ] at h ⊢
      split
      · rename_i hlen
        rw [if_pos hlen] at h
        exact h
      · rename_i hlen
        rw [if_neg hlen] at h
        cases hget : prog[pc]? with
        | none => simp [hget] at h
        | some stage =>
          simp only [hget] at h ⊢
          exact ih _ _ h

/-- The distance a stage returns is 1 or the offset of the stage. -/
theorem Stage.execWith_distance (anyActive : Regs → Bool) (N active : Nat) (stage : Stage)
    (st : State) :
    (stage.execWith anyActive N active st).2 = 1 ∨
      stage.branchOffset = some (stage.execWith anyActive N active st).2 := by
  cases stage
  case jump offset => exact Or.inr rfl
  case branch_if_any_active_lanes offset =>
    simp only [Stage.execWith, Stage.branchOffset]
    by_cases h : anyActive st.regs = true <;> simp [h]
  case branch_if_no_active_lanes offset =>
    simp only [Stage.execWith, Stage.branchOffset]
    by_cases h : anyActive st.regs = true <;> simp [h]
  all_goals exact Or.inl rfl

/-- The targets of a list whose branches stay within it. -/
theorem branchesStayWithin_target (seg : List Stage) (h : branchesStayWithin seg = true)
    (anyActive : Regs → Bool) (N active : Nat) (i : Nat) (stage : Stage) (st : State)
    (hget : seg[i]? = some stage) :
    0 ≤ (i : Int) + (stage.execWith anyActive N active st).2 ∧
      (i : Int) + (stage.execWith anyActive N active st).2 ≤ seg.length := by
  have hi : i < seg.length := by
    by_contra hcon
    rw [List.getElem?_eq_none (by omega)] at hget
    simp at hget
  rcases Stage.execWith_distance anyActive N active stage st with h1 | hoff
  · rw [h1]; omega
  · simp only [branchesStayWithin, List.all_eq_true, List.mem_range] at h
    have := h i hi
    simp only [List.get?_eq_getElem?, hget, Option.bind, hoff, decide_eq_true_eq] at this
    exact this

/-- Behind the inserted pair `jump 2, X` the program runs as the program without the pair
does at the position two stages earlier. -/
theorem jump_skip_suffix (anyActive : Regs → Bool) (N active : Nat) (P Q : List Stage)
    (X : Stage) (hQ : branchesStayWithin Q = true) (fuel j : Nat) (st : State) :
    runStagesWith anyActive N active (P ++ [.jump 2, X] ++ Q) fuel
        ((P.length + 2 + j : Nat) : Int) st =
      runStagesWith anyActive N active (P ++ Q) fuel ((P.length + j : Nat) : Int) st := by
  induction fuel generalizing j st with
  | zero => rfl
  | succ fuel ih =>
    rw [runStagesWith_succ, runStagesWith_succ]
    have hlen1 : (P ++ [Stage.jump 2, X] ++ Q).length = P.length + 2 + Q.length := by
      simp only [List.length_append, List.length_cons, List.length_nil]
    have hlen2 : (P ++ Q).length = P.length + Q.length := by simp
    have hget1 : (P ++ [Stage.jump 2, X] ++ Q)[P.length + 2 + j]? = Q[j]? := by
      rw [List.getElem?_append_right (by simp)]
      congr 1
      simp
    have hget2 : (P ++ Q)[P.length + j]? = Q[j]? := by
      rw [List.getElem?_append_right (by omega)]
      congr 1
      omega
    rw [hlen1, hlen2, hget1, hget2]
    by_cases hj : j = Q.length
    · rw [if_pos (by omega), if_pos (by omega)]
    · rw [if_neg (by omega), if_neg (by omega)]
      cases hget : Q[j]? with
      | none => rfl
      | some stage =>
        simp only []
        obtain ⟨h0, _⟩ := branchesStayWithin_target Q hQ anyActive N active j stage st hget
        generalize (stage.execWith anyActive N active st).2 = d at h0 ⊢
        obtain ⟨j2, hj2⟩ := Int.eq_ofNat_of_zero_le h0
        have e1 : ((P.length + 2 + j : Nat) : Int) + d = ((P.length + 2 + j2 : Nat) : Int) := by
          push_cast; omega
        have e2 : ((P.length + j : Nat) : Int) + d = ((P.length + j2 : Nat) : Int) := by
          push_cast; omega
        rw [e1, e2]
        exact ih j2 _

/-- Up to the inserted pair, a run of the program without the pair is matched by the
program with the pair, with one more unit of fuel for the inserted jump. -/
theorem jump_skip_forward (anyActive : Regs → Bool) (N active : Nat) (P Q : List Stage)
    (X : Stage) (hP : branchesStayWithin P = true) (hQ : branchesStayWithin Q = true)
    (fuel n : Nat) (st r : State) (hn : n ≤ P.length)
    (h : runStagesWith anyActive N active (P ++ Q) fuel (n : Int) st = some r) :
    runStagesWith anyActive N active (P ++ [.jump 2, X] ++ Q) (fuel + 1) (n : Int) st =
      some r := by
  induction fuel generalizing n st with
  | zero => simp [runStagesWith] at h
  | succ fuel ih =>
    have hlen1 : (P ++ [Stage.jump 2, X] ++ Q).length = P.length + 2 + Q.length := by
      simp only [List.length_append, List.length_cons, List.length_nil]
    by_cases hnp : n = P.length
    · subst hnp
      rw [runStagesWith_succ, hlen1, if_neg (by omega)]
      have hget1 : (P ++ [Stage.jump 2, X] ++ Q)[P.length]? = some (Stage.jump 2) := by
        rw [List.append_assoc, List.getElem?_append_right (le_refl _)]
        simp
      rw [hget1]
      simp only [Stage.execWith]
      have e := jump_skip_suffix anyActive N active P Q X hQ (fuel + 1) 0 st
      simp only [Nat.add_zero] at e
      have e1 : ((P.length : Nat) : Int) + 2 = ((P.length + 2 : Nat) : Int) := by push_cast; rfl
      rw [e1, e, h]
    · have hlt : n < P.length := by omega
      rw [runStagesWith_succ] at h ⊢
      rw [hlen1, if_neg (by omega)]
      rw [List.length_append, if_neg (by omega)] at h
      have hget1 : (P ++ [Stage.jump 2, X] ++ Q)[n]? = P[n]? := by
        rw [List.append_assoc, List.getElem?_append_left hlt]
      have hget2 : (P ++ Q)[n]? = P[n]? := by
        rw [List.getElem?_append_left hlt]
      rw [hget1]
      rw [hget2] at h
      cases hget : P[n]? with
      | none => simp [hget] at h
      | some stage =>
        simp only [hget] at h ⊢
        obtain ⟨h0, h1⟩ := branchesStayWithin_target P hP anyActive N active n stage st hget
        generalize (stage.execWith anyActive N active st).2 = d at h0 h1 h ⊢
        obtain ⟨n2, hn2⟩ := Int.eq_ofNat_of_zero_le h0
        rw [hn2] at h ⊢
        exact ih n2 _ (by omega) h

/-- Up to the inserted pair, a run of the program with the pair is matched by the program
without the pair. -/
theorem jump_skip_backward (anyActive : Regs → Bool) (N active : Nat) (P Q : List Stage)
    (X : Stage) (hP : branchesStayWithin P = true) (hQ : branchesStayWithin Q = true)
    (fuel n : Nat) (st r : State) (hn : n ≤ P.length)
    (h : runStagesWith anyActive N active (P ++ [.jump 2, X] ++ Q) fuel (n : Int) st =
      some r) :
    runStagesWith anyActive N active (P ++ Q) fuel (n : Int) st = some r := by
  induction fuel generalizing n st with
  | zero => simp [runStagesWith] at h
  | succ fuel ih =>
    have hlen1 : (P ++ [Stage.jump 2, X] ++ Q).length = P.length + 2 + Q.length := by
      simp only [List.length_append, List.length_cons, List.length_nil]
    by_cases hnp : n = P.length
    · subst hnp
      rw [runStagesWith_succ, hlen1, if_neg (by omega)] at h
      have hget1 : (P ++ [Stage.jump 2, X] ++ Q)[P.length]? = some (Stage.jump 2) := by
        rw [List.append_assoc, List.getElem?_append_right (le_refl _)]
        simp
      rw [hget1] at h
      simp only [Stage.execWith] at h
      have e := jump_skip_suffix anyActive N active P Q X hQ fuel 0 st
      simp only [Nat.add_zero] at e
      have e1 : ((P.length : Nat) : Int) + 2 = ((P.length + 2 : Nat) : Int) := by push_cast; rfl
      rw [e1, e] at h
      exact runStagesWith_mono _ _ _ _ _ _ _ _ h
    · have hlt : n < P.length := by omega
      rw [runStagesWith_succ] at h ⊢
      rw [hlen1, if_neg (by omega)] at h
      rw [List.length_append, if_neg (by omega)]
      have hget1 : (P ++ [Stage.jump 2, X] ++ Q)[n]? = P[n]? := by
        rw [List.append_assoc, List.getElem?_append_left hlt]
      have hget2 : (P ++ Q)[n]? = P[n]? := by
        rw [List.getElem?_append_left hlt]
      rw [hget2]
      rw [hget1] at h
      cases hget : P[n]? with
      | none => simp [hget] at h
      | some stage =>
        simp only [hget] at h ⊢
        obtain ⟨h0, h1⟩ := branchesStayWithin_target P hP anyActive N active n stage st hget
        generalize (stage.execWith anyActive N active st).2 = d at h0 h1 h ⊢
        obtain ⟨n2, hn2⟩ := Int.eq_ofNat_of_zero_le h0
        rw [hn2] at h ⊢
        exact ih n2 _ (by omega) h

/-- C11 (amended): a jump with offset 2 makes the stage X behind it unreachable. For every
stage X and all surrounding stage lists P and Q whose own jumps and branches stay within
P and within Q, the program `P ++ [jump 2, X] ++ Q` finishes with given registers and memory
exactly when `P ++ Q` does; the program of `SkRasterPipeline_Jump` stores green, not the
dark red set by the skipped stage. -/
theorem jump_skips_stage (N active : Nat) (P Q : List Stage) (X : Stage) (st r : State)
    (hP : branchesStayWithin P = true) (hQ : branchesStayWithin Q = true) :
    ((∃ fuel, runStages N active (P ++ [.jump 2, X] ++ Q) fuel st = some r) ↔
        (∃ fuel, runStages N active (P ++ Q) fuel st = some r)) ∧
      branchTestPasses (anyActiveLanes 4) 4 jumpProgram kColorGreen = true ∧
      branchTestPasses (anyActiveLanes 4) 4 jumpProgram kColorDarkRed = false := by
  refine ⟨⟨?_, ?_⟩, by decide, by decide⟩
  · rintro ⟨fuel, h⟩
    exact ⟨fuel, jump_skip_backward _ N active P Q X hP hQ fuel 0 st r (Nat.zero_le _) h⟩
  · rintro ⟨fuel, h⟩
    exact ⟨fuel + 1, jump_skip_forward _ N active P Q X hP hQ fuel 0 st r (Nat.zero_le _) h⟩

/-- Witness for C11 (amended): the stages around the jump of `SkRasterPipeline_Jump`. -/
theorem jump_skips_stage_witness :
    ((∃ fuel, runStages 4 1
          ([Stage.constant_color kColorGreen] ++ [.jump 2, Stage.constant_color kColorDarkRed] ++
            [Stage.store_src kSlotsPtr]) fuel (branchTestState 4) =
          some ((Stage.store_src kSlotsPtr).exec 4 1
            ((Stage.constant_color kColorGreen).exec 4 1 (branchTestState 4)).1).1) ↔
        (∃ fuel, runStages 4 1 ([Stage.constant_color kColorGreen] ++ [Stage.store_src kSlotsPtr])
          fuel (branchTestState 4) =
          some ((Stage.store_src kSlotsPtr).exec 4 1
            ((Stage.constant_color kColorGreen).exec 4 1 (branchTestState 4)).1).1)) ∧
      branchTestPasses (anyActiveLanes 4) 4 jumpProgram kColorGreen = true ∧
      branchTestPasses (anyActiveLanes 4) 4 jumpProgram kColorDarkRed = false :=
  jump_skips_stage 4 1 [Stage.constant_color kColorGreen] [Stage.store_src kSlotsPtr]
    (Stage.constant_color kColorDarkRed) (branchTestState 4) _ (by decide) (by decide)

/-- C11 as stated fails when a surrounding stage branches across the inserted pair: with
P = `[jump 3, init_lane_masks]` and Q = `[init_lane_masks, store_src]` the program `P ++ Q`
stores the initial colour 0, while `P ++ [jump 2, X] ++ Q` lands on X, the dark red
constant colour, and stores dark red. -/
theorem jump_across_reaches_stage :
    (runStages 4 1 (jumpAcrossPrefix ++ jumpAcrossSuffix) 10 (branchTestState 4)).map
        (fun s => s.mem kSlotsPtr) = some 0 ∧
      (runStages 4 1
        (jumpAcrossPrefix ++ [.jump 2, Stage.constant_color kColorDarkRed] ++ jumpAcrossSuffix)
        10 (branchTestState 4)).map (fun s => s.mem kSlotsPtr) = some kColorDarkRed.r := by
  decide

end SkRasterPipeline

namespace SkAndroidCodec

/-! ## SkAndroidCodec: computeSampleSize -/

/-- No size is smaller than itself. -/
theorem smaller_than_self (a : SkISize) : smaller_than a a = false := by
  simp [smaller_than]

/-- A size that is not smaller than another is at least as large in both dimensions. -/
theorem smaller_than_eq_false (a b : SkISize) :
    smaller_than a b = false ↔ b.fWidth ≤ a.fWidth ∧ b.fHeight ≤ a.fHeight := by
  simp [smaller_than]

/-- The bad-input step leaves a size of at least 1x1 that is at least the given size. -/
theorem handleBadInput_ge (d : SkISize) :
    1 ≤ (handleBadInput d).fWidth ∧ 1 ≤ (handleBadInput d).fHeight ∧
      d.fWidth ≤ (handleBadInput d).fWidth ∧ d.fHeight ≤ (handleBadInput d).fHeight := by
  unfold handleBadInput
  split
  · simp only [le_max_iff, le_refl, true_or, or_true, and_self]
  · omega

/-- The sampled dimensions for a sample size below 1 are 0x0. -/
theorem getSampledDimensions_nonpos (codec : SkAndroidCodec) (s : Int) (h : s ≤ 0) :
    codec.getSampledDimensions s = { fWidth := 0, fHeight := 0 } := by
  have : ¬ s > 0 := by omega
  simp [getSampledDimensions, is_valid_sample_size, this]

/-- The sampled dimensions for the sample size 1 are the original dimensions. -/
theorem getSampledDimensions_one (codec : SkAndroidCodec) :
    codec.getSampledDimensions 1 = codec.dimensions := by
  simp [getSampledDimensions, is_valid_sample_size]

/-- What the tighter-fit loop returns: a sample size not below the one it starts from,
with either the size it starts from or the sampled dimensions of a larger sample size that
are not smaller than the desired size. -/
theorem tighterFit_result (codec : SkAndroidCodec) (desired : SkISize) (fuel : Nat)
    (s : Int) (c : SkISize) (s' : Int) (d' : SkISize)
    (h : tighterFit codec desired fuel s c = some (s', d')) :
    s ≤ s' ∧ (d' = c ∨ ∃ t, s < t ∧ d' = codec.getSampledDimensions t ∧
      smaller_than d' desired = false) := by
  induction fuel generalizing s c with
  | zero => simp [tighterFit] at h
  | succ fuel ih =>
    simp only [tighterFit] at h
    split_ifs at h with h1 h2
    · simp only [Option.some.injEq, Prod.mk.injEq] at h
      obtain ⟨rfl, rfl⟩ := h
      exact ⟨by omega, Or.inr ⟨s + 1, by omega, h1.symm, smaller_than_self _⟩⟩
    · simp only [Option.some.injEq, Prod.mk.injEq] at h
      obtain ⟨rfl, rfl⟩ := h
      exact ⟨le_refl _, Or.inl rfl⟩
    · obtain ⟨hle, hd⟩ := ih _ _ h
      refine ⟨by omega, ?_⟩
      have hns : smaller_than (codec.getSampledDimensions (s + 1)) desired = false := by
        cases hb : smaller_than (codec.getSampledDimensions (s + 1)) desired
        · rfl
        · exact absurd (Or.inr hb) h2
      rcases hd with rfl | ⟨t, ht, rfl, hsm⟩
      · exact Or.inr ⟨s + 1, by omega, rfl, hns⟩
      · exact Or.inr ⟨t, by omega, rfl, hsm⟩

/-- What the make-larger loop returns: sample size 1 with the original dimensions, or a
sample size of at least 2 below the one it starts from, with its sampled dimensions, which
are not smaller than the desired size. -/
theorem makeLarger_result (codec : SkAndroidCodec) (desired : SkISize) (fuel : Nat)
    (s : Int) (s' : Int) (d' : SkISize)
    (h : makeLarger codec desired fuel s = some (s', d')) :
    (s' = 1 ∧ d' = codec.dimensions) ∨
      (2 ≤ s' ∧ s' < s ∧ d' = codec.getSampledDimensions s' ∧
        smaller_than d' desired = false) := by
  induction fuel generalizing s with
  | zero => simp [makeLarger] at h
  | succ fuel ih =>
    simp only [makeLarger] at h
    split_ifs at h with h1 h2
    · simp only [Option.some.injEq, Prod.mk.injEq] at h
      obtain ⟨rfl, rfl⟩ := h
      refine Or.inr ⟨by omega, by omega, rfl, ?_⟩
      rcases h2 with h2 | h2
      · rw [h2]; exact smaller_than_self _
      · exact h2
    · rcases ih _ h with h3 | ⟨h3, h4, h5, h6⟩
      · exact Or.inl h3
      · exact Or.inr ⟨h3, by omega, h5, h6⟩
    · simp only [Option.some.injEq, Prod.mk.injEq] at h
      obtain ⟨rfl, rfl⟩ := h
      exact Or.inl ⟨rfl, rfl⟩

/-- C14: for a desired size that equals the original dimensions or exceeds them in width or
in height, `computeSampleSize` returns 1 and sets `*desiredSize` to the original
dimensions, for every codec and without entering a loop. -/
theorem computeSampleSize_upscale (codec : SkAndroidCodec) (fuel : Nat) (desiredSize : SkISize)
    (h : desiredSize = codec.dimensions ∨ codec.dimensions.fWidth < desiredSize.fWidth ∨
      codec.dimensions.fHeight < desiredSize.fHeight) :
    codec.computeSampleSize fuel desiredSize = some (1, codec.dimensions) := by
  unfold computeSampleSize
  by_cases h1 : desiredSize = codec.dimensions
  · rw [if_pos h1, h1]
  · rw [if_neg h1]
    have h2 : smaller_than codec.dimensions desiredSize = true := by
      rcases h with h | h | h
      · exact absurd h h1
      · simp [smaller_than, h]
      · simp [smaller_than, h]
    rw [if_pos h2]

/-- Witness for C14: a 10x20 codec asked for 15x25, the size `plus(dims, 5)` of the test. -/
theorem computeSampleSize_upscale_witness :
    (sampled { fWidth := 10, fHeight := 20 }).computeSampleSize 0
        { fWidth := 15, fHeight := 25 } =
      some (1, (sampled { fWidth := 10, fHeight := 20 }).dimensions) :=
  computeSampleSize_upscale (sampled { fWidth := 10, fHeight := 20 }) 0
    { fWidth := 15, fHeight := 25 } (by decide)

end SkAndroidCodec

namespace SkAndroidCodec

/-- Truncating division by a divisor of at least 1 that yields at least `k ≥ 1` has a
dividend of at least `k`. -/
theorem le_of_le_tdiv (a b k : Int) (hb : 1 ≤ b) (hk : 1 ≤ k) (h : k ≤ Int.tdiv a b) :
    k ≤ a := by
  by_cases ha : 0 ≤ a
  · rw [Int.tdiv_eq_ediv ha (by omega)] at h
    have := Int.ediv_le_self b ha
    omega
  · have hneg : Int.tdiv a b ≤ 0 := by
      have h1 : Int.tdiv (-a) b = -(Int.tdiv a b) := Int.neg_tdiv a b
      have h2 := Int.tdiv_nonneg (a := -a) (b := b) (by omega) (by omega)
      omega
    omega

/-- Truncating division of a dividend by a divisor between 1 and the dividend yields at
least 1. -/
theorem one_le_tdiv (a b : Int) (hb : 1 ≤ b) (hab : b ≤ a) : 1 ≤ Int.tdiv a b := by
  rw [Int.tdiv_eq_ediv (by omega) (by omega)]
  exact Int.le_ediv_of_mul_le (by omega) (by omega)

/-- A dimension of at least 2 sampled by at least 2 is below the dimension. -/
theorem max_one_tdiv_lt (a t : Int) (ha : 2 ≤ a) (ht : 2 ≤ t) : max 1 (Int.tdiv a t) < a := by
  rw [Int.tdiv_eq_ediv (by omega) (by omega)]
  have h : a / t < a := by
    apply Int.ediv_lt_of_lt_mul (by omega)
    nlinarith
  exact max_lt (by omega) h

/-- C15: for a codec with original dimensions of at least 1x1 whose `getSampledDimensions`
never returns a dimension below 1 for a sample size of at least 1, and for every desired
size whatsoever, whenever `computeSampleSize` returns, the updated `*desiredSize` has width
and height of at least 1 and the returned sample size is at least 1. -/
theorem computeSampleSize_valid (codec : SkAndroidCodec) (fuel : Nat)
    (desiredSize : SkISize) (s : Int) (d' : SkISize)
    (horig : 1 ≤ codec.dimensions.fWidth ∧ 1 ≤ codec.dimensions.fHeight)
    (hgsd : ∀ t, 1 ≤ t → 1 ≤ (codec.getSampledDimensions t).fWidth ∧
      1 ≤ (codec.getSampledDimensions t).fHeight)
    (h : codec.computeSampleSize fuel desiredSize = some (s, d')) :
    1 ≤ d'.fWidth ∧ 1 ≤ d'.fHeight ∧ 1 ≤ s := by
  obtain ⟨hb1, hb2, hb3, hb4⟩ := handleBadInput_ge desiredSize
  unfold computeSampleSize at h
  split_ifs at h with h1 h2 h3
  · simp only [Option.some.injEq, Prod.mk.injEq] at h
    obtain ⟨rfl, rfl⟩ := h
    rw [h1]
    omega
  · simp only [Option.some.injEq, Prod.mk.injEq] at h
    obtain ⟨rfl, rfl⟩ := h
    omega
  · simp only [Option.some.injEq, Prod.mk.injEq] at h
    obtain ⟨rfl, rfl⟩ := h
    omega
  · have hns : smaller_than codec.dimensions desiredSize = false := by
      cases hb : smaller_than codec.dimensions desiredSize
      · rfl
      · exact absurd hb h2
    rw [smaller_than_eq_false] at hns
    have hdw : (handleBadInput desiredSize).fWidth ≤ codec.dimensions.fWidth := by
      unfold handleBadInput
      split
      · exact max_le (by omega) (by omega)
      · omega
    have hdh : (handleBadInput desiredSize).fHeight ≤ codec.dimensions.fHeight := by
      unfold handleBadInput
      split
      · exact max_le (by omega) (by omega)
      · omega
    have hs0 : 1 ≤ initialSampleSize codec (handleBadInput desiredSize) := by
      unfold initialSampleSize
      exact le_min (one_le_tdiv _ _ hb1 hdw) (one_le_tdiv _ _ hb2 hdh)
    have hc0 := hgsd _ hs0
    unfold sampleSizeFor at h
    split_ifs at h with h4 h5 h6 h7
    · simp only [Option.some.injEq, Prod.mk.injEq] at h
      obtain ⟨rfl, rfl⟩ := h
      omega
    · simp only [Option.some.injEq, Prod.mk.injEq] at h
      obtain ⟨rfl, rfl⟩ := h
      omega
    · obtain ⟨hle, hd⟩ := tighterFit_result _ _ _ _ _ _ _ h
      rcases hd with rfl | ⟨t, ht, rfl, _⟩
      · omega
      · have := hgsd t (by omega)
        omega
    · simp only [Option.some.injEq, Prod.mk.injEq] at h
      obtain ⟨rfl, rfl⟩ := h
      omega
    · rcases makeLarger_result _ _ _ _ _ _ h with ⟨rfl, rfl⟩ | ⟨h8, _, rfl, _⟩
      · omega
      · have := hgsd s (by omega)
        omega

/-- The sampled dimensions of a `sampled` codec are at least 1x1 for every sample size of at
least 1 when the original dimensions are. -/
theorem sampled_getSampledDimensions_ge (dims : SkISize)
    (hdims : 1 ≤ dims.fWidth ∧ 1 ≤ dims.fHeight) (t : Int) (_ht : 1 ≤ t) :
    1 ≤ ((sampled dims).getSampledDimensions t).fWidth ∧
      1 ≤ ((sampled dims).getSampledDimensions t).fHeight := by
  unfold getSampledDimensions
  split_ifs
  · simp_all [is_valid_sample_size]
    omega
  · exact hdims
  · exact ⟨le_max_left _ _, le_max_left _ _⟩

/-- Witness for C15: a 10x20 codec asked for the size `{0, -1}` of the test; the call
returns sample size 10 and the size 1x2. -/
theorem computeSampleSize_valid_witness :
    (sampled { fWidth := 10, fHeight := 20 }).computeSampleSize 10 { fWidth := 0, fHeight := -1 } =
        some (10, { fWidth := 1, fHeight := 2 }) ∧
      (1 ≤ ({ fWidth := 1, fHeight := 2 } : SkISize).fWidth ∧
        1 ≤ ({ fWidth := 1, fHeight := 2 } : SkISize).fHeight ∧ (1 : Int) ≤ 10) :=
  ⟨by decide,
    computeSampleSize_valid (sampled { fWidth := 10, fHeight := 20 }) 10
      { fWidth := 0, fHeight := -1 } 10 { fWidth := 1, fHeight := 2 } (by decide)
      (sampled_getSampledDimensions_ge _ (by decide)) (by decide)⟩

/-- C16: for every codec that is not WebP and every desired size, if `computeSampleSize`
returns 1 then the updated `*desiredSize` is the codec's original dimensions. -/
theorem computeSampleSize_one (codec : SkAndroidCodec) (fuel : Nat)
    (desiredSize : SkISize) (d' : SkISize)
    (hweb : codec.isWebP = false)
    (h : codec.computeSampleSize fuel desiredSize = some (1, d')) :
    d' = codec.dimensions := by
  obtain ⟨hb1, hb2, _, _⟩ := handleBadInput_ge desiredSize
  unfold computeSampleSize at h
  split_ifs at h with h1 h2 h3
  · simp only [Option.some.injEq, Prod.mk.injEq, true_and] at h
    rw [← h, h1]
  · simp only [Option.some.injEq, Prod.mk.injEq, true_and] at h
    exact h.symm
  · simp [supports_any_down_scale, hweb] at h3
  · unfold sampleSizeFor at h
    split_ifs at h with h4 h5 h6 h7
    · simp only [Option.some.injEq, Prod.mk.injEq] at h
      obtain ⟨hs, rfl⟩ := h
      rw [hs, getSampledDimensions_one] at h4
      exact h4.symm
    · simp only [Option.some.injEq, Prod.mk.injEq, true_and] at h
      rcases h5 with h5 | h5
      · rw [← h, h5]
      · rw [← h, h5, getSampledDimensions_one]
    · obtain ⟨hle, _⟩ := tighterFit_result _ _ _ _ _ _ _ h
      have hs0 : initialSampleSize codec (handleBadInput desiredSize) ≤ 0 := by
        have : initialSampleSize codec (handleBadInput desiredSize) ≠ 1 := fun e => h5 (Or.inr e)
        omega
      rw [getSampledDimensions_nonpos _ _ hs0] at h6
      simp only [strictly_bigger_than, Bool.and_eq_true, decide_eq_true_eq] at h6
      omega
    · simp only [Option.some.injEq, Prod.mk.injEq] at h
      exact absurd (Or.inr h.1) h5
    · rcases makeLarger_result _ _ _ _ _ _ h with ⟨_, rfl⟩ | ⟨h8, _⟩
      · rfl
      · omega

/-- Witness for C16: a 10x20 codec asked for 9x19, the size `plus(dims, -1)` of the test. -/
theorem computeSampleSize_one_witness :
    (sampled { fWidth := 10, fHeight := 20 }).computeSampleSize 10
        { fWidth := 9, fHeight := 19 } = some (1, { fWidth := 10, fHeight := 20 }) ∧
      ({ fWidth := 10, fHeight := 20 } : SkISize) =
        (sampled { fWidth := 10, fHeight := 20 }).dimensions :=
  ⟨by decide,
    computeSampleSize_one (sampled { fWidth := 10, fHeight := 20 }) 10
      { fWidth := 9, fHeight := 19 } { fWidth := 10, fHeight := 20 } (by decide) (by decide)⟩

/-- Sampling dimensions of at least 2x2 by a sample size of at least 2 gives strictly
smaller dimensions, for a codec that samples per axis as `max(1, dimension / sampleSize)`. -/
theorem getSampledDimensions_lt (codec : SkAndroidCodec)
    (hgsd : ∀ t, codec.onGetSampledDimensions t =
      { fWidth := max 1 (Int.tdiv codec.dimensions.fWidth t),
        fHeight := max 1 (Int.tdiv codec.dimensions.fHeight t) })
    (hw : 2 ≤ codec.dimensions.fWidth) (hh : 2 ≤ codec.dimensions.fHeight)
    (t : Int) (ht : 2 ≤ t) :
    (codec.getSampledDimensions t).fWidth < codec.dimensions.fWidth ∧
      (codec.getSampledDimensions t).fHeight < codec.dimensions.fHeight := by
  have e : codec.getSampledDimensions t = codec.onGetSampledDimensions t := by
    unfold getSampledDimensions
    rw [if_neg (by simp [is_valid_sample_size]; omega), if_neg (by omega)]
  rw [e, hgsd]
  exact ⟨max_one_tdiv_lt _ _ hw ht, max_one_tdiv_lt _ _ hh ht⟩

/-- An initial sample size of at least 2 for a desired size of at least 1x1 needs original
dimensions of at least 2x2. -/
theorem dimensions_ge_two (codec : SkAndroidCodec) (d : SkISize)
    (hd : 1 ≤ d.fWidth ∧ 1 ≤ d.fHeight) (hs : 2 ≤ initialSampleSize codec d) :
    2 ≤ codec.dimensions.fWidth ∧ 2 ≤ codec.dimensions.fHeight := by
  unfold initialSampleSize at hs
  have h1 := le_min_iff.mp hs
  exact ⟨le_of_le_tdiv _ _ 2 hd.1 (by omega) h1.1, le_of_le_tdiv _ _ 2 hd.2 (by omega) h1.2⟩

/-- C17: for a codec that is not WebP and samples per axis as `max(1, dimension /
sampleSize)`, and for every requested size, if `computeSampleSize` returns a sample size
greater than 1 then the updated size is at least the requested size in width and height
and strictly smaller than the original dimensions in width and height. -/
theorem computeSampleSize_downscale (codec : SkAndroidCodec) (fuel : Nat)
    (desiredSize : SkISize) (s : Int) (d' : SkISize)
    (hweb : codec.isWebP = false)
    (hgsd : ∀ t, codec.onGetSampledDimensions t =
      { fWidth := max 1 (Int.tdiv codec.dimensions.fWidth t),
        fHeight := max 1 (Int.tdiv codec.dimensions.fHeight t) })
    (h : codec.computeSampleSize fuel desiredSize = some (s, d')) (hs : 1 < s) :
    desiredSize.fWidth ≤ d'.fWidth ∧ desiredSize.fHeight ≤ d'.fHeight ∧
      d'.fWidth < codec.dimensions.fWidth ∧ d'.fHeight < codec.dimensions.fHeight := by
  obtain ⟨hb1, hb2, hb3, hb4⟩ := handleBadInput_ge desiredSize
  unfold computeSampleSize at h
  split_ifs at h with h1 h2 h3
  · simp only [Option.some.injEq, Prod.mk.injEq] at h
    omega
  · simp only [Option.some.injEq, Prod.mk.injEq] at h
    omega
  · simp [supports_any_down_scale, hweb] at h3
  · have key : ∀ t, 2 ≤ t → 2 ≤ initialSampleSize codec (handleBadInput desiredSize) →
        (codec.getSampledDimensions t).fWidth < codec.dimensions.fWidth ∧
          (codec.getSampledDimensions t).fHeight < codec.dimensions.fHeight := by
      intro t ht hs0
      obtain ⟨hw, hh⟩ := dimensions_ge_two codec _ ⟨hb1, hb2⟩ hs0
      exact getSampledDimensions_lt codec hgsd hw hh t ht
    unfold sampleSizeFor at h
    split_ifs at h with h4 h5 h6 h7
    · simp only [Option.some.injEq, Prod.mk.injEq] at h
      obtain ⟨rfl, rfl⟩ := h
      have hs0 : 2 ≤ initialSampleSize codec (handleBadInput desiredSize) := by omega
      have := key _ hs0 hs0
      rw [h4] at this
      omega
    · simp only [Option.some.injEq, Prod.mk.injEq] at h
      omega
    · obtain ⟨hle, hd⟩ := tighterFit_result _ _ _ _ _ _ _ h
      have hs0 : 2 ≤ initialSampleSize codec (handleBadInput desiredSize) := by
        have hne : initialSampleSize codec (handleBadInput desiredSize) ≠ 1 :=
          fun e => h5 (Or.inr e)
        by_contra hcon
        have hle0 : initialSampleSize codec (handleBadInput desiredSize) ≤ 0 := by omega
        rw [getSampledDimensions_nonpos _ _ hle0] at h6
        simp only [strictly_bigger_than, Bool.and_eq_true, decide_eq_true_eq] at h6
        omega
      simp only [strictly_bigger_than, Bool.and_eq_true, decide_eq_true_eq] at h6
      rcases hd with rfl | ⟨t, ht, rfl, hsm⟩
      · have := key _ hs0 hs0
        omega
      · have := key t (by omega) hs0
        rw [smaller_than_eq_false] at hsm
        omega
    · simp only [Option.some.injEq, Prod.mk.injEq] at h
      obtain ⟨rfl, rfl⟩ := h
      have hs0 : 2 ≤ initialSampleSize codec (handleBadInput desiredSize) := by omega
      have := key _ hs0 hs0
      rw [smaller_than_eq_false] at h7
      omega
    · rcases makeLarger_result _ _ _ _ _ _ h with ⟨rfl, _⟩ | ⟨h8, h9, rfl, hsm⟩
      · omega
      · have := key s h8 (by omega)
        rw [smaller_than_eq_false] at hsm
        omega

/-- Witness for C17: a 100x100 codec asked for 30x30; the call returns sample size 3 and
the size 33x33. -/
theorem computeSampleSize_downscale_witness :
    (sampled { fWidth := 100, fHeight := 100 }).computeSampleSize 10
        { fWidth := 30, fHeight := 30 } = some (3, { fWidth := 33, fHeight := 33 }) ∧
      ((30 : Int) ≤ 33 ∧ (30 : Int) ≤ 33 ∧
        (33 : Int) < (sampled { fWidth := 100, fHeight := 100 }).dimensions.fWidth ∧
        (33 : Int) < (sampled { fWidth := 100, fHeight := 100 }).dimensions.fHeight) :=
  ⟨by decide,
    computeSampleSize_downscale (sampled { fWidth := 100, fHeight := 100 }) 10
      { fWidth := 30, fHeight := 30 } 3 { fWidth := 33, fHeight := 33 } rfl (fun _ => rfl)
      (by decide) (by decide)⟩

/-- C18 fails on the code: for the 2x4 codec that samples per axis as `max(1, dimension /
sampleSize)`, `getSampledDimensions(3)` is 1x1, and `computeSampleSize` called with
`*desiredSize` = 1x1 returns sample size 2 and changes `*desiredSize` to 1x2. -/
theorem computeSampleSize_round_trip_2x4 :
    (sampled { fWidth := 2, fHeight := 4 }).getSampledDimensions 3 =
        { fWidth := 1, fHeight := 1 } ∧
      (sampled { fWidth := 2, fHeight := 4 }).computeSampleSize 10
        ((sampled { fWidth := 2, fHeight := 4 }).getSampledDimensions 3) =
        some (2, { fWidth := 1, fHeight := 2 }) ∧
      (sampled { fWidth := 2, fHeight := 4 }).getSampledDimensions 2 =
        { fWidth := 1, fHeight := 2 } := by
  decide

/-- C19 (amended): for a WebP codec and every requested size with 1 ≤ width ≤ original width
and 1 ≤ height ≤ original height, `computeSampleSize` returns 1 and leaves `*desiredSize`
equal to the requested size; for original dimensions of at least 1x1, a requested size
with a dimension below 1 and no dimension above the original is changed only by raising
each dimension below 1 to 1, and 1 is returned. -/
theorem computeSampleSize_webp (codec : SkAndroidCodec) (fuel : Nat) (desiredSize : SkISize)
    (hweb : codec.isWebP = true)
    (hw : desiredSize.fWidth ≤ codec.dimensions.fWidth)
    (hh : desiredSize.fHeight ≤ codec.dimensions.fHeight) :
    (1 ≤ desiredSize.fWidth ∧ 1 ≤ desiredSize.fHeight →
        codec.computeSampleSize fuel desiredSize = some (1, desiredSize)) ∧
      (1 ≤ codec.dimensions.fWidth ∧ 1 ≤ codec.dimensions.fHeight →
        desiredSize.fWidth < 1 ∨ desiredSize.fHeight < 1 →
        codec.computeSampleSize fuel desiredSize =
          some (1, { fWidth := max 1 desiredSize.fWidth,
                     fHeight := max 1 desiredSize.fHeight })) := by
  have hns : smaller_than codec.dimensions desiredSize = false := by
    rw [smaller_than_eq_false]
    exact ⟨hw, hh⟩
  constructor
  · intro hd
    unfold computeSampleSize
    by_cases h1 : desiredSize = codec.dimensions
    · rw [if_pos h1]
    · rw [if_neg h1, if_neg (by simp [hns]), if_pos (by simpa [supports_any_down_scale] using hweb)]
      unfold handleBadInput
      rw [if_neg (by omega)]
  · intro horig hbad
    unfold computeSampleSize
    have h1 : desiredSize ≠ codec.dimensions := by
      intro e
      rw [e] at hbad
      omega
    rw [if_neg h1, if_neg (by simp [hns]), if_pos (by simpa [supports_any_down_scale] using hweb)]
    unfold handleBadInput
    rw [if_pos hbad]

/-- Witness for C19 (amended): a 10x10 WebP codec asked for 3x5 keeps 3x5, and asked for
0x5 sets the size to 1x5; both calls return 1. -/
theorem computeSampleSize_webp_witness :
    (webp { fWidth := 10, fHeight := 10 }).computeSampleSize 0 { fWidth := 3, fHeight := 5 } =
        some (1, { fWidth := 3, fHeight := 5 }) ∧
      (webp { fWidth := 10, fHeight := 10 }).computeSampleSize 0 { fWidth := 0, fHeight := 5 } =
        some (1, { fWidth := 1, fHeight := 5 }) :=
  ⟨(computeSampleSize_webp (webp { fWidth := 10, fHeight := 10 }) 0
      { fWidth := 3, fHeight := 5 } rfl (by decide) (by decide)).1 (by decide),
    (computeSampleSize_webp (webp { fWidth := 10, fHeight := 10 }) 0
      { fWidth := 0, fHeight := 5 } rfl (by decide) (by decide)).2 (by decide) (by decide)⟩

/-- C19 as stated fails when the other dimension exceeds the original: a 10x10 WebP codec
asked for 0x11 sets `*desiredSize` to 10x10, not to 1x11. -/
theorem computeSampleSize_webp_upscale :
    (webp { fWidth := 10, fHeight := 10 }).computeSampleSize 0 { fWidth := 0, fHeight := 11 } =
        some (1, { fWidth := 10, fHeight := 10 }) ∧
      (webp { fWidth := 10, fHeight := 10 }).computeSampleSize 0 { fWidth := 0, fHeight := 11 } ≠
        some (1, { fWidth := 1, fHeight := 11 }) := by
  decide

end SkAndroidCodec

namespace SkImage

open skgpu skgpu.graphite

/-! ## Graphite promise images: the image release proc on failure -/

/-- C20: whenever `SkImage::MakeGraphitePromiseTexture` returns null, the release calls made
by then are exactly one call of the client's image release proc, or of the no-op that
replaces a null one, with `imageContext`; each of a null recorder, an invalid
`SkImageInfo`, an incompatible color type and a null fulfill proc makes it return null;
and no release call is made when an image is returned. -/
theorem MakeGraphitePromiseTexture_releases_once (a : PromiseTextureArgs) :
    (∀ calls, MakeGraphitePromiseTexture a = some (none, calls) →
        calls = [{ proc := a.releaseProc, ctx := a.imageContext }]) ∧
      (a.recorder = false ∨ a.infoIsValid = false ∨
          a.areColorTypeAndTextureInfoCompatible = false →
        MakeGraphitePromiseTexture a =
          some (none, [{ proc := a.releaseProc, ctx := a.imageContext }])) ∧
      (a.recorder = true → a.infoIsValid = true →
          a.areColorTypeAndTextureInfoCompatible = true → a.dimensions.isEmpty = false →
          a.fulfillProc = none →
        MakeGraphitePromiseTexture a =
          some (none, [{ proc := a.releaseProc, ctx := a.imageContext }])) ∧
      (∀ p, a.imageReleaseProc = some p → a.releaseProc = .client p) ∧
      (a.imageReleaseProc = none → a.releaseProc = .noop) ∧
      (∀ image calls, MakeGraphitePromiseTexture a = some (some image, calls) → calls = []) := by
  obtain ⟨recorder, dimensions, infoIsValid, compatible, makeLazy, fulfillProc,
    imageReleaseProc, textureReleaseProc, imageContext⟩ := a
  refine ⟨?_, ?_, ?_, ?_, ?_, ?_⟩
  · intro calls h
    cases recorder <;> cases infoIsValid <;> cases compatible <;> cases makeLazy <;>
      cases fulfillProc <;> cases hd : dimensions.isEmpty <;>
      simp_all [MakeGraphitePromiseTexture, Image.MakePromiseImageLazyProxy,
        RefCntedCallback.Make, RefCntedCallback.destroy, reset]
  · intro h
    cases recorder <;> cases infoIsValid <;> cases compatible <;>
      simp_all [MakeGraphitePromiseTexture, RefCntedCallback.Make, RefCntedCallback.destroy,
        reset]
  · intro h1 h2 h3 h4 h5
    simp_all [MakeGraphitePromiseTexture, Image.MakePromiseImageLazyProxy,
      RefCntedCallback.Make, RefCntedCallback.destroy, reset]
  · intro p h
    simp_all [PromiseTextureArgs.releaseProc]
  · intro h
    simp_all [PromiseTextureArgs.releaseProc]
  · intro image calls h
    cases recorder <;> cases infoIsValid <;> cases compatible <;> cases makeLazy <;>
      cases fulfillProc <;> cases hd : dimensions.isEmpty <;>
      simp_all [MakeGraphitePromiseTexture, Image.MakePromiseImageLazyProxy,
        RefCntedCallback.Make, RefCntedCallback.destroy, reset]

/-- Witness for C20: with a null recorder the client's release proc 7 is called once with
the image context 42, and with a null fulfill proc and a null image release proc the no-op
is called once with the image context 42. -/
theorem MakeGraphitePromiseTexture_releases_once_witness :
    MakeGraphitePromiseTexture nullRecorderArgs =
        some (none, [{ proc := .client 7, ctx := 42 }]) ∧
      MakeGraphitePromiseTexture nullFulfillArgs = some (none, [{ proc := .noop, ctx := 42 }]) :=
  ⟨(MakeGraphitePromiseTexture_releases_once nullRecorderArgs).2.1 (Or.inl rfl),
    (MakeGraphitePromiseTexture_releases_once nullFulfillArgs).2.2.1 rfl rfl rfl rfl rfl⟩

end SkImage

namespace skgpu

/-! ## GPU types: callback results -/

/-- C30 fails on the code: the two enumerators of `skgpu::CallbackResult` have the same
underlying `bool` value `true`, so `CallbackResult::kFailed` and `CallbackResult::kSuccess`
are the same value and a callback cannot tell them apart; the sibling `Budgeted` has the
distinct values `false` and `true`. -/
theorem CallbackResult.kFailed_eq_kSuccess :
    CallbackResult.kFailed.value = CallbackResult.kSuccess.value ∧
      CallbackResult.kFailed = CallbackResult.kSuccess ∧
      Budgeted.kNo.value ≠ Budgeted.kYes.value := by
  decide

end skgpu

namespace SkAndroidCodec

/-! ## SkAndroidCodec: gamut area -/

/-- C23 fails on the code: in exact arithmetic `calculate_area` is one half of the absolute
value of the cross product `(b - a) x (c - a)` less the term `c.fX * a.fY`, which the sum in
the source leaves out; for `a = (0, 1)`, `b = (0, 0)`, `c = (1, 0)` it returns 0, whereas
the area of the triangle is 1/2, and for the primaries `(0.64, 0.33)`, `(0.30, 0.60)`,
`(0.15, 0.06)` it returns 0.0873, whereas the area is 0.11205. -/
theorem calculate_area_misses_term :
    (∀ a b c : SkPoint, calculate_area a b c =
        (1 / 2) * |cross (b.fX - a.fX) (b.fY - a.fY) (c.fX - a.fX) (c.fY - a.fY) -
          c.fX * a.fY|) ∧
      calculate_area { fX := 0, fY := 1 } { fX := 0, fY := 0 } { fX := 1, fY := 0 } = 0 ∧
      triangleArea { fX := 0, fY := 1 } { fX := 0, fY := 0 } { fX := 1, fY := 0 } = 1 / 2 ∧
      calculate_area { fX := 16 / 25, fY := 33 / 100 } { fX := 3 / 10, fY := 3 / 5 }
        { fX := 3 / 20, fY := 3 / 50 } = 873 / 10000 ∧
      triangleArea { fX := 16 / 25, fY := 33 / 100 } { fX := 3 / 10, fY := 3 / 5 }
        { fX := 3 / 20, fY := 3 / 50 } = 2241 / 20000 := by
  refine ⟨?_, ?_, ?_, ?_, ?_⟩
  · intro a b c
    unfold calculate_area cross
    congr 2
    ring
  · norm_num [calculate_area]
  · norm_num [triangleArea, cross]
  · norm_num [calculate_area, abs_of_nonneg]
  · norm_num [triangleArea, cross, abs_of_nonneg]

end SkAndroidCodec

namespace SkSL.RP

/-! ## Builder: immediates -/

/-- Reinterpreting a 32-bit pattern as `int32_t` and back gives the pattern. -/
theorem sk_bit_cast_round_trip (v : Nat) (hv : v < 4294967296) :
    sk_bit_cast_uint32 (sk_bit_cast_int32 v) = v := by
  unfold sk_bit_cast_uint32 sk_bit_cast_int32
  rw [Nat.mod_eq_of_lt hv]
  split <;> omega

/-- The `int32_t` that a 32-bit pattern spells: the pattern itself below 2^31, the pattern
less 2^32 from 2^31 on. -/
theorem sk_bit_cast_int32_eq (v : Nat) (hv : v < 4294967296) :
    sk_bit_cast_int32 v = if v < 2147483648 then (v : Int) else (v : Int) - 4294967296 := by
  unfold sk_bit_cast_int32
  rw [Nat.mod_eq_of_lt hv]

/-- C24: `immediate_f`, `immediate_i` and `immediate_u` each succeed and make the instruction
list one Instruction longer, with the op `immediate_f`, and `push_literal_f`,
`push_literal_i` and `push_literal_u` likewise with the op `push_literal_f`; the new
Instruction has no slots, `fImmB = 0` and as `fImmA` the `int32_t` that the 32-bit pattern
of the value spells, and the counters stay. For every `uint32_t` v, `immediate_u(v)` leaves
the Builder that `immediate_i` leaves for v reinterpreted as `int32_t`, and the recorded
`fImmA` read back as a 32-bit pattern is v; the same holds for the pattern v of a float
given to `immediate_f`. -/
theorem Builder.immediates_share_op (b : Builder) (v : Nat) (i : Int)
    (hv : v < 4294967296) :
    (∃ b1, b.immediate_f v = some b1 ∧ b1.fNumLabels = b.fNumLabels ∧
        b1.fNumBranches = b.fNumBranches ∧
        b1.fInstructions = b.fInstructions ++
          [{ fOp := .immediate_f, fSlotA := -1, fSlotB := -1, fSlotC := -1,
             fImmA := if v < 2147483648 then (v : Int) else (v : Int) - 4294967296,
             fImmB := 0 }]) ∧
      (∃ b1, b.immediate_i i = some b1 ∧ b1.fNumLabels = b.fNumLabels ∧
        b1.fNumBranches = b.fNumBranches ∧
        b1.fInstructions = b.fInstructions ++
          [{ fOp := .immediate_f, fSlotA := -1, fSlotB := -1, fSlotC := -1,
             fImmA := i, fImmB := 0 }]) ∧
      (∃ b1, b.immediate_u v = some b1 ∧ b1.fNumLabels = b.fNumLabels ∧
        b1.fNumBranches = b.fNumBranches ∧
        b1.fInstructions = b.fInstructions ++
          [{ fOp := .immediate_f, fSlotA := -1, fSlotB := -1, fSlotC := -1,
             fImmA := if v < 2147483648 then (v : Int) else (v : Int) - 4294967296,
             fImmB := 0 }]) ∧
      (∃ b1, b.push_literal_f v = some b1 ∧ b1.fNumLabels = b.fNumLabels ∧
        b1.fNumBranches = b.fNumBranches ∧
        b1.fInstructions = b.fInstructions ++
          [{ fOp := .push_literal_f, fSlotA := -1, fSlotB := -1, fSlotC := -1,
             fImmA := if v < 2147483648 then (v : Int) else (v : Int) - 4294967296,
             fImmB := 0 }]) ∧
      (∃ b1, b.push_literal_i i = some b1 ∧ b1.fNumLabels = b.fNumLabels ∧
        b1.fNumBranches = b.fNumBranches ∧
        b1.fInstructions = b.fInstructions ++
          [{ fOp := .push_literal_f, fSlotA := -1, fSlotB := -1, fSlotC := -1,
             fImmA := i, fImmB := 0 }]) ∧
      (∃ b1, b.push_literal_u v = some b1 ∧ b1.fNumLabels = b.fNumLabels ∧
        b1.fNumBranches = b.fNumBranches ∧
        b1.fInstructions = b.fInstructions ++
          [{ fOp := .push_literal_f, fSlotA := -1, fSlotB := -1, fSlotC := -1,
             fImmA := if v < 2147483648 then (v : Int) else (v : Int) - 4294967296,
             fImmB := 0 }]) ∧
      b.immediate_u v =
        b.immediate_i (if v < 2147483648 then (v : Int) else (v : Int) - 4294967296) ∧
      b.push_literal_u v =
        b.push_literal_i (if v < 2147483648 then (v : Int) else (v : Int) - 4294967296) ∧
      (((if v < 2147483648 then (v : Int) else (v : Int) - 4294967296) %
        4294967296).toNat = v) ∧
      sk_bit_cast_uint32 (sk_bit_cast_int32 v) = v ∧
      -2147483648 ≤ (if v < 2147483648 then (v : Int) else (v : Int) - 4294967296) ∧
      (if v < 2147483648 then (v : Int) else (v : Int) - 4294967296) ≤ 2147483647 := by
  have e := sk_bit_cast_int32_eq v hv
  refine ⟨⟨_, rfl, rfl, rfl, ?_⟩, ⟨_, rfl, rfl, rfl, rfl⟩, ⟨_, rfl, rfl, rfl, ?_⟩,
    ⟨_, rfl, rfl, rfl, ?_⟩, ⟨_, rfl, rfl, rfl, rfl⟩, ⟨_, rfl, rfl, rfl, ?_⟩, ?_, ?_, ?_,
    sk_bit_cast_round_trip v hv, ?_, ?_⟩
  · simp only [Builder.push_back, Instruction.make, List.getD_nil, e, NA]
  · simp only [Builder.push_back, Instruction.make, List.getD_nil, e, NA]
  · simp only [Builder.push_back, Instruction.make, List.getD_nil, e, NA]
  · simp only [Builder.push_back, Instruction.make, List.getD_nil, e, NA]
  · simp only [Builder.immediate_u, Builder.immediate_i, e]
  · simp only [Builder.push_literal_u, Builder.push_literal_i, e]
  · split <;> omega
  · split <;> omega
  · split <;> omega

/-- Witness for C24: the float -1.0f, pattern `0xBF800000`, is recorded by `immediate_f` as
one Instruction with `fImmA = -1082130432`, and the pattern `0xFFFFFFFF` given to
`immediate_u` as what `immediate_i(-1)` records. -/
theorem Builder.immediates_share_op_witness :
    (∃ b1, Builder.fresh.immediate_f 3212836864 = some b1 ∧
        b1.fNumLabels = Builder.fresh.fNumLabels ∧
        b1.fNumBranches = Builder.fresh.fNumBranches ∧
        b1.fInstructions = Builder.fresh.fInstructions ++
          [{ fOp := .immediate_f, fSlotA := -1, fSlotB := -1, fSlotC := -1,
             fImmA := -1082130432, fImmB := 0 }]) ∧
      Builder.fresh.immediate_u 4294967295 = Builder.fresh.immediate_i (-1) :=
  ⟨(Builder.immediates_share_op Builder.fresh 3212836864 0 (by decide)).1,
    (Builder.immediates_share_op Builder.fresh 4294967295 0 (by decide)).2.2.2.2.2.2.1⟩

end SkSL.RP

namespace SkSL.RP

/-! ## Builder: append-only recording and the branch counter -/

/-- What one successful recording call does to the recorded instructions and the two
counters: it appends a list, raises the branch counter by the number of branch ops in that
list, keeps the label counter, and every label operand it records is a reserved handle. -/
theorem Builder.record_branches (b b1 : Builder) (c : Call) (h : b.record c = some b1) :
    ∃ l : List Instruction, b1.fInstructions = b.fInstructions ++ l ∧
      b1.fNumBranches = b.fNumBranches + (l.countP fun inst => inst.fOp.isBranch) ∧
      b1.fNumLabels = b.fNumLabels ∧
      ∀ inst ∈ l, inst.fOp.hasLabelOperand = true →
        0 ≤ inst.fImmA ∧ inst.fImmA < b.fNumLabels := by
  cases c <;>
    simp only [Builder.record, Builder.init_lane_masks, Builder.store_src_rg, Builder.store_src,
      Builder.store_dst, Builder.load_src, Builder.load_dst, Builder.set_current_stack,
      Builder.label, Builder.jump, Builder.branch_if_any_active_lanes,
      Builder.branch_if_no_active_lanes, Builder.immediate_f, Builder.immediate_i,
      Builder.immediate_u, Builder.push_literal_f, Builder.push_literal_i,
      Builder.push_literal_u, Builder.push_uniform, Builder.push_zeros, Builder.push_slots,
      Builder.copy_stack_to_slots, Builder.copy_stack_to_slots_at,
      Builder.copy_stack_to_slots_unmasked, Builder.copy_stack_to_slots_unmasked_at,
      Builder.discard_stack, Builder.pop_slots, Builder.push_clone, Builder.select,
      Builder.pop_slots_unmasked, Builder.load_unmasked, Builder.store_unmasked,
      Builder.store_masked, Builder.copy_slots_masked, Builder.copy_slots_unmasked,
      Builder.zero_slots_unmasked, Builder.push_condition_mask, Builder.pop_condition_mask,
      Builder.merge_condition_mask, Builder.push_loop_mask, Builder.pop_loop_mask,
      Builder.mask_off_loop_mask, Builder.reenable_loop_mask, Builder.merge_loop_mask,
      Builder.push_return_mask, Builder.pop_return_mask, Builder.mask_off_return_mask,
      Builder.incNumBranches, Builder.push_back, Option.bind] at h <;>
    (try split at h) <;> (try split at h) <;>
    (try (simp only [Option.some.injEq, reduceCtorEq] at h)) <;>
    (try subst h) <;>
    first
    | (refine ⟨_, rfl, ?_, rfl, ?_⟩ <;>
        simp_all [Instruction.make, BuilderOp.isBranch, BuilderOp.hasLabelOperand,
          Builder.labelAssertion])
    | (refine ⟨_, List.append_assoc _ _ _, ?_, rfl, ?_⟩ <;>
        simp [Instruction.make, BuilderOp.isBranch, BuilderOp.hasLabelOperand])
    | (refine ⟨[], (List.append_nil _).symm, ?_, rfl, ?_⟩ <;> simp)

/-- What one successful call (`nextLabelID` included) does to the recorded instructions and
the two counters. -/
theorem Builder.call_appends (b b1 : Builder) (c : Call) (r : Option Int)
    (h : b.call c = some (b1, r)) :
    ∃ l : List Instruction, b1.fInstructions = b.fInstructions ++ l ∧
      b1.fNumBranches = b.fNumBranches + (l.countP fun inst => inst.fOp.isBranch) ∧
      b.fNumLabels ≤ b1.fNumLabels ∧
      ∀ inst ∈ l, inst.fOp.hasLabelOperand = true →
        0 ≤ inst.fImmA ∧ inst.fImmA < b.fNumLabels := by
  by_cases hc : c = .nextLabelID
  · subst hc
    simp only [Builder.call, Builder.nextLabelID] at h
    split at h
    · simp only [Option.map, Option.some.injEq, Prod.mk.injEq] at h
      obtain ⟨rfl, _⟩ := h
      exact ⟨[], by simp, by simp, by simp, by simp⟩
    · simp at h
  · have h2 : b.call c = (b.record c).map fun b1 => (b1, none) := by
      cases c <;> first | rfl | exact absurd rfl hc
    rw [h2] at h
    cases hrec : b.record c with
    | none => simp [hrec] at h
    | some b2 =>
      simp only [hrec, Option.map, Option.some.injEq, Prod.mk.injEq] at h
      obtain ⟨rfl, _⟩ := h
      obtain ⟨l, h3, h4, h5, h6⟩ := Builder.record_branches b b2 c hrec
      exact ⟨l, h3, h4, le_of_eq h5.symm, h6⟩

/-- A run of calls keeps the recorded instructions as the front part of the list, and
keeps two facts: the branch counter is the number of recorded branch ops, and every
recorded label operand is a reserved handle. -/
theorem Builder.run_invariant (cs : List Call) (b b1 : Builder) (hs : List Int)
    (h : b.run cs = some (b1, hs))
    (hcount : b.fNumBranches = b.countBranches)
    (hlabels : ∀ inst ∈ b.fInstructions, inst.fOp.hasLabelOperand = true →
      0 ≤ inst.fImmA ∧ inst.fImmA < b.fNumLabels) :
    (∃ l, b1.fInstructions = b.fInstructions ++ l) ∧
      b1.fNumBranches = b1.countBranches ∧
      ∀ inst ∈ b1.fInstructions, inst.fOp.hasLabelOperand = true →
        0 ≤ inst.fImmA ∧ inst.fImmA < b1.fNumLabels := by
  induction cs generalizing b hs with
  | nil =>
    simp only [Builder.run, Option.some.injEq, Prod.mk.injEq] at h
    obtain ⟨rfl, _⟩ := h
    exact ⟨⟨[], by simp⟩, hcount, hlabels⟩
  | cons c cs ih =>
    simp only [Builder.run] at h
    cases hcall : b.call c with
    | none => simp [hcall] at h
    | some p =>
      obtain ⟨b2, r⟩ := p
      simp only [hcall] at h
      cases hrun : b2.run cs with
      | none => simp [hrun] at h
      | some q =>
        obtain ⟨b3, hs2⟩ := q
        simp only [hrun, Option.some.injEq, Prod.mk.injEq] at h
        obtain ⟨rfl, _⟩ := h
        obtain ⟨l, h3, h4, h5, h6⟩ := Builder.call_appends b b2 c r hcall
        have hcount2 : b2.fNumBranches = b2.countBranches := by
          rw [h4, hcount]
          simp only [Builder.countBranches, h3, List.countP_append, Nat.cast_add]
        have hlabels2 : ∀ inst ∈ b2.fInstructions, inst.fOp.hasLabelOperand = true →
            0 ≤ inst.fImmA ∧ inst.fImmA < b2.fNumLabels := by
          intro inst hmem hop
          rw [h3, List.mem_append] at hmem
          rcases hmem with hmem | hmem
          · have := hlabels inst hmem hop
            omega
          · have := h6 inst hmem hop
            omega
        obtain ⟨⟨l2, i1⟩, i2, i3⟩ := ih b2 hs2 hrun hcount2 hlabels2
        exact ⟨⟨l ++ l2, by rw [i1, h3, List.append_assoc]⟩, i2, i3⟩

/-- What appending to a list keeps: the old list is the front part of the new one, and the
element at every old position is the one that was there. -/
theorem kept_of_append (old new l : List Instruction) (h : new = old ++ l) :
    (∃ l, new = old ++ l) ∧ old.length ≤ new.length ∧ new.take old.length = old ∧
      ∀ (i : Nat) (inst : Instruction), old[i]? = some inst → new[i]? = some inst := by
  refine ⟨⟨l, h⟩, by simp [h], by simp [h], ?_⟩
  intro i inst hi
  rw [h]
  have hlt : i < old.length := by
    by_contra hcon
    rw [List.getElem?_eq_none (by omega)] at hi
    simp at hi
  rw [List.getElem?_append_left hlt]
  exact hi

/-- C25: every call of a Builder recording method leaves the already-recorded instructions
unchanged and in their order: the instruction list before the call is the front part of
the list after the call, so the instruction at every old position is the one that was
there. This holds for every method with a body in the header (`nextLabelID` and the
composites included) and for `unary_op`, `binary_op`, `ternary_op`, `push_duplicates` and
`swizzle`, whatever the sequences of the last two. -/
theorem Builder.call_keeps_recorded (b : Builder) :
    (∀ (c : Call) (b1 : Builder) (r : Option Int), b.call c = some (b1, r) →
        (∃ l, b1.fInstructions = b.fInstructions ++ l) ∧
          b.fInstructions.length ≤ b1.fInstructions.length ∧
          b1.fInstructions.take b.fInstructions.length = b.fInstructions ∧
          ∀ (i : Nat) (inst : Instruction), b.fInstructions[i]? = some inst →
            b1.fInstructions[i]? = some inst) ∧
      (∀ (sequence : DeclaredCall → Option (List Instruction)) (c : DeclaredCall)
          (b1 : Builder), b.recordDeclared sequence c = some b1 →
        (∃ l, b1.fInstructions = b.fInstructions ++ l) ∧
          b.fInstructions.length ≤ b1.fInstructions.length ∧
          b1.fInstructions.take b.fInstructions.length = b.fInstructions ∧
          ∀ (i : Nat) (inst : Instruction), b.fInstructions[i]? = some inst →
            b1.fInstructions[i]? = some inst) := by
  constructor
  · intro c b1 r h
    obtain ⟨l, h3, _⟩ := Builder.call_appends b b1 c r h
    exact kept_of_append _ _ l h3
  · intro sequence c b1 h
    cases c with
    | unary_op op slots =>
      simp only [Builder.recordDeclared, Option.some.injEq] at h
      subst h
      exact kept_of_append _ _ _ rfl
    | binary_op op slots =>
      simp only [Builder.recordDeclared, Option.some.injEq] at h
      subst h
      exact kept_of_append _ _ _ rfl
    | ternary_op op slots =>
      simp only [Builder.recordDeclared, Option.some.injEq] at h
      subst h
      exact kept_of_append _ _ _ rfl
    | push_duplicates count =>
      simp only [Builder.recordDeclared] at h
      cases hs : sequence (.push_duplicates count) with
      | none => simp [hs] at h
      | some l =>
        simp only [hs, Option.map, Option.some.injEq] at h
        subst h
        exact kept_of_append _ _ l rfl
    | swizzle inputSlots components =>
      simp only [Builder.recordDeclared] at h
      cases hs : sequence (.swizzle inputSlots components) with
      | none => simp [hs] at h
      | some l =>
        simp only [hs, Option.map, Option.some.injEq] at h
        subst h
        exact kept_of_append _ _ l rfl

/-- Witness for C25: `label(0)` and `push_duplicates(2)` on the Builder that holds a branch
and a label keep the two recorded instructions at the front. -/
theorem Builder.call_keeps_recorded_witness :
    (Builder.exampleForwardBranch.fInstructions ++ [Instruction.make .label [] 0 0]).take 2 =
        Builder.exampleForwardBranch.fInstructions ∧
      (Builder.exampleForwardBranch.fInstructions ++
        [Instruction.make .push_clone [] 1 1, Instruction.make .push_clone [] 1 1]).take 2 =
        Builder.exampleForwardBranch.fInstructions :=
  ⟨((Builder.call_keeps_recorded Builder.exampleForwardBranch).1 (.label 0)
      (Builder.exampleForwardBranch.push_back (Instruction.make .label [] 0 0)) none
      (by decide)).2.2.1,
    ((Builder.call_keeps_recorded Builder.exampleForwardBranch).2 exampleSequence
      (.push_duplicates 2)
      { Builder.exampleForwardBranch with
        fInstructions := Builder.exampleForwardBranch.fInstructions ++
          [Instruction.make .push_clone [] 1 1, Instruction.make .push_clone [] 1 1] }
      (by decide)).2.2.1⟩

/-- C27: in every Builder state reached from a fresh Builder through calls of the methods
defined in the class, `fNumBranches` is the number of recorded instructions whose op is
`jump`, `branch_if_any_active_lanes` or `branch_if_no_active_lanes`, and the `fImmA` of every
recorded `label`, `jump` or branch instruction is at least 0 and below `fNumLabels`. -/
theorem Builder.branch_counter_invariant (cs : List Call) (b : Builder) (hs : List Int)
    (h : Builder.fresh.run cs = some (b, hs)) :
    b.fNumBranches = b.countBranches ∧
      ∀ inst ∈ b.fInstructions, inst.fOp.hasLabelOperand = true →
        0 ≤ inst.fImmA ∧ inst.fImmA < b.fNumLabels := by
  have h0 : Builder.fresh.fNumBranches = Builder.fresh.countBranches := by decide
  have h1 : ∀ inst ∈ Builder.fresh.fInstructions, inst.fOp.hasLabelOperand = true →
      0 ≤ inst.fImmA ∧ inst.fImmA < Builder.fresh.fNumLabels := by
    intro inst hmem
    simp [Builder.fresh] at hmem
  exact (Builder.run_invariant cs Builder.fresh b hs h h0 h1).2

/-- Witness for C27: the run `nextLabelID`, `jump(0)`, `label(0)`, `push_zeros(2)`,
`branch_if_any_active_lanes(0)` records two branch ops and three label operands 0. -/
theorem Builder.branch_counter_invariant_witness :
    Builder.exampleTwoBranches.fNumBranches = Builder.exampleTwoBranches.countBranches ∧
      ∀ inst ∈ Builder.exampleTwoBranches.fInstructions, inst.fOp.hasLabelOperand = true →
        0 ≤ inst.fImmA ∧ inst.fImmA < Builder.exampleTwoBranches.fNumLabels :=
  Builder.branch_counter_invariant
    [.nextLabelID, .jump 0, .label 0, .push_zeros 2, .branch_if_any_active_lanes 0]
    Builder.exampleTwoBranches [0] (by decide)

end SkSL.RP

namespace SkAndroidCodec

/-! ## SkAndroidCodec: output color type -/

/-- A request for `kRGBA_F16_SkColorType` is granted. -/
theorem computeOutputColorType_F16 (bgra : Bool) (codec : EncodedColor) :
    computeOutputColorType bgra codec .kRGBA_F16 = .kRGBA_F16 := by
  cases bgra <;> simp [computeOutputColorType, kN32_SkColorType]

/-- A request for `kN32_SkColorType` gives the default. -/
theorem computeOutputColorType_N32 (bgra : Bool) (codec : EncodedColor) :
    computeOutputColorType bgra codec (kN32_SkColorType bgra) =
      defaultOutputColorType bgra codec := by
  cases bgra <;> simp [computeOutputColorType, kN32_SkColorType]

/-- A request for `kRGBA_1010102_SkColorType` is granted for color depth 10. -/
theorem computeOutputColorType_1010102 (bgra : Bool) (codec : EncodedColor)
    (h : codec.colorDepth = 10) :
    computeOutputColorType bgra codec .kRGBA_1010102 = .kRGBA_1010102 := by
  cases bgra <;> simp [computeOutputColorType, kN32_SkColorType, h]

/-- A request for `kGray_8_SkColorType` is granted for a gray image. -/
theorem computeOutputColorType_Gray_8 (bgra : Bool) (codec : EncodedColor)
    (h : SkColorType.kGray_8 = codec.colorType) :
    computeOutputColorType bgra codec .kGray_8 = .kGray_8 := by
  cases bgra <;> simp [computeOutputColorType, kN32_SkColorType, ← h]

/-- A request for `kRGB_565_SkColorType` is granted for an opaque image. -/
theorem computeOutputColorType_565 (bgra : Bool) (codec : EncodedColor)
    (h : SkAlphaType.kOpaque = codec.alphaType) :
    computeOutputColorType bgra codec .kRGB_565 = .kRGB_565 := by
  cases bgra <;> simp [computeOutputColorType, kN32_SkColorType, ← h]

/-- A request for the default gives the default. -/
theorem computeOutputColorType_default (bgra : Bool) (codec : EncodedColor) :
    computeOutputColorType bgra codec (defaultOutputColorType bgra codec) =
      defaultOutputColorType bgra codec := by
  by_cases h1 : codec.bitsPerComponent > 8
  · have e : defaultOutputColorType bgra codec = .kRGBA_F16 := by
      simp [defaultOutputColorType, h1]
    rw [e]
    exact computeOutputColorType_F16 bgra codec
  · by_cases h2 : codec.colorDepth = 10
    · have e : defaultOutputColorType bgra codec = .kRGBA_1010102 := by
        simp [defaultOutputColorType, h1, h2]
      rw [e]
      exact computeOutputColorType_1010102 bgra codec h2
    · have e : defaultOutputColorType bgra codec = kN32_SkColorType bgra := by
        simp [defaultOutputColorType, h1, h2]
      rw [e, computeOutputColorType_N32, e]

/-- What `computeOutputColorType` can return for a request other than `kARGB_4444`: the
default, or one of the four color types it grants. -/
theorem computeOutputColorType_cases (bgra : Bool) (codec : EncodedColor) (r : SkColorType)
    (hr : r ≠ .kARGB_4444) :
    computeOutputColorType bgra codec r = defaultOutputColorType bgra codec ∨
      (computeOutputColorType bgra codec r = .kGray_8 ∧
        SkColorType.kGray_8 = codec.colorType) ∨
      (computeOutputColorType bgra codec r = .kRGB_565 ∧
        SkAlphaType.kOpaque = codec.alphaType) ∨
      (computeOutputColorType bgra codec r = .kRGBA_1010102 ∧ codec.colorDepth = 10) ∨
      computeOutputColorType bgra codec r = .kRGBA_F16 := by
  unfold computeOutputColorType
  rw [if_neg hr]
  split_ifs with h1 h2 h3 h4 h5 h6 h7 h8
  · exact Or.inl rfl
  · exact Or.inr (Or.inl ⟨rfl, h3⟩)
  · exact Or.inl rfl
  · exact Or.inr (Or.inr (Or.inl ⟨rfl, h5⟩))
  · exact Or.inl rfl
  · exact Or.inr (Or.inr (Or.inr (Or.inl ⟨rfl, h7⟩)))
  · exact Or.inl rfl
  · exact Or.inr (Or.inr (Or.inr (Or.inr rfl)))
  · exact Or.inl rfl

/-- C28 (amended): `computeOutputColorType` applied twice gives what it gives applied once
for every requested color type other than `kARGB_4444_SkColorType`, and for
`kARGB_4444_SkColorType` exactly when the codec has at most 8 bits per component and a
color depth other than 10. -/
theorem computeOutputColorType_idempotent (bgra : Bool) (codec : EncodedColor)
    (r : SkColorType) :
    (r ≠ .kARGB_4444 →
        computeOutputColorType bgra codec (computeOutputColorType bgra codec r) =
          computeOutputColorType bgra codec r) ∧
      (computeOutputColorType bgra codec
          (computeOutputColorType bgra codec .kARGB_4444) =
          computeOutputColorType bgra codec .kARGB_4444 ↔
        ¬ codec.bitsPerComponent > 8 ∧ codec.colorDepth ≠ 10) := by
  constructor
  · intro hr
    rcases computeOutputColorType_cases bgra codec r hr with h | ⟨h, hc⟩ | ⟨h, hc⟩ | ⟨h, hc⟩ | h
    · rw [h, computeOutputColorType_default]
    · rw [h, computeOutputColorType_Gray_8 bgra codec hc]
    · rw [h, computeOutputColorType_565 bgra codec hc]
    · rw [h, computeOutputColorType_1010102 bgra codec hc]
    · rw [h, computeOutputColorType_F16]
  · have e : computeOutputColorType bgra codec .kARGB_4444 = kN32_SkColorType bgra := by
      simp [computeOutputColorType]
    rw [e, computeOutputColorType_N32]
    unfold defaultOutputColorType
    cases bgra <;> split_ifs <;> simp_all [kN32_SkColorType]

/-- Witness for C28 (amended): a request for `kRGB_565_SkColorType` to a codec with 16 bits
per component gives `kRGBA_F16_SkColorType`, once and twice. -/
theorem computeOutputColorType_idempotent_witness :
    computeOutputColorType false highPrecisionCodec
        (computeOutputColorType false highPrecisionCodec .kRGB_565) =
      computeOutputColorType false highPrecisionCodec .kRGB_565 :=
  (computeOutputColorType_idempotent false highPrecisionCodec .kRGB_565).1 (by decide)

/-- C28 as stated fails: for a codec with 16 bits per component a request for
`kARGB_4444_SkColorType` gives `kN32_SkColorType`, and a request for `kN32_SkColorType`
gives `kRGBA_F16_SkColorType`. -/
theorem computeOutputColorType_4444_twice :
    computeOutputColorType false highPrecisionCodec .kARGB_4444 = .kRGBA_8888 ∧
      computeOutputColorType false highPrecisionCodec
        (computeOutputColorType false highPrecisionCodec .kARGB_4444) = .kRGBA_F16 ∧
      computeOutputColorType true highPrecisionCodec
        (computeOutputColorType true highPrecisionCodec .kARGB_4444) ≠
        computeOutputColorType true highPrecisionCodec .kARGB_4444 := by
  decide

end SkAndroidCodec

/-! ## Graphite images: `makeTextureImage` -/

/-- C29: for a Graphite-backed image and a non-null recorder, `makeTextureImage` never fails
the assertion of `Image::onMakeTextureImage`: whenever it dispatches, the properties it
passes have `fMipmapped == Mipmapped::kYes` and the image has no mipmaps; and when the
dimensions have area at most 1, or the required mipmapping is `kNo`, or the image has
mipmaps, it returns the image itself without dispatching, while in every other case it
does dispatch. -/
theorem SkImage.makeTextureImage_graphite
    (onMakeTextureImageOther : SkImage → RequiredImageProperties → Option (Option SkImage))
    (image : SkImage) (requiredProps : RequiredImageProperties)
    (hg : image.isGraphiteBacked = true) :
    (∃ res, SkImage.makeTextureImage onMakeTextureImageOther image true requiredProps =
        some res ∧
        ∀ p, res.dispatched = some p →
          p.fMipmapped = .kYes ∧ image.hasMipmaps = false ∧
            skgpu.graphite.Image.onMakeTextureImage image p = some image) ∧
      (image.dimensions.area ≤ 1 ∨ requiredProps.fMipmapped = .kNo ∨
          image.hasMipmaps = true →
        SkImage.makeTextureImage onMakeTextureImageOther image true requiredProps =
          some { image := some image, dispatched := none }) ∧
      (1 < image.dimensions.area → requiredProps.fMipmapped = .kYes →
          image.hasMipmaps = false →
        SkImage.makeTextureImage onMakeTextureImageOther image true requiredProps =
          some { image := some image, dispatched := some requiredProps }) := by
  obtain ⟨dims, g, m⟩ := image
  obtain ⟨mip⟩ := requiredProps
  simp only at hg
  subst hg
  refine ⟨?_, ?_, ?_⟩
  · by_cases ha : dims.area ≤ 1 <;> cases mip <;> cases m <;>
      simp [SkImage.makeTextureImage, SkImage.adjustedProps,
        skgpu.graphite.Image.onMakeTextureImage, ha]
  · intro h
    by_cases ha : dims.area ≤ 1 <;> cases mip <;> cases m <;>
      simp_all [SkImage.makeTextureImage, SkImage.adjustedProps,
        skgpu.graphite.Image.onMakeTextureImage]
  · intro h1 h2 h3
    have ha : ¬ dims.area ≤ 1 := by
      simp only at h1
      omega
    simp only at h2 h3
    subst h2 h3
    simp [SkImage.makeTextureImage, SkImage.adjustedProps,
      skgpu.graphite.Image.onMakeTextureImage, ha]

/-- Witness for C29: a Graphite-backed 16x16 image without mipmaps, asked for mipmaps,
dispatches with `kYes`; asked for none, it is returned as it is. -/
theorem SkImage.makeTextureImage_graphite_witness :
    SkImage.makeTextureImage (fun _ _ => none) SkImage.graphite16 true
        { fMipmapped := .kYes } =
        some { image := some SkImage.graphite16, dispatched := some { fMipmapped := .kYes } } ∧
      SkImage.makeTextureImage (fun _ _ => none) SkImage.graphite16 true
        { fMipmapped := .kNo } =
        some { image := some SkImage.graphite16, dispatched := none } :=
  ⟨(SkImage.makeTextureImage_graphite (fun _ _ => none) SkImage.graphite16
      { fMipmapped := .kYes } rfl).2.2 (by decide) rfl rfl,
    (SkImage.makeTextureImage_graphite (fun _ _ => none) SkImage.graphite16
      { fMipmapped := .kNo } rfl).2.1 (Or.inr (Or.inl rfl))⟩

namespace SkAndroidCodec

/-! ## SkAndroidCodec: `getAndroidPixels` -/

/-- C21: `getAndroidPixels` returns `kInvalidParameters`, makes no call of `handleFrameIndex`
or `onGetAndroidPixels` and leaves the pixel memory as it is, whenever `requestPixels` is
null, or `requestRowBytes < requestInfo.minRowBytes()`, or the options carry a subset that
`is_valid_subset` rejects for the codec's dimensions; and when it forwards options whose
subset is the full image rectangle, it forwards them with `fSubset` null and every other
field unchanged, to `handleFrameIndex` and, after a `kSuccess`, to `onGetAndroidPixels`. -/
theorem getAndroidPixels_invalid {α σ : Type} (codec : PixelCodec α σ) (req : PixelRequest)
    (options : Option (AndroidOptions α)) (mem : σ) :
    (req.requestPixels = none ∨ req.requestRowBytes < req.minRowBytes ∨
        (∃ o subset, options = some o ∧ o.fSubset = some subset ∧
          codec.is_valid_subset subset codec.dimensions = false) →
        getAndroidPixels codec req options mem = (.kInvalidParameters, mem, [])) ∧
      (∀ o, options = some o → o.fSubset = some (SkIRect.MakeSize codec.dimensions) →
        req.requestPixels ≠ none → ¬ req.requestRowBytes < req.minRowBytes →
        codec.is_valid_subset (SkIRect.MakeSize codec.dimensions) codec.dimensions = true →
        getAndroidPixels codec req options mem =
            forwardPixels codec req { fSubset := none, rest := o.rest } mem ∧
          ∃ calls, (forwardPixels codec req { fSubset := none, rest := o.rest } mem).2.2 =
            PixelCall.handleFrameIndex req { fSubset := none, rest := o.rest } :: calls ∧
            (calls = [] ∨
              calls = [PixelCall.onGetAndroidPixels req { fSubset := none, rest := o.rest }])) := by
  constructor
  · rintro (h | h | ⟨o, subset, rfl, hs, hv⟩)
    · simp [getAndroidPixels, h]
    · unfold getAndroidPixels
      split_ifs <;> rfl
    · unfold getAndroidPixels
      split_ifs
      · rfl
      · rfl
      · simp [resolveOptions, hs, hv]
  · rintro o rfl hs hp hr hv
    constructor
    · unfold getAndroidPixels
      rw [if_neg hp, if_neg hr]
      simp [resolveOptions, hs, hv]
    · unfold forwardPixels
      split_ifs
      · exact ⟨[], rfl, Or.inl rfl⟩
      · exact ⟨_, rfl, Or.inr rfl⟩

/-- Witness for C21: on the 4x4 codec a null pixel pointer is refused without a call or a
write, and the subset `{0, 0, 4, 4}` with sample size 2 is forwarded with a null subset and
sample size 2 to both methods. -/
theorem getAndroidPixels_invalid_witness :
    getAndroidPixels pixelCodec4x4 { validRequest with requestPixels := none }
        (some { fSubset := some (SkIRect.MakeSize pixelCodec4x4.dimensions), rest := 2 }) 0 =
        (.kInvalidParameters, 0, []) ∧
      getAndroidPixels pixelCodec4x4 validRequest
        (some { fSubset := some (SkIRect.MakeSize pixelCodec4x4.dimensions), rest := 2 }) 0 =
        forwardPixels pixelCodec4x4 validRequest { fSubset := none, rest := 2 } 0 :=
  ⟨(getAndroidPixels_invalid pixelCodec4x4 { validRequest with requestPixels := none }
      (some { fSubset := some (SkIRect.MakeSize pixelCodec4x4.dimensions), rest := 2 }) 0).1
      (Or.inl rfl),
    ((getAndroidPixels_invalid pixelCodec4x4 validRequest
      (some { fSubset := some (SkIRect.MakeSize pixelCodec4x4.dimensions), rest := 2 }) 0).2
      _ rfl rfl (by decide) (by decide) (by decide)).1⟩

end SkAndroidCodec

namespace SkAndroidCodec

/-! ## SkAndroidCodec: termination of computeSampleSize -/

/-- A size that is at most another in both dimensions and differs from it has a smaller
sum of dimensions. -/
theorem size_sum_lt (a b : SkISize) (hw : a.fWidth ≤ b.fWidth) (hh : a.fHeight ≤ b.fHeight)
    (hne : a ≠ b) : a.fWidth + a.fHeight < b.fWidth + b.fHeight := by
  by_contra hcon
  apply hne
  obtain ⟨aw, ah⟩ := a
  obtain ⟨bw, bh⟩ := b
  simp only at hw hh hcon
  have h1 : aw = bw := by omega
  have h2 : ah = bh := by omega
  rw [h1, h2]

/-- Truncating division of a non-negative dividend by a divisor of at least 1 is at most
the dividend. -/
theorem tdiv_le_self (a b : Int) (ha : 0 ≤ a) (hb : 1 ≤ b) : Int.tdiv a b ≤ a := by
  rw [Int.tdiv_eq_ediv ha (by omega)]
  exact Int.ediv_le_self b ha

/-- The tighter-fit loop ends: with sampled dimensions that do not grow with the sample
size, every iteration that goes on lowers the sum of the computed dimensions, which stays
at least that of the desired size. -/
theorem tighterFit_terminates (codec : SkAndroidCodec) (desired : SkISize)
    (hmono : ∀ s t, 1 ≤ s → s ≤ t →
      (codec.getSampledDimensions t).fWidth ≤ (codec.getSampledDimensions s).fWidth ∧
        (codec.getSampledDimensions t).fHeight ≤ (codec.getSampledDimensions s).fHeight)
    (fuel : Nat) (s : Int) (hs : 1 ≤ s)
    (hw : desired.fWidth ≤ (codec.getSampledDimensions s).fWidth)
    (hh : desired.fHeight ≤ (codec.getSampledDimensions s).fHeight)
    (hfuel : (((codec.getSampledDimensions s).fWidth - desired.fWidth) +
      ((codec.getSampledDimensions s).fHeight - desired.fHeight)).toNat < fuel) :
    ∃ r, tighterFit codec desired fuel s (codec.getSampledDimensions s) = some r := by
  induction fuel generalizing s with
  | zero => omega
  | succ fuel ih =>
    simp only [tighterFit]
    split_ifs with h1 h2
    · exact ⟨_, rfl⟩
    · exact ⟨_, rfl⟩
    · have hne : codec.getSampledDimensions (s + 1) ≠ codec.getSampledDimensions s :=
        fun e => h2 (Or.inl e)
      have hns : smaller_than (codec.getSampledDimensions (s + 1)) desired = false := by
        cases hb : smaller_than (codec.getSampledDimensions (s + 1)) desired
        · rfl
        · exact absurd (Or.inr hb) h2
      rw [smaller_than_eq_false] at hns
      obtain ⟨m1, m2⟩ := hmono s (s + 1) hs (by omega)
      have hlt := size_sum_lt _ _ m1 m2 hne
      exact ih (s + 1) (by omega) hns.1 hns.2 (by omega)

/-- The make-larger loop ends: every iteration lowers the sample size by 1, and the loop
stops at 2. -/
theorem makeLarger_terminates (codec : SkAndroidCodec) (desired : SkISize)
    (fuel : Nat) (s : Int) (hfuel : (s - 2).toNat < fuel) :
    ∃ r, makeLarger codec desired fuel s = some r := by
  induction fuel generalizing s with
  | zero => omega
  | succ fuel ih =>
    simp only [makeLarger]
    split_ifs with h1 h2
    · exact ⟨_, rfl⟩
    · exact ih (s - 1) (by omega)
    · exact ⟨_, rfl⟩

/-- C26: for every codec with original dimensions of at least 1x1 whose
`getSampledDimensions` does not grow, in width or in height, with the sample size, and for
every desired size, `computeSampleSize` returns: its loops end within `width + height`
iterations, so every fuel above that gives a result (the bound of 1 on the sampled
dimensions is not needed for this). -/
theorem computeSampleSize_terminates (codec : SkAndroidCodec) (desiredSize : SkISize)
    (horig : 1 ≤ codec.dimensions.fWidth ∧ 1 ≤ codec.dimensions.fHeight)
    (hmono : ∀ s t, 1 ≤ s → s ≤ t →
      (codec.getSampledDimensions t).fWidth ≤ (codec.getSampledDimensions s).fWidth ∧
        (codec.getSampledDimensions t).fHeight ≤ (codec.getSampledDimensions s).fHeight)
    (fuel : Nat)
    (hfuel : (codec.dimensions.fWidth + codec.dimensions.fHeight).toNat < fuel) :
    ∃ r, codec.computeSampleSize fuel desiredSize = some r := by
  obtain ⟨hb1, hb2, _, _⟩ := handleBadInput_ge desiredSize
  unfold computeSampleSize
  split_ifs with h1 h2 h3
  · exact ⟨_, rfl⟩
  · exact ⟨_, rfl⟩
  · exact ⟨_, rfl⟩
  · have hns : smaller_than codec.dimensions desiredSize = false := by
      cases hb : smaller_than codec.dimensions desiredSize
      · rfl
      · exact absurd hb h2
    rw [smaller_than_eq_false] at hns
    have hdw : (handleBadInput desiredSize).fWidth ≤ codec.dimensions.fWidth := by
      unfold handleBadInput
      split
      · exact max_le (by omega) (by omega)
      · omega
    have hdh : (handleBadInput desiredSize).fHeight ≤ codec.dimensions.fHeight := by
      unfold handleBadInput
      split
      · exact max_le (by omega) (by omega)
      · omega
    have hs0 : 1 ≤ initialSampleSize codec (handleBadInput desiredSize) := by
      unfold initialSampleSize
      exact le_min (one_le_tdiv _ _ hb1 hdw) (one_le_tdiv _ _ hb2 hdh)
    have hs1 : initialSampleSize codec (handleBadInput desiredSize) ≤
        codec.dimensions.fWidth := by
      unfold initialSampleSize
      exact le_trans (min_le_left _ _) (tdiv_le_self _ _ (by omega) hb1)
    unfold sampleSizeFor
    split_ifs with h4 h5 h6 h7
    · exact ⟨_, rfl⟩
    · exact ⟨_, rfl⟩
    · simp only [strictly_bigger_than, Bool.and_eq_true, decide_eq_true_eq] at h6
      obtain ⟨m1, m2⟩ := hmono 1 _ (le_refl 1) hs0
      rw [getSampledDimensions_one] at m1 m2
      exact tighterFit_terminates codec _ hmono fuel _ hs0 (by omega) (by omega) (by omega)
    · exact ⟨_, rfl⟩
    · exact makeLarger_terminates codec _ fuel _ (by omega)

/-- The sampled dimensions of a `sampled` codec with dimensions of at least 1x1 do not grow
with the sample size. -/
theorem sampled_getSampledDimensions_mono (dims : SkISize)
    (hdims : 1 ≤ dims.fWidth ∧ 1 ≤ dims.fHeight) (s t : Int) (hs : 1 ≤ s) (hst : s ≤ t) :
    ((sampled dims).getSampledDimensions t).fWidth ≤
        ((sampled dims).getSampledDimensions s).fWidth ∧
      ((sampled dims).getSampledDimensions t).fHeight ≤
        ((sampled dims).getSampledDimensions s).fHeight := by
  have key : ∀ a : Int, 1 ≤ a →
      (max 1 (Int.tdiv a t) ≤ a) ∧ (max 1 (Int.tdiv a t) ≤ max 1 (Int.tdiv a s)) := by
    intro a ha
    refine ⟨max_le ha (tdiv_le_self a t (by omega) (by omega)), ?_⟩
    apply max_le_max (le_refl 1)
    rw [Int.tdiv_eq_ediv (by omega) (by omega), Int.tdiv_eq_ediv (by omega) (by omega)]
    apply Int.le_ediv_of_mul_le (by omega)
    have h1 : a / t * t ≤ a := Int.ediv_mul_le a (by omega)
    have h2 : 0 ≤ a / t := Int.ediv_nonneg (by omega) (by omega)
    nlinarith
  have hvs : is_valid_sample_size s = true := by simp [is_valid_sample_size]; omega
  have hvt : is_valid_sample_size t = true := by simp [is_valid_sample_size]; omega
  simp only [getSampledDimensions, hvs, hvt, Bool.true_eq_false, if_false]
  by_cases h1 : 1 = s
  · by_cases h2 : 1 = t
    · simp [← h1, ← h2]
    · rw [if_pos h1, if_neg h2]
      exact ⟨(key _ hdims.1).1, (key _ hdims.2).1⟩
  · have h2 : ¬ 1 = t := by omega
    rw [if_neg h1, if_neg h2]
    exact ⟨(key _ hdims.1).2, (key _ hdims.2).2⟩

/-- Witness for C26: a 100x100 codec asked for 30x30 goes through the tighter-fit loop and
returns with any fuel above 200. -/
theorem computeSampleSize_terminates_witness :
    ∃ r, (sampled { fWidth := 100, fHeight := 100 }).computeSampleSize 201
      { fWidth := 30, fHeight := 30 } = some r :=
  computeSampleSize_terminates (sampled { fWidth := 100, fHeight := 100 })
    { fWidth := 30, fHeight := 30 } (by decide)
    (sampled_getSampledDimensions_mono _ (by decide)) 201 (by decide)

end SkAndroidCodec

namespace SkRasterPipeline

/-! ## Loop-mask and return-mask stages -/

/-- The complement of a 32-bit word is the word with every one of the 32 bits flipped. -/
theorem complement_eq (w : Nat) (h : w < 4294967296) : complement w = 4294967295 - w := by
  apply Nat.eq_of_testBit_eq
  intro i
  have e : 4294967295 - w = 2 ^ 32 - (w + 1) := by omega
  have e2 : (4294967295 : Nat) = 2 ^ 32 - 1 := by norm_num
  rw [e, Nat.testBit_two_pow_sub_succ (by simpa using h)]
  unfold complement kAllOnes
  rw [Nat.testBit_xor, e2, Nat.testBit_two_pow_sub_one]
  by_cases hi : i < 32
  · simp [hi]
  · have hw : w.testBit i = false := by
      apply Nat.testBit_eq_false_of_lt
      calc w < 2 ^ 32 := by simpa using h
        _ ≤ 2 ^ i := Nat.pow_le_pow_right (by norm_num) (by omega)
    simp [hi, hw]

/-- C22: for every register state, whether or not `da` holds `dr & dg & db`, each of
`merge_loop_mask`, `reenable_loop_mask`, `mask_off_loop_mask` and `mask_off_return_mask`
leaves `da` equal to `dr & dg & db` in every lane and changes only its own mask:
`merge_loop_mask` sets `dg` to `dg & mask`, `reenable_loop_mask` sets `dg` to `dg | mask`,
`mask_off_loop_mask` sets `dg` to `dg & ~da` and `mask_off_return_mask` sets `db` to
`db & ~da`, with `da` as it was before the stage and `~` the complement of a 32-bit word;
the four tests pass with 4 and with 8 lanes. -/
theorem mask_stages_recompute_combined (N active ptr : Nat) (st : State) :
    MaskStageEffect st ((Stage.merge_loop_mask ptr).exec N active st).1 st.regs.dr
        (fun lane => st.regs.dg lane &&& loadVec N ptr st.mem lane) st.regs.db ∧
      MaskStageEffect st ((Stage.reenable_loop_mask ptr).exec N active st).1 st.regs.dr
        (fun lane => st.regs.dg lane ||| loadVec N ptr st.mem lane) st.regs.db ∧
      MaskStageEffect st (Stage.mask_off_loop_mask.exec N active st).1 st.regs.dr
        (fun lane => st.regs.dg lane &&& complement (st.regs.da lane)) st.regs.db ∧
      MaskStageEffect st (Stage.mask_off_return_mask.exec N active st).1 st.regs.dr
        st.regs.dg (fun lane => st.regs.db lane &&& complement (st.regs.da lane)) ∧
      ((Stage.merge_loop_mask ptr).exec N active st).2 = 1 ∧
      ((Stage.reenable_loop_mask ptr).exec N active st).2 = 1 ∧
      (Stage.mask_off_loop_mask.exec N active st).2 = 1 ∧
      (Stage.mask_off_return_mask.exec N active st).2 = 1 ∧
      (∀ w, w < 4294967296 → complement w = 4294967295 - w) ∧
      maskTestsPass 4 = true ∧ maskTestsPass 8 = true := by
  refine ⟨?_, ?_, ?_, ?_, rfl, rfl, rfl, rfl, complement_eq, by decide, by decide⟩ <;>
    exact ⟨rfl, rfl, rfl, fun _ => rfl, rfl, rfl, rfl, rfl, rfl⟩

end SkRasterPipeline
